import Mathlib

/-!
# imgcmp: the B+ tree engine, the thumbnail cache, the hash table

A shallow embedding of the B+ tree of imgcmp (`bptree.c`, `bptree.h`), in the default
build of `bptree.h` (`BT_NBRANCHES = 4`, neither `BT_NO_DUPS` nor `BT_USE_BINS`; the
insertion path of the `BT_NO_DUPS` build has definitions of its own), followed by
the thumbnail cache file and the match engine (`thumb.c`), the hash table
(`hashtable.c`) and `strrplcpy` (`main.c`), each section with its conventions.

Modelling conventions.

* The mapped file is a typed heap: a finite map from byte offsets (relative to
  `baseaddr`) to nodes and leaves.  The header lives at offset 0 and is kept in a
  field of its own.  Dereferencing offset 0 as a node or a leaf, dereferencing an
  offset that holds no object, or reinterpreting a node as a leaf (or the reverse)
  is undefined behaviour of the C program and is reported as a `Fault`.
* `KEYTYPE` is `float` in the source.  Keys are modelled as integers: the order of
  non-NaN floats is a total order and the claims only use comparisons.
* Unsigned fields are natural numbers.  The 32-bit quantities that grow with the
  tree wrap as in C: `filesize`, `offset + size`, `maplen << 1`, `header->usedsize`,
  `nnodes`, `nleaves`, `nitems`; so does the 8-bit `header->depth`.
* Arena growth goes through `MMFileResize`, whose outcome is up to the operating
  system: the field `os` of a handle lists, by requested length, whether the call
  fails or at which address the file is mapped again; a length that is not listed
  is mapped again at the old address.  `bptree.c` keeps raw pointers (`bpt->root`,
  and `leaf`, `node` in the split functions) across `_BptAllocateSpace`: when the
  mapping has moved, the next use of such a pointer is `Fault.stale`.
* The fixed arrays `keys[B]`, `choffs[B+1]`, `items[B+1]` are lists of that length.
  A read past the end of an array (only `_BptShiftNodeLeft` does it, into slots
  that are dead afterwards) yields a default value.
* `while` loops and the recursion of `_BptInsertWorker` are bounded by a fuel
  argument; the public operations pass `filesize`, which exceeds the number of
  objects in the arena.  Exhausting the fuel is `Fault.fuel`.
-/

namespace Imgcmp

/-! ## Compile-time configuration and constants (`bptree.h`) -/

abbrev KEYTYPE := Int
abbrev VALTYPE := Nat

abbrev BT_NBRANCHES : Nat := 4

abbrev BT_OVERFLOW : Int := -1
abbrev BT_ERROR : Int := -1
abbrev BT_NOTFOUND : Int := 0

abbrev BT_LEAF : Nat := 0x80000000
abbrev BT_BIN : Nat := 0x40000000
abbrev BT_DELETED : Nat := 0x20000000

/-- The multi-character constant 'BTDB'. -/
abbrev BT_SIGNATURE : Nat := 0x42544442

/-- Value of `sizeof(BTHEADER)`: seven 32-bit words. -/
abbrev SIZEOF_BTHEADER : Nat := 28
/-- Value of `sizeof(BTNODE)`: `4 + 4 * B + 4 * (B + 1)`. -/
abbrev SIZEOF_BTNODE : Nat := 40
/-- Value of `sizeof(BTLEAF)`: `4 + 8 * (B + 1) + 4 + 4`. -/
abbrev SIZEOF_BTLEAF : Nat := 52
/-- Value of `BT_FILE_INITIAL_SIZE`: header, one node, two leaves. -/
abbrev BT_FILE_INITIAL_SIZE : Nat := SIZEOF_BTHEADER + SIZEOF_BTNODE + 2 * SIZEOF_BTLEAF

/-! ## Data model -/

structure KVPAIR where
  key : KEYTYPE
  val : VALTYPE
  deriving DecidableEq, Repr, Inhabited

structure BTHEADER where
  signature : Nat
  bfactor : Nat
  itemattrib : Nat
  depth : Nat
  dirty : Nat
  nnodes : Nat
  nleaves : Nat
  nitems : Nat
  usedsize : Nat
  rootoff : Nat
  deriving DecidableEq, Repr

structure BTNODE where
  nitems : Nat
  keys : List KEYTYPE
  choffs : List Nat
  deriving DecidableEq, Repr

structure BTLEAF where
  attribs : Nat
  items : List KVPAIR
  prevoff : Nat
  nextoff : Nat
  deriving DecidableEq, Repr

/-- An object of the arena. -/
inductive BTOBJ where
  | node (n : BTNODE)
  | leaf (l : BTLEAF)
  deriving DecidableEq, Repr

/-- What the operating system does in one call of `MMFileResize`: the call fails
(it returns 0), or the file is mapped again and `mmap` returns the address `addr`. -/
inductive Remap where
  | failed
  | mappedAt (addr : Nat)
  deriving DecidableEq, Repr

/-- The handle `BPTREE`: `root` is the offset of `bpt->root` from the `baseaddr` at
which it was computed, `header` is the header at offset 0, `mem` the objects behind
it, `maplen` is `fmi.maplen`, `baseaddr` the address of the mapping (`bpt->baseaddr`,
which is `fmi.addr`), counted from the address `MMFileOpen` returned.  The field
`os` is no part of the C structure: it is the environment, the outcome of
`MMFileResize` for a requested length. -/
structure BPTREE where
  root : Nat
  header : BTHEADER
  mem : List (Nat × BTOBJ)
  filesize : Nat
  maplen : Nat
  baseaddr : Nat := 0
  os : List (Nat × Remap) := []
  deriving DecidableEq, Repr

/-- Undefined behaviour of the C program, and fuel exhaustion. -/
inductive Fault where
  | header
  | unmapped
  | typepun
  | overrun
  | fuel
  | stale
  deriving DecidableEq, Repr

/-- The macro `BTNITEMS(x)`, `attribs & ~BT_FLAGS`: the low 29 bits. -/
def BTNITEMS (leaf : BTLEAF) : Nat := leaf.attribs % BT_DELETED

/-- The test `word & BT_LEAF` on the first word of an object. -/
def isLeafWord (w : Nat) : Bool := w / BT_LEAF % 2 == 1

/-- First 32-bit word of an object: `nitems` of a node, `attribs` of a leaf. -/
def BTOBJ.word0 : BTOBJ → Nat
  | .node n => n.nitems
  | .leaf l => l.attribs

/-- The cast `(LPBTLEAF)p`. -/
def BTOBJ.asLeaf : BTOBJ → Except Fault BTLEAF
  | .leaf l => .ok l
  | .node _ => .error .typepun

/-- The cast `(LPBTNODE)p`. -/
def BTOBJ.asNode : BTOBJ → Except Fault BTNODE
  | .node n => .ok n
  | .leaf _ => .error .typepun

/-- Replace or add the object at `off`. -/
def memStore : List (Nat × BTOBJ) → Nat → BTOBJ → List (Nat × BTOBJ)
  | [], off, o => [(off, o)]
  | (a, x) :: rest, off, o =>
    if a = off then (a, o) :: rest else (a, x) :: memStore rest off o

/-- The object at `off`, if one was stored there. -/
def memLoad : List (Nat × BTOBJ) → Nat → Option BTOBJ
  | [], _ => none
  | (a, x) :: rest, off => if a = off then some x else memLoad rest off

/-- Dereference `baseaddr + off`. -/
def BPTREE.load (bpt : BPTREE) (off : Nat) : Except Fault BTOBJ :=
  if off = 0 then .error .header
  else match memLoad bpt.mem off with
    | some o => .ok o
    | none => .error .unmapped

def BPTREE.loadLeaf (bpt : BPTREE) (off : Nat) : Except Fault BTLEAF :=
  bpt.load off >>= BTOBJ.asLeaf

def BPTREE.loadNode (bpt : BPTREE) (off : Nat) : Except Fault BTNODE :=
  bpt.load off >>= BTOBJ.asNode

def BPTREE.store (bpt : BPTREE) (off : Nat) (o : BTOBJ) : BPTREE :=
  { bpt with mem := memStore bpt.mem off o }

def BPTREE.storeLeaf (bpt : BPTREE) (off : Nat) (l : BTLEAF) : BPTREE :=
  bpt.store off (.leaf l)

def BPTREE.storeNode (bpt : BPTREE) (off : Nat) (n : BTNODE) : BPTREE :=
  bpt.store off (.node n)

/-- Array read `a[i]`. -/
def rd {α : Type} [Inhabited α] (a : List α) (i : Nat) : α := a.getD i default

/-- Array write `a[i] = v`. -/
def wr {α : Type} (a : List α) (i : Nat) (v : α) : List α := a.set i v

/-- Zero-filled node, as found in fresh arena space. -/
def zeroNode : BTNODE :=
  { nitems := 0, keys := List.replicate BT_NBRANCHES 0,
    choffs := List.replicate (BT_NBRANCHES + 1) 0 }

/-- Zero-filled leaf, as found in fresh arena space. -/
def zeroLeaf : BTLEAF :=
  { attribs := 0, items := List.replicate (BT_NBRANCHES + 1) ⟨0, 0⟩,
    prevoff := 0, nextoff := 0 }

/-! ## Creation (`_BptInitNewDB`, `BptOpen` on a new file) -/

/-- The function `_BptInitNewDB` applied to a zero-filled mapping, followed by
the part of `BptOpen` that fills the handle. -/
def _BptInitNewDB : BPTREE :=
  { root := SIZEOF_BTHEADER,
    header :=
      { signature := BT_SIGNATURE, bfactor := BT_NBRANCHES, itemattrib := 0,
        depth := 0, dirty := 0, nnodes := 0, nleaves := 1, nitems := 0,
        usedsize := SIZEOF_BTHEADER + SIZEOF_BTLEAF, rootoff := SIZEOF_BTHEADER },
    mem := [(SIZEOF_BTHEADER, .leaf { zeroLeaf with attribs := BT_LEAF })],
    filesize := SIZEOF_BTHEADER + SIZEOF_BTLEAF,
    maplen := BT_FILE_INITIAL_SIZE }

/-! ## Shifts and gaps -/

/-- The function `_BptShiftLeafLeft`. -/
def _BptShiftLeafLeft (leaf : BTLEAF) : BTLEAF :=
  { leaf with
    items := (List.range (BTNITEMS leaf)).foldl
      (fun items i => wr items i (rd items (i + 1))) leaf.items }

/-- The function `_BptShiftLeafRight`. -/
def _BptShiftLeafRight (leaf : BTLEAF) : BTLEAF :=
  { leaf with
    items := ((List.range (BTNITEMS leaf)).reverse).foldl
      (fun items j => wr items (j + 1) (rd items j)) leaf.items }

/-- The function `_BptShiftNodeLeft`. -/
def _BptShiftNodeLeft (node : BTNODE) : BTNODE :=
  let node := (List.range node.nitems).foldl
    (fun (nd : BTNODE) i =>
      { nd with keys := wr nd.keys i (rd nd.keys (i + 1)),
                choffs := wr nd.choffs i (rd nd.choffs (i + 1)) }) node
  { node with choffs := wr node.choffs node.nitems (rd node.choffs (node.nitems + 1)) }

/-- The function `_BptShiftNodeRight`. -/
def _BptShiftNodeRight (node : BTNODE) : BTNODE :=
  let node := ((List.range node.nitems).reverse).foldl
    (fun (nd : BTNODE) j =>
      { nd with keys := wr nd.keys (j + 1) (rd nd.keys j),
                choffs := wr nd.choffs (j + 2) (rd nd.choffs (j + 1)) }) node
  { node with choffs := wr node.choffs 1 (rd node.choffs 0) }

/-- Loop of `_BptMakeSpaceLeaf`, entered with the loop variable `i`. -/
def makeSpaceLeafLoop (key : KEYTYPE) : Nat → List KVPAIR → Nat × List KVPAIR
  | 0, items => (0, items)
  | i + 1, items =>
    if key < (rd items i).key then
      makeSpaceLeafLoop key i (wr items (i + 1) (rd items i))
    else (i + 1, items)

/-- The function `_BptMakeSpaceLeaf`: the index of the gap and the shifted leaf. -/
def _BptMakeSpaceLeaf (leaf : BTLEAF) (key : KEYTYPE) : Nat × BTLEAF :=
  let r := makeSpaceLeafLoop key (BTNITEMS leaf) leaf.items
  (r.1, { leaf with items := r.2 })

/-- The function `_BptMakeSpaceNode`. -/
def _BptMakeSpaceNode (node : BTNODE) (index : Nat) : BTNODE :=
  ((List.range (node.nitems - index)).reverse).foldl
    (fun (nd : BTNODE) d =>
      { nd with keys := wr nd.keys (index + d + 1) (rd nd.keys (index + d)),
                choffs := wr nd.choffs (index + d + 2) (rd nd.choffs (index + d + 1)) }) node

/-! ## Allocation -/

/-- The function `MMFileResize` (`mmfile.c`) on `bpt->fmi`: whether it succeeded, and
the handle with `fmi.addr` and `fmi.maplen` set.  The outcome is read off `os`.  When
the call fails after its `munmap` the old mapping is gone; the model keeps the
objects readable, the case most favourable to the callers. -/
def MMFileResize (bpt : BPTREE) (newlen : Nat) : Bool × BPTREE :=
  match (bpt.os.lookup newlen).getD (.mappedAt bpt.baseaddr) with
  | .failed => (false, bpt)
  | .mappedAt addr => (true, { bpt with baseaddr := addr, maplen := newlen })

/-- The function `_BptAllocateSpace`, in 32-bit arithmetic: 0 when the resize fails,
else the old `filesize`.  The assignment `bpt->baseaddr = bpt->fmi.addr` is the
update of the one field `baseaddr` by `MMFileResize`. -/
def _BptAllocateSpace (bpt : BPTREE) (size : Nat) : Nat × BPTREE :=
  let offset := bpt.filesize
  let r := if (offset + size) % 4294967296 > bpt.maplen then
      MMFileResize bpt (bpt.maplen * 2 % 4294967296) else (true, bpt)
  if r.1 = false then (0, r.2)
  else
    let bpt := r.2
    let bpt := { bpt with filesize := (bpt.filesize + size) % 4294967296 }
    let bpt := { bpt with header := { bpt.header with usedsize := bpt.filesize } }
    (offset, bpt)

/-- The function `_BptCreateNode`; fresh space holds a zero-filled node. -/
def _BptCreateNode (bpt : BPTREE) : Nat × BPTREE :=
  let r := _BptAllocateSpace bpt SIZEOF_BTNODE
  let bpt := if r.1 ≠ 0 then r.2.storeNode r.1 zeroNode else r.2
  let bpt := if r.1 ≠ 0 then
      { bpt with header := { bpt.header with nnodes := (bpt.header.nnodes + 1) % 4294967296 } }
    else bpt
  (r.1, bpt)

/-- The function `_BptCreateLeaf`; fresh space holds a zero-filled leaf. -/
def _BptCreateLeaf (bpt : BPTREE) : Nat × BPTREE :=
  let r := _BptAllocateSpace bpt SIZEOF_BTLEAF
  let bpt := if r.1 ≠ 0 then r.2.storeLeaf r.1 zeroLeaf else r.2
  let bpt := if r.1 ≠ 0 then
      { bpt with header := { bpt.header with nleaves := (bpt.header.nleaves + 1) % 4294967296 } }
    else bpt
  (r.1, bpt)

/-! ## Splits -/

/-- The function `_BptSplitNode`, on the node at offset `node`. -/
def _BptSplitNode (bpt : BPTREE) (node : Nat) : Except Fault (Nat × BPTREE) := do
  let r := _BptCreateNode bpt
  let offset := r.1
  if offset = 0 then return (0, r.2)
  if r.2.baseaddr ≠ bpt.baseaddr then throw Fault.stale
  let bpt := r.2
  let old ← bpt.loadNode node
  let newnode ← bpt.loadNode offset
  let newnode := (List.range (BT_NBRANCHES / 2)).foldl
    (fun (nd : BTNODE) i =>
      { nd with keys := wr nd.keys i (rd old.keys (i + BT_NBRANCHES / 2)),
                choffs := wr nd.choffs i (rd old.choffs (i + BT_NBRANCHES / 2)) }) newnode
  let newnode :=
    { newnode with choffs := wr newnode.choffs (BT_NBRANCHES / 2) (rd old.choffs BT_NBRANCHES) }
  let newnode := { newnode with nitems := BT_NBRANCHES / 2 }
  let old := { old with nitems := BT_NBRANCHES / 2 - 1 }
  let bpt := bpt.storeNode offset newnode
  let bpt := bpt.storeNode node old
  return (offset, bpt)

/-- The function `_BptSplitLeaf`, on the leaf at offset `leaf`. -/
def _BptSplitLeaf (bpt : BPTREE) (leaf : Nat) : Except Fault (Nat × BPTREE) := do
  let r := _BptCreateLeaf bpt
  let offset := r.1
  if r.2.baseaddr ≠ bpt.baseaddr then throw Fault.stale
  let bpt := r.2
  let old ← bpt.loadLeaf leaf
  let newleaf ← bpt.loadLeaf offset
  let newleaf := (List.range (BT_NBRANCHES / 2 + 1)).foldl
    (fun (lf : BTLEAF) i =>
      { lf with items := wr lf.items i (rd old.items (i + BT_NBRANCHES / 2)) }) newleaf
  let newleaf := { newleaf with attribs := (BT_NBRANCHES / 2 + 1) ||| BT_LEAF }
  let old := { old with attribs := (BT_NBRANCHES / 2) ||| BT_LEAF }
  let newleaf := { newleaf with prevoff := leaf }
  let newleaf := { newleaf with nextoff := old.nextoff }
  let old := { old with nextoff := offset }
  let bpt := bpt.storeLeaf offset newleaf
  let bpt := bpt.storeLeaf leaf old
  return (offset, bpt)

/-! ## Redistribution

The parent, the child and its sibling are distinct objects in every tree that
`BptInsert` builds; each function works on copies and writes them back. -/

/-- The function `_BptRedistributeNodeLeft`. -/
def _BptRedistributeNodeLeft (bpt : BPTREE) (parent : Nat) (chindex : Nat) :
    Except Fault (Int × BPTREE) := do
  let par ← bpt.loadNode parent
  let childoff := rd par.choffs chindex
  if chindex > 0 then
    let lchildoff := rd par.choffs (chindex - 1)
    let lchild ← bpt.loadNode lchildoff
    if lchild.nitems < BT_NBRANCHES - 2 then
      let child ← bpt.loadNode childoff
      let childoffset := rd child.choffs 0
      let lchild := { lchild with keys := wr lchild.keys lchild.nitems (rd par.keys (chindex - 1)) }
      let lchild := { lchild with choffs := wr lchild.choffs (lchild.nitems + 1) childoffset }
      let par := { par with keys := wr par.keys chindex (rd child.keys 0) }
      let child := _BptShiftNodeLeft child
      let lchild := { lchild with nitems := lchild.nitems + 1 }
      let child := { child with nitems := child.nitems - 1 }
      let bpt := bpt.storeNode lchildoff lchild
      let bpt := bpt.storeNode parent par
      let bpt := bpt.storeNode childoff child
      return (1, bpt)
    else return (0, bpt)
  else return (0, bpt)

/-- The function `_BptRedistributeNodeRight`. -/
def _BptRedistributeNodeRight (bpt : BPTREE) (parent : Nat) (chindex : Nat) :
    Except Fault (Int × BPTREE) := do
  let par ← bpt.loadNode parent
  let childoff := rd par.choffs chindex
  if chindex < par.nitems then
    let rchildoff := rd par.choffs (chindex + 1)
    let rchild ← bpt.loadNode rchildoff
    if rchild.nitems < BT_NBRANCHES - 1 then
      let child ← bpt.loadNode childoff
      let childoffset := rd child.choffs BT_NBRANCHES
      let rchild := _BptShiftNodeRight rchild
      let rchild := { rchild with keys := wr rchild.keys 0 (rd par.keys chindex) }
      let rchild := { rchild with choffs := wr rchild.choffs 0 childoffset }
      let par := { par with keys := wr par.keys chindex (rd child.keys (BT_NBRANCHES - 1)) }
      let rchild := { rchild with nitems := rchild.nitems + 1 }
      let child := { child with nitems := child.nitems - 1 }
      let bpt := bpt.storeNode rchildoff rchild
      let bpt := bpt.storeNode parent par
      let bpt := bpt.storeNode childoff child
      return (1, bpt)
    else return (0, bpt)
  else return (0, bpt)

/-- The function `_BptRedistributeLeafLeft`. -/
def _BptRedistributeLeafLeft (bpt : BPTREE) (parent : Nat) (chindex : Nat) :
    Except Fault (Int × BPTREE) := do
  let par ← bpt.loadNode parent
  let childoff := rd par.choffs chindex
  if chindex > 0 then
    let lchildoff := rd par.choffs (chindex - 1)
    let lchild ← bpt.loadLeaf lchildoff
    if BTNITEMS lchild < BT_NBRANCHES then
      let child ← bpt.loadLeaf childoff
      let lchild := { lchild with items := wr lchild.items (BTNITEMS lchild) (rd child.items 0) }
      let lchild := { lchild with attribs := lchild.attribs + 1 }
      let child := { child with attribs := child.attribs - 1 }
      let child := _BptShiftLeafLeft child
      let bpt := bpt.storeLeaf lchildoff lchild
      let bpt := bpt.storeLeaf childoff child
      return (1, bpt)
    else return (0, bpt)
  else return (0, bpt)

/-- The function `_BptRedistributeLeafRight`. -/
def _BptRedistributeLeafRight (bpt : BPTREE) (parent : Nat) (chindex : Nat) :
    Except Fault (Int × BPTREE) := do
  let par ← bpt.loadNode parent
  let childoff := rd par.choffs chindex
  if chindex < par.nitems then
    let rchildoff := rd par.choffs (chindex + 1)
    let rchild ← bpt.loadLeaf rchildoff
    if BTNITEMS rchild < BT_NBRANCHES then
      let child ← bpt.loadLeaf childoff
      let rchild := { rchild with attribs := rchild.attribs + 1 }
      let child := { child with attribs := child.attribs - 1 }
      let rchild := _BptShiftLeafRight rchild
      let rchild := { rchild with items := wr rchild.items 0 (rd child.items (BTNITEMS child)) }
      let bpt := bpt.storeLeaf rchildoff rchild
      let bpt := bpt.storeLeaf childoff child
      return (1, bpt)
    else return (0, bpt)
  else return (0, bpt)

/-! ## Insertion -/

/-- The descent loop `for (i = 0; i != nitems && keys[i] <= key; i++);` with
`r` iterations left before `i` reaches `nitems`. -/
def nodeScan (keys : List KEYTYPE) (key : KEYTYPE) : Nat → Nat → Nat
  | 0, i => i
  | r + 1, i => if rd keys i ≤ key then nodeScan keys key r (i + 1) else i

/-- The search loop `for (i = 0; i != BTNITEMS(leaf) && key != items[i].key; i++);`
with `r` iterations left before `i` reaches the item count. -/
def leafFind (items : List KVPAIR) (key : KEYTYPE) : Nat → Nat → Nat
  | 0, i => i
  | r + 1, i => if key ≠ (rd items i).key then leafFind items key r (i + 1) else i

/-- The leaf case of `_BptInsertWorker` on the leaf itself (bptree.c lines 539-545):
make room, store the pair, count it. -/
def leafPut (leaf : BTLEAF) (key : KEYTYPE) (value : VALTYPE) : BTLEAF :=
  let r := _BptMakeSpaceLeaf leaf key
  let i := r.1
  let leaf := r.2
  let leaf := { leaf with items := wr leaf.items i { key := key, val := value } }
  { leaf with attribs := leaf.attribs + 1 }

/-- Overflow of the leaf child `choffs[i]` of `btree` in `_BptInsertWorker`
(bptree.c lines 564-580). -/
def insertFixLeaf (bpt : BPTREE) (btree : Nat) (i : Nat) : Except Fault BPTREE := do
  let node ← bpt.loadNode btree
  let choff := rd node.choffs i
  let r ← _BptRedistributeLeafLeft bpt btree i
  if r.1 ≠ 0 then
    let bpt := r.2
    let child ← bpt.loadLeaf choff
    let node ← bpt.loadNode btree
    return bpt.storeNode btree { node with keys := wr node.keys (i - 1) (rd child.items 0).key }
  else
    let r ← _BptRedistributeLeafRight r.2 btree i
    if r.1 ≠ 0 then
      let bpt := r.2
      let node ← bpt.loadNode btree
      let rchild ← bpt.loadLeaf (rd node.choffs (i + 1))
      return bpt.storeNode btree { node with keys := wr node.keys i (rd rchild.items 0).key }
    else
      let r ← _BptSplitLeaf r.2 choff
      let newchoff := r.1
      let bpt := r.2
      let newchild ← bpt.loadLeaf newchoff
      let newkey := (rd newchild.items 0).key
      let node ← bpt.loadNode btree
      let node := _BptMakeSpaceNode node i
      let node := { node with keys := wr node.keys i newkey }
      let node := { node with choffs := wr node.choffs (i + 1) newchoff }
      let node := { node with nitems := node.nitems + 1 }
      return bpt.storeNode btree node

/-- Overflow of the node child `choffs[i]` of `btree` in `_BptInsertWorker`
(bptree.c lines 581-598). -/
def insertFixNode (bpt : BPTREE) (btree : Nat) (i : Nat) : Except Fault BPTREE := do
  let node ← bpt.loadNode btree
  let choff := rd node.choffs i
  let r ← _BptRedistributeNodeLeft bpt btree i
  if r.1 ≠ 0 then return r.2
  else
    let r ← _BptRedistributeNodeRight r.2 btree i
    if r.1 ≠ 0 then return r.2
    else
      let r ← _BptSplitNode r.2 choff
      let newchoff := r.1
      let bpt := r.2
      let nchild ← bpt.loadNode choff
      let newkey := rd nchild.keys (BT_NBRANCHES / 2 - 1)
      let node ← bpt.loadNode btree
      let node := _BptMakeSpaceNode node i
      let node := { node with choffs := wr node.choffs (i + 1) newchoff }
      let node := { node with keys := wr node.keys i newkey }
      let node := { node with nitems := node.nitems + 1 }
      return bpt.storeNode btree node

/-- The function `_BptInsertWorker`; `btree` is the offset of the node or leaf. -/
def _BptInsertWorker : Nat → BPTREE → Nat → KEYTYPE → VALTYPE → Except Fault (Int × BPTREE)
  | 0, _, _, _, _ => .error .fuel
  | fuel + 1, bpt, btree, key, value => do
    let obj ← bpt.load btree
    if isLeafWord obj.word0 then
      let leaf ← obj.asLeaf
      let leaf := leafPut leaf key value
      let bpt := bpt.storeLeaf btree leaf
      let bpt := { bpt with
        header := { bpt.header with nitems := (bpt.header.nitems + 1) % 4294967296 } }
      if BTNITEMS leaf = BT_NBRANCHES + 1 then return (BT_OVERFLOW, bpt)
      else return (1, bpt)
    else
      let node ← obj.asNode
      let i := nodeScan node.keys key node.nitems 0
      let choff := rd node.choffs i
      let r ← _BptInsertWorker fuel bpt choff key value
      let result := r.1
      let bpt := r.2
      if result = 0 then return (0, bpt)
      else if result = BT_OVERFLOW then
        let child ← bpt.load choff
        let bpt ← if isLeafWord child.word0 then insertFixLeaf bpt btree i
                  else insertFixNode bpt btree i
        let node ← bpt.loadNode btree
        if node.nitems = BT_NBRANCHES then return (BT_OVERFLOW, bpt)
        else return (1, bpt)
      else return (1, bpt)

/-- The function `BptInsert` on a non-NULL handle: return value and new state. -/
def BptInsert (bpt : BPTREE) (key : KEYTYPE) (value : VALTYPE) : Except Fault (Int × BPTREE) := do
  let bpt := { bpt with header := { bpt.header with dirty := 1 } }
  let r ← _BptInsertWorker bpt.filesize bpt bpt.root key value
  let result := r.1
  let bpt := r.2
  if result = 0 then return (0, bpt)
  else
    let bpt ← if result = BT_OVERFLOW then do
        let base := bpt.baseaddr
        let r := _BptCreateNode bpt
        let newrootoff := r.1
        let bpt := r.2
        let newroot ← bpt.loadNode newrootoff
        let bpt := bpt.storeNode newrootoff { newroot with nitems := 1 }
        if bpt.baseaddr ≠ base then throw Fault.stale
        let rootobj ← bpt.load bpt.root
        let (newchildoff, bpt) ← if isLeafWord rootobj.word0 then do
            let r ← _BptSplitLeaf bpt bpt.root
            let newleaf ← r.2.loadLeaf r.1
            let newroot ← r.2.loadNode newrootoff
            let bpt := r.2.storeNode newrootoff
              { newroot with keys := wr newroot.keys 0 (rd newleaf.items 0).key }
            pure (r.1, bpt)
          else do
            let r ← _BptSplitNode bpt bpt.root
            let oldroot ← r.2.loadNode r.2.root
            let newroot ← r.2.loadNode newrootoff
            let bpt := r.2.storeNode newrootoff
              { newroot with keys := wr newroot.keys 0 (rd oldroot.keys (BT_NBRANCHES / 2 - 1)) }
            pure (r.1, bpt)
        let newroot ← bpt.loadNode newrootoff
        let newroot := { newroot with choffs := wr newroot.choffs 0 bpt.root }
        let newroot := { newroot with choffs := wr newroot.choffs 1 newchildoff }
        let bpt := bpt.storeNode newrootoff newroot
        let bpt := { bpt with root := newrootoff }
        let bpt := { bpt with header := { bpt.header with rootoff := newrootoff } }
        let bpt := { bpt with header := { bpt.header with depth := (bpt.header.depth + 1) % 256 } }
        pure bpt
      else pure bpt
    let bpt := { bpt with header := { bpt.header with dirty := 0 } }
    return (1, bpt)

/-! ## Point lookup -/

/-- The function `_BptGetContainingLeaf`: the offset of the leaf reached. -/
def getContainingLeafLoop (bpt : BPTREE) (key : KEYTYPE) : Nat → Nat → Except Fault Nat
  | 0, _ => .error .fuel
  | fuel + 1, node => do
    let obj ← bpt.load node
    if isLeafWord obj.word0 then return node
    else
      let nd ← obj.asNode
      let i := nodeScan nd.keys key nd.nitems 0
      getContainingLeafLoop bpt key fuel (rd nd.choffs i)

/-- The function `_BptGetContainingLeaf`. -/
def _BptGetContainingLeaf (bpt : BPTREE) (key : KEYTYPE) : Except Fault Nat :=
  getContainingLeafLoop bpt key bpt.filesize bpt.root

/-- The function `BptSearch` on non-NULL arguments: the return value and the
value written to `*val`, if any. -/
def BptSearch (bpt : BPTREE) (key : KEYTYPE) : Except Fault (Int × Option VALTYPE) := do
  let off ← _BptGetContainingLeaf bpt key
  let leaf ← bpt.loadLeaf off
  let i := leafFind leaf.items key (BTNITEMS leaf) 0
  if i = BTNITEMS leaf then return (BT_NOTFOUND, none)
  else return (1, some (rd leaf.items i).val)

/-! ## Range query -/

/-- The loop `for (i = 0; i != BTNITEMS(leaf) && items[i].key < min; i++);` with
`r` iterations left. -/
def scanBelow (items : List KVPAIR) (min : KEYTYPE) : Nat → Nat → Nat
  | 0, i => i
  | r + 1, i => if (rd items i).key < min then scanBelow items min r (i + 1) else i

/-- The loop `for (i = 0; i != leafic && items[i].key <= max; i++);` with `r`
iterations left. -/
def scanUpto (items : List KVPAIR) (max : KEYTYPE) : Nat → Nat → Nat
  | 0, i => i
  | r + 1, i => if (rd items i).key ≤ max then scanUpto items max r (i + 1) else i

/-- The `while (1)` loop of `BptSearchRange` that scans the links for the end of
the range: yields `fleaf`, `fleafpos` and the count of the leaves passed. -/
def rangeEndLoop (bpt : BPTREE) (max : KEYTYPE) : Nat → Nat → Int → Except Fault (Nat × Nat × Int)
  | 0, _, _ => .error .fuel
  | fuel + 1, leaf, nitems => do
    let lf ← bpt.loadLeaf leaf
    let leafic := BTNITEMS lf
    if leafic ≠ 0 ∧ (rd lf.items (leafic - 1)).key > max then
      return (leaf, scanUpto lf.items max leafic 0, nitems)
    else if lf.nextoff = 0 then return (leaf, leafic, nitems)
    else rangeEndLoop bpt max fuel lf.nextoff (nitems + leafic)

/-- The copy loop of `BptSearchRange`; `cap` is the room left in the buffer
`results`, and writing past it is `Fault.overrun`. -/
def rangeCopyLoop (bpt : BPTREE) (fleaf fleafpos : Nat) :
    Nat → Nat → Nat → List KVPAIR → Except Fault (List KVPAIR)
  | 0, leaf, i, results =>
    if i ≠ fleafpos ∨ leaf ≠ fleaf then .error .overrun else return results
  | cap + 1, leaf, i, results =>
    if i ≠ fleafpos ∨ leaf ≠ fleaf then do
      let lf ← bpt.loadLeaf leaf
      let results := results ++ [rd lf.items i]
      let i := i + 1
      if i = BTNITEMS lf then
        if lf.nextoff = 0 then return results
        else rangeCopyLoop bpt fleaf fleafpos cap lf.nextoff 0 results
      else rangeCopyLoop bpt fleaf fleafpos cap leaf i results
    else return results

/-- The function `BptSearchRange` on non-NULL arguments: the return value and
the buffer written to `*matches_out`, if any. -/
def BptSearchRange (bpt : BPTREE) (min max : KEYTYPE) :
    Except Fault (Int × Option (List KVPAIR)) := do
  if max < min then return (BT_ERROR, none)
  else
    let leaf ← _BptGetContainingLeaf bpt min
    let lf ← bpt.loadLeaf leaf
    let i := scanBelow lf.items min (BTNITEMS lf) 0
    let (i, leaf) := if i = BTNITEMS lf then (0, lf.nextoff) else (i, leaf)
    let bleaf := leaf
    let bleafpos := i
    let (fleaf, fleafpos, nitems) ← rangeEndLoop bpt max bpt.filesize leaf 0
    let nitems := nitems + fleafpos
    let nitems := nitems - bleafpos
    if nitems = 0 then return (BT_NOTFOUND, none)
    else if nitems < 0 then return (BT_ERROR, none)
    else
      let results ← rangeCopyLoop bpt fleaf fleafpos nitems.toNat bleaf bleafpos []
      return (nitems, some results)

/-! ## Minimum, maximum, enumeration -/

/-- The loop `while (!(node->nitems & BT_LEAF)) node = choffs[0];`. -/
def descendFirst (bpt : BPTREE) : Nat → Nat → Except Fault Nat
  | 0, _ => .error .fuel
  | fuel + 1, node => do
    let obj ← bpt.load node
    if isLeafWord obj.word0 then return node
    else
      let nd ← obj.asNode
      descendFirst bpt fuel (rd nd.choffs 0)

/-- The loop `while (!(node->nitems & BT_LEAF)) node = choffs[node->nitems];`. -/
def descendLast (bpt : BPTREE) : Nat → Nat → Except Fault Nat
  | 0, _ => .error .fuel
  | fuel + 1, node => do
    let obj ← bpt.load node
    if isLeafWord obj.word0 then return node
    else
      let nd ← obj.asNode
      descendLast bpt fuel (rd nd.choffs nd.nitems)

/-- The loop `while (BTNITEMS(leaf) == 0) leaf = nextoff;`. -/
def skipEmptyNext (bpt : BPTREE) : Nat → Nat → Except Fault Nat
  | 0, _ => .error .fuel
  | fuel + 1, leaf => do
    let lf ← bpt.loadLeaf leaf
    if BTNITEMS lf = 0 then skipEmptyNext bpt fuel lf.nextoff else return leaf

/-- The loop `while (BTNITEMS(leaf) == 0) leaf = prevoff;`. -/
def skipEmptyPrev (bpt : BPTREE) : Nat → Nat → Except Fault Nat
  | 0, _ => .error .fuel
  | fuel + 1, leaf => do
    let lf ← bpt.loadLeaf leaf
    if BTNITEMS lf = 0 then skipEmptyPrev bpt fuel lf.prevoff else return leaf

/-- The function `BptGetMin` on non-NULL arguments: the return value and the
pair written to `*min`, if any. -/
def BptGetMin (bpt : BPTREE) : Except Fault (Int × Option KVPAIR) := do
  if bpt.header.nitems = 0 then return (BT_NOTFOUND, none)
  else
    let node ← descendFirst bpt bpt.filesize bpt.root
    let leaf ← skipEmptyNext bpt bpt.filesize node
    let lf ← bpt.loadLeaf leaf
    return (1, some (rd lf.items 0))

/-- The function `BptGetMax` on non-NULL arguments: the return value and the
pair written to `*max`, if any. -/
def BptGetMax (bpt : BPTREE) : Except Fault (Int × Option KVPAIR) := do
  if bpt.header.nitems = 0 then return (BT_NOTFOUND, none)
  else
    let node ← descendLast bpt bpt.filesize bpt.root
    let leaf ← skipEmptyPrev bpt bpt.filesize node
    let lf ← bpt.loadLeaf leaf
    return (1, some (rd lf.items (BTNITEMS lf - 1)))

/-- The test `leaf == NULL` on the pointer `baseaddr + off`: `baseaddr` is the
address of a mapping and `off` a 32-bit offset, so the sum is never NULL. -/
def isNullPtr (_off : Nat) : Bool := false

/-- The inner loop of `BptEnumerate`: copy the `n` items of a leaf to the
buffer `items`, which has room for `cap` pairs. -/
def enumerateCopy (cap : Nat) (src : List KVPAIR) (n : Nat) (items : List KVPAIR) :
    Except Fault (List KVPAIR) :=
  (List.range n).foldlM
    (fun (acc : List KVPAIR) i =>
      if acc.length < cap then Except.ok (acc ++ [rd src i]) else Except.error Fault.overrun)
    items

/-- The loop `while (leaf)` of `BptEnumerate`. -/
def enumerateLoop (bpt : BPTREE) (cap : Nat) : Nat → Nat → List KVPAIR → Except Fault (List KVPAIR)
  | 0, _, _ => .error .fuel
  | fuel + 1, leaf, items =>
    if isNullPtr leaf then return items
    else do
      let lf ← bpt.loadLeaf leaf
      let items ← enumerateCopy cap lf.items (BTNITEMS lf) items
      enumerateLoop bpt cap fuel lf.nextoff items

/-- The function `BptEnumerate` on non-NULL arguments: the return value and
the buffer written to `*results_out`, if any. -/
def BptEnumerate (bpt : BPTREE) : Except Fault (Int × Option (List KVPAIR)) := do
  let nitems := bpt.header.nitems
  if nitems = 0 then return (BT_NOTFOUND, none)
  else
    let leaf ← descendFirst bpt bpt.filesize bpt.root
    let items ← enumerateLoop bpt nitems bpt.filesize leaf []
    if items.length ≠ nitems then return (BT_ERROR, none)
    else return (nitems, some items)

/-! ## Removal -/

/-- The function `BptRemove` on a non-NULL handle: return value and new state.
The decrement of the 32-bit `header->nitems` wraps. -/
def BptRemove (bpt : BPTREE) (key : KEYTYPE) : Except Fault (Int × BPTREE) := do
  let bpt := { bpt with header := { bpt.header with dirty := 1 } }
  let leaf ← _BptGetContainingLeaf bpt key
  let lf ← bpt.loadLeaf leaf
  let i := leafFind lf.items key (BTNITEMS lf) 0
  if i = BTNITEMS lf then return (BT_NOTFOUND, bpt)
  else
    let lf := { lf with
      items := (List.range (BTNITEMS lf - 1 - i)).foldl
        (fun items d => wr items (i + d) (rd items (i + d + 1))) lf.items }
    let bpt := bpt.storeLeaf leaf lf
    let bpt := { bpt with
      header := { bpt.header with nitems := (bpt.header.nitems + 4294967295) % 4294967296 } }
    let bpt := { bpt with header := { bpt.header with dirty := 0 } }
    return (1, bpt)

/-! ## Runs of operations -/

/-- A call of a public mutating operation. -/
inductive Op where
  | insert (key : KEYTYPE) (value : VALTYPE)
  | remove (key : KEYTYPE)
  deriving DecidableEq, Repr

/-- Apply one operation: return value and new state. -/
def applyOp (bpt : BPTREE) : Op → Except Fault (Int × BPTREE)
  | .insert k v => BptInsert bpt k v
  | .remove k => BptRemove bpt k

/-- Apply the operations in order to `bpt`, dropping the return values. -/
def runOps (bpt : BPTREE) : List Op → Except Fault BPTREE
  | [] => .ok bpt
  | op :: rest => do
    let r ← applyOp bpt op
    runOps r.2 rest

/-- Insert the pairs in order into `bpt`. -/
def insertAll (bpt : BPTREE) : List (KEYTYPE × VALTYPE) → Except Fault BPTREE
  | [] => .ok bpt
  | kv :: rest => do
    let r ← BptInsert bpt kv.1 kv.2
    insertAll r.2 rest

/-- The pairs `(1, 10), (2, 20), ..., (n, 10 n)`. -/
def ascending (n : Nat) : List (KEYTYPE × VALTYPE) :=
  (List.range n).map fun i => (((i + 1 : Nat) : Int), 10 * (i + 1))

/-! ## Views used to state properties -/

deriving instance DecidableEq for Except

/-- The items a leaf holds: the first `BTNITEMS(leaf)` slots of `items`. -/
def BTLEAF.live (lf : BTLEAF) : List KVPAIR := lf.items.take (BTNITEMS lf)

/-- The keys a node holds: the first `nitems` slots of `keys`. -/
def BTNODE.liveKeys (nd : BTNODE) : List KEYTYPE := nd.keys.take nd.nitems

/-- The child offsets a node holds: the first `nitems + 1` slots of `choffs`. -/
def BTNODE.liveChoffs (nd : BTNODE) : List Nat := nd.choffs.take (nd.nitems + 1)

/-- Keys held by the leaf at `off`. -/
def leafKeysAt (bpt : BPTREE) (off : Nat) : Except Fault (List KEYTYPE) :=
  (bpt.loadLeaf off).map fun lf => lf.live.map KVPAIR.key

/-- View of a tree whose root is an internal node over leaves: `header.depth`,
the keys of the root, and the keys held by each child leaf, left to right. -/
def rootView (bpt : BPTREE) : Except Fault (Nat × List KEYTYPE × List (List KEYTYPE)) := do
  let root ← bpt.loadNode bpt.root
  let leaves ← root.liveChoffs.mapM (leafKeysAt bpt)
  return (bpt.header.depth, root.liveKeys, leaves)

/-! ## Subtrees of the arena

The tree below an offset, read off the arena by height: `h = 0` is a leaf,
`h + 1` a node over subtrees of height `h`. -/

/-- Offsets of the objects of the subtree of height `h` at `off`. -/
def subFp (m : List (Nat × BTOBJ)) : Nat → Nat → Multiset Nat
  | 0, off => {off}
  | h + 1, off =>
    match memLoad m off with
    | some (.node nd) => off ::ₘ (nd.liveChoffs.map (subFp m h)).sum
    | _ => {off}

/-- In-order items of the subtree of height `h` at `off`. -/
def subItems (m : List (Nat × BTOBJ)) : Nat → Nat → List KVPAIR
  | 0, off =>
    match memLoad m off with
    | some (.leaf lf) => lf.live
    | _ => []
  | h + 1, off =>
    match memLoad m off with
    | some (.node nd) => (nd.liveChoffs.map (subItems m h)).flatten
    | _ => []

/-- Keys held by the nodes of the subtree of height `h` at `off`. -/
def subKeys (m : List (Nat × BTOBJ)) : Nat → Nat → List KEYTYPE
  | 0, _ => []
  | h + 1, off =>
    match memLoad m off with
    | some (.node nd) => nd.liveKeys ++ (nd.liveChoffs.map (subKeys m h)).flatten
    | _ => []

/-- Shape of a leaf that holds `n` items. -/
def LeafShape (lf : BTLEAF) (n : Nat) : Prop :=
  lf.items.length = 5 ∧ lf.attribs = BT_LEAF + n

/-- Shape of a node. -/
def NodeShape (nd : BTNODE) : Prop :=
  nd.keys.length = 4 ∧ nd.choffs.length = 5

/-- The subtree of height `h` at `off` is a well-formed B+ tree: every leaf holds
1 to 4 items, every node 1 to 3 keys, no object occurs twice.  With `ov` set the
top object is overfull instead: a leaf of 5 items or a node of 4 keys. -/
def SubOK (m : List (Nat × BTOBJ)) : Bool → Nat → Nat → Prop
  | ov, 0, off =>
    off ≠ 0 ∧ ∃ lf n, memLoad m off = some (.leaf lf) ∧ LeafShape lf n ∧
      (if ov then n = 5 else 1 ≤ n ∧ n ≤ 4)
  | ov, h + 1, off =>
    off ≠ 0 ∧ ∃ nd, memLoad m off = some (.node nd) ∧ NodeShape nd ∧
      (if ov then nd.nitems = 4 else 1 ≤ nd.nitems ∧ nd.nitems ≤ 3) ∧
      (∀ c ∈ nd.liveChoffs, SubOK m false h c) ∧
      (subFp m (h + 1) off).Nodup

/-- What `_BptInsertWorker` achieves on the well-formed subtree of height `h` at
`off` when it returns `res` in state `b1`, started in state `b`. -/
structure WorkerPost (key : KEYTYPE) (value : VALTYPE) (h off : Nat) (b : BPTREE) (res : Int)
    (b1 : BPTREE) : Prop where
  res_eq : res = 1 ∨ res = BT_OVERFLOW
  ok : SubOK b1.mem (decide (res = BT_OVERFLOW)) h off
  fs_le : b.filesize ≤ b1.filesize
  frame : ∀ o, o ∉ subFp b.mem h off → o < b.filesize → memLoad b1.mem o = memLoad b.mem o
  fp_new : ∀ o ∈ subFp b1.mem h off, o ∈ subFp b.mem h off ∨ b.filesize ≤ o
  fp_lt : ∀ o ∈ subFp b1.mem h off, o < b1.filesize
  items : ∃ l1 l2, subItems b.mem h off = l1 ++ l2 ∧
      subItems b1.mem h off = l1 ++ ⟨key, value⟩ :: l2 ∧
      (l1 = [] → ∃ y l, l2 = y :: l ∧ key < y.key) ∧
      (l2 = [] → ∃ y l, l1 = l ++ [y] ∧ y.key ≤ key) ∧
      ((∀ k ∈ subKeys b.mem h off, key < k) → (∀ y ∈ l1 ++ l2, key < y.key) → l1 = []) ∧
      ((∀ k ∈ subKeys b.mem h off, k ≤ key) → (∀ y ∈ l1 ++ l2, y.key ≤ key) → l2 = [])
  keys : ∀ k ∈ subKeys b1.mem h off,
      k ∈ subKeys b.mem h off ∨ ∃ y ∈ subItems b1.mem h off, y.key = k
  root_eq : b1.root = b.root
  depth_eq : b1.header.depth = b.header.depth
  nitems_eq : b1.header.nitems = (b.header.nitems + 1) % 4294967296
  rootoff_eq : b1.header.rootoff = b.header.rootoff
  os_eq : b1.os = b.os
  base_eq : b1.baseaddr = b.baseaddr
  fs_bd : b1.filesize ≤ b.filesize + 52 * h

/-- What the overflow handling of `_BptInsertWorker` achieves at the node `P` of
height `h + 1`, from state `b` to state `b2`: the subtree is well formed again
(or `P` itself overfull), and it holds the same items in the same order. -/
structure FixPost (h P : Nat) (b b2 : BPTREE) : Prop where
  ok : ∃ ov, SubOK b2.mem ov (h + 1) P
  items : subItems b2.mem (h + 1) P = subItems b.mem (h + 1) P
  keys : ∀ k ∈ subKeys b2.mem (h + 1) P,
      k ∈ subKeys b.mem (h + 1) P ∨ ∃ y ∈ subItems b.mem (h + 1) P, y.key = k
  fs_le : b.filesize ≤ b2.filesize
  frame : ∀ o, o ∉ subFp b.mem (h + 1) P → o < b.filesize → memLoad b2.mem o = memLoad b.mem o
  fp_new : ∀ o ∈ subFp b2.mem (h + 1) P, o ∈ subFp b.mem (h + 1) P ∨ b.filesize ≤ o
  fp_lt : ∀ o ∈ subFp b2.mem (h + 1) P, o < b2.filesize
  root_eq : b2.root = b.root
  depth_eq : b2.header.depth = b.header.depth
  nitems_eq : b2.header.nitems = b.header.nitems
  rootoff_eq : b2.header.rootoff = b.header.rootoff
  os_eq : b2.os = b.os
  base_eq : b2.baseaddr = b.baseaddr
  fs_bd : b2.filesize ≤ b.filesize + 52

/-! ## The objects written by the overflow handling -/

/-- Left sibling written by `_BptRedistributeLeafLeft`. -/
def llLeft (lchild child : BTLEAF) : BTLEAF :=
  let lchild := { lchild with items := wr lchild.items (BTNITEMS lchild) (rd child.items 0) }
  { lchild with attribs := lchild.attribs + 1 }

/-- Child written by `_BptRedistributeLeafLeft`. -/
def llChild (child : BTLEAF) : BTLEAF :=
  _BptShiftLeafLeft { child with attribs := child.attribs - 1 }

/-- Child written by `_BptRedistributeLeafRight`. -/
def lrChild (child : BTLEAF) : BTLEAF :=
  { child with attribs := child.attribs - 1 }

/-- Right sibling written by `_BptRedistributeLeafRight`. -/
def lrRight (rchild child : BTLEAF) : BTLEAF :=
  let rchild := { rchild with attribs := rchild.attribs + 1 }
  let rchild := _BptShiftLeafRight rchild
  { rchild with items := wr rchild.items 0 (rd (lrChild child).items (BTNITEMS (lrChild child))) }

/-- New leaf written by `_BptSplitLeaf`; `leaf` and `offset` are the offsets of the
old and of the new leaf. -/
def lsNew (old : BTLEAF) (leaf : Nat) : BTLEAF :=
  let newleaf := (List.range (BT_NBRANCHES / 2 + 1)).foldl
    (fun (lf : BTLEAF) i =>
      { lf with items := wr lf.items i (rd old.items (i + BT_NBRANCHES / 2)) }) zeroLeaf
  let newleaf := { newleaf with attribs := (BT_NBRANCHES / 2 + 1) ||| BT_LEAF }
  let newleaf := { newleaf with prevoff := leaf }
  { newleaf with nextoff := old.nextoff }

/-- Old leaf written by `_BptSplitLeaf`. -/
def lsOld (old : BTLEAF) (offset : Nat) : BTLEAF :=
  let old := { old with attribs := (BT_NBRANCHES / 2) ||| BT_LEAF }
  { old with nextoff := offset }

/-- Parent written after a leaf split in `_BptInsertWorker` (lines 575-579). -/
def nsInsLeaf (node : BTNODE) (i : Nat) (newkey : KEYTYPE) (newchoff : Nat) : BTNODE :=
  let node := _BptMakeSpaceNode node i
  let node := { node with keys := wr node.keys i newkey }
  let node := { node with choffs := wr node.choffs (i + 1) newchoff }
  { node with nitems := node.nitems + 1 }

/-- Parent written after a node split in `_BptInsertWorker` (lines 591-596). -/
def nsInsNode (node : BTNODE) (i : Nat) (newkey : KEYTYPE) (newchoff : Nat) : BTNODE :=
  let node := _BptMakeSpaceNode node i
  let node := { node with choffs := wr node.choffs (i + 1) newchoff }
  let node := { node with keys := wr node.keys i newkey }
  { node with nitems := node.nitems + 1 }

/-- Left sibling written by `_BptRedistributeNodeLeft`. -/
def nlLeft (lchild par child : BTNODE) (chindex : Nat) : BTNODE :=
  let childoffset := rd child.choffs 0
  let lchild := { lchild with keys := wr lchild.keys lchild.nitems (rd par.keys (chindex - 1)) }
  let lchild := { lchild with choffs := wr lchild.choffs (lchild.nitems + 1) childoffset }
  { lchild with nitems := lchild.nitems + 1 }

/-- Parent written by `_BptRedistributeNodeLeft`. -/
def nlPar (par child : BTNODE) (chindex : Nat) : BTNODE :=
  { par with keys := wr par.keys chindex (rd child.keys 0) }

/-- Child written by `_BptRedistributeNodeLeft`. -/
def nlChild (child : BTNODE) : BTNODE :=
  let child := _BptShiftNodeLeft child
  { child with nitems := child.nitems - 1 }

/-- Right sibling written by `_BptRedistributeNodeRight`. -/
def nrRight (rchild par child : BTNODE) (chindex : Nat) : BTNODE :=
  let childoffset := rd child.choffs BT_NBRANCHES
  let rchild := _BptShiftNodeRight rchild
  let rchild := { rchild with keys := wr rchild.keys 0 (rd par.keys chindex) }
  let rchild := { rchild with choffs := wr rchild.choffs 0 childoffset }
  { rchild with nitems := rchild.nitems + 1 }

/-- Parent written by `_BptRedistributeNodeRight`. -/
def nrPar (par child : BTNODE) (chindex : Nat) : BTNODE :=
  { par with keys := wr par.keys chindex (rd child.keys (BT_NBRANCHES - 1)) }

/-- Child written by `_BptRedistributeNodeRight`. -/
def nrChild (child : BTNODE) : BTNODE :=
  { child with nitems := child.nitems - 1 }

/-- New node written by `_BptSplitNode`. -/
def nsNew (old : BTNODE) : BTNODE :=
  let newnode := (List.range (BT_NBRANCHES / 2)).foldl
    (fun (nd : BTNODE) i =>
      { nd with keys := wr nd.keys i (rd old.keys (i + BT_NBRANCHES / 2)),
                choffs := wr nd.choffs i (rd old.choffs (i + BT_NBRANCHES / 2)) }) zeroNode
  let newnode :=
    { newnode with choffs := wr newnode.choffs (BT_NBRANCHES / 2) (rd old.choffs BT_NBRANCHES) }
  { newnode with nitems := BT_NBRANCHES / 2 }

/-- Old node written by `_BptSplitNode`. -/
def nsOld (old : BTNODE) : BTNODE :=
  { old with nitems := BT_NBRANCHES / 2 - 1 }

/-- New root written by `BptInsert` over the two halves `c0`, `c1` of the split
root, with the separating key `k`. -/
def rootNode (k : KEYTYPE) (c0 c1 : Nat) : BTNODE :=
  let newroot := { zeroNode with nitems := 1 }
  let newroot := { newroot with keys := wr newroot.keys 0 k }
  let newroot := { newroot with choffs := wr newroot.choffs 0 c0 }
  { newroot with choffs := wr newroot.choffs 1 c1 }

/-- In-order traversal of the tree of a handle: the items of its leaves from left
to right, following the child offsets from the root. -/
def inorder (b : BPTREE) : List KVPAIR := subItems b.mem b.header.depth b.root

/-- Keys held by the nodes of the tree of a handle. -/
def nodeKeys (b : BPTREE) : List KEYTYPE := subKeys b.mem b.header.depth b.root

/-- The handle holds a well-formed, non-empty B+ tree of height `header.depth`
inside the used part of the arena. -/
structure TreeOK (b : BPTREE) : Prop where
  ok : SubOK b.mem false b.header.depth b.root
  fp_lt : ∀ o ∈ subFp b.mem b.header.depth b.root, o < b.filesize
  depth_lt : b.header.depth < b.filesize
  nitems_pos : b.header.nitems ≠ 0

/-- The pair a call `BptInsert(bpt, key, value)` stores. -/
def toPair (kv : KEYTYPE × VALTYPE) : KVPAIR := ⟨kv.1, kv.2⟩

/-- What holds of a handle after the pairs `kvs` were inserted into a new database
while every resize mapped the file in place: the tree is well formed, its in-order
traversal holds exactly the inserted pairs, starts with a pair of smallest key and
ends with a pair of largest key, every key held by a node is the key of a stored
pair; `header.nitems` counts the pairs, the arena has grown by at most 1704 bytes
for each of them, and `header.rootoff` is the offset of the root. -/
structure InsertInv (b : BPTREE) (kvs : List (KEYTYPE × VALTYPE)) : Prop where
  tree : TreeOK b
  perm : (inorder b).Perm (kvs.map toPair)
  first : ∃ lo rest, inorder b = lo :: rest ∧ ∀ y ∈ inorder b, lo.key ≤ y.key
  last : ∃ hi init, inorder b = init ++ [hi] ∧ ∀ y ∈ inorder b, y.key ≤ hi.key
  keys : ∀ k ∈ nodeKeys b, ∃ y ∈ inorder b, y.key = k
  os_nil : b.os = []
  nitems_eq : b.header.nitems = kvs.length
  fs_le : b.filesize ≤ 80 + 1704 * kvs.length
  rootoff_eq : b.header.rootoff = b.root

/-! ## Opening a tree file (`BptOpen`, `_BptRepair`) -/

/-- The mapping that `MMFileOpen` hands to `BptOpen`: the header at offset 0, the
objects behind it, and `fmi.maplen`. -/
structure BTFILE where
  header : BTHEADER
  mem : List (Nat × BTOBJ)
  maplen : Nat
  deriving DecidableEq, Repr

/-- Lines written to `stderr` by `BptOpen` and `_BptRepair`. -/
inductive OpenMsg where
  | failedToOpen
  | signatureMismatch
  | branchingFactorMismatch
  | itemsHaveAttributes
  | databaseIsDirty
  deriving DecidableEq, Repr

/-- A mapping of `BT_FILE_INITIAL_SIZE` zero bytes, as `MMFileOpen` creates it
for a file that did not exist. -/
def zeroFile : BTFILE :=
  { header := { signature := 0, bfactor := 0, itemattrib := 0, depth := 0, dirty := 0,
                nnodes := 0, nleaves := 0, nitems := 0, usedsize := 0, rootoff := 0 },
    mem := [], maplen := BT_FILE_INITIAL_SIZE }

/-- The function `_BptInitNewDB` on a mapping: it assigns every header field but
`nitems`, and the words `attribs`, `nextoff`, `prevoff` of the root leaf. -/
def initNewDB (f : BTFILE) : BTFILE :=
  let header := { f.header with
    signature := BT_SIGNATURE, bfactor := BT_NBRANCHES, itemattrib := 0, depth := 0,
    dirty := 0, nnodes := 0, nleaves := 1, usedsize := SIZEOF_BTHEADER + SIZEOF_BTLEAF,
    rootoff := SIZEOF_BTHEADER }
  let rootleaf := match memLoad f.mem SIZEOF_BTHEADER with
    | some (.leaf l) => l
    | _ => zeroLeaf
  let rootleaf := { rootleaf with attribs := BT_LEAF, nextoff := 0, prevoff := 0 }
  { f with header := header, mem := memStore f.mem SIZEOF_BTHEADER (.leaf rootleaf) }

/-- The function `_BptRepair`: the return value and the warning it prints. -/
def _BptRepair (_bpt : BPTREE) : Int × List OpenMsg :=
  (0, [.databaseIsDirty])

/-- The function `BptOpen` in the default build; `status` is the return value of
`MMFileOpen` (0 failure, -1 new file, 1 existing file) and `f` the mapping.  The
result is the handle (`none` for `NULL`) and the lines written to `stderr`. -/
def BptOpen (status : Int) (f : BTFILE) : Option BPTREE × List OpenMsg :=
  if status = 0 then (none, [.failedToOpen])
  else
    let f := if status = -1 then initNewDB f else f
    if f.header.signature ≠ BT_SIGNATURE then (none, [.signatureMismatch])
    else if f.header.bfactor ≠ BT_NBRANCHES then (none, [.branchingFactorMismatch])
    else if f.header.itemattrib ≠ 0 then (none, [.itemsHaveAttributes])
    else
      let bpt : BPTREE :=
        { root := f.header.rootoff, header := f.header, mem := f.mem,
          filesize := f.header.usedsize, maplen := f.maplen }
      if f.header.dirty = 1 then
        let r := _BptRepair bpt
        if r.1 = 0 then (none, r.2) else (some bpt, r.2)
      else (some bpt, [])

/-- The mapping behind a handle. -/
def BPTREE.toFile (b : BPTREE) : BTFILE :=
  { header := b.header, mem := b.mem, maplen := b.maplen }

/-! ## Views of the leaf list -/

/-- Offset, `prevoff` and `nextoff` of the leaf at `off`. -/
def leafLinksAt (bpt : BPTREE) (off : Nat) : Except Fault (Nat × Nat × Nat) :=
  (bpt.loadLeaf off).map fun lf => (off, lf.prevoff, lf.nextoff)

/-- View of a tree whose root is an internal node over leaves: offset, `prevoff`
and `nextoff` of each child leaf, left to right. -/
def rootLinkView (bpt : BPTREE) : Except Fault (List (Nat × Nat × Nat)) := do
  let root ← bpt.loadNode bpt.root
  root.liveChoffs.mapM (leafLinksAt bpt)

/-! ## The build with `BT_NO_DUPS` -/

/-- The function `_BptInsertWorker` compiled with `BT_NO_DUPS`: the leaf case
first looks for `key` in the leaf and returns 0 when it is there. -/
def _BptInsertWorkerNoDups :
    Nat → BPTREE → Nat → KEYTYPE → VALTYPE → Except Fault (Int × BPTREE)
  | 0, _, _, _, _ => .error .fuel
  | fuel + 1, bpt, btree, key, value => do
    let obj ← bpt.load btree
    if isLeafWord obj.word0 then
      let leaf ← obj.asLeaf
      let i := leafFind leaf.items key (BTNITEMS leaf) 0
      if i ≠ BTNITEMS leaf then return (0, bpt)
      else
        let leaf := leafPut leaf key value
        let bpt := bpt.storeLeaf btree leaf
        let bpt := { bpt with
          header := { bpt.header with nitems := (bpt.header.nitems + 1) % 4294967296 } }
        if BTNITEMS leaf = BT_NBRANCHES + 1 then return (BT_OVERFLOW, bpt)
        else return (1, bpt)
    else
      let node ← obj.asNode
      let i := nodeScan node.keys key node.nitems 0
      let choff := rd node.choffs i
      let r ← _BptInsertWorkerNoDups fuel bpt choff key value
      let result := r.1
      let bpt := r.2
      if result = 0 then return (0, bpt)
      else if result = BT_OVERFLOW then
        let child ← bpt.load choff
        let bpt ← if isLeafWord child.word0 then insertFixLeaf bpt btree i
                  else insertFixNode bpt btree i
        let node ← bpt.loadNode btree
        if node.nitems = BT_NBRANCHES then return (BT_OVERFLOW, bpt)
        else return (1, bpt)
      else return (1, bpt)

/-- The function `BptInsert` compiled with `BT_NO_DUPS`, on a non-NULL handle:
return value and new state. -/
def BptInsertNoDups (bpt : BPTREE) (key : KEYTYPE) (value : VALTYPE) :
    Except Fault (Int × BPTREE) := do
  let bpt := { bpt with header := { bpt.header with dirty := 1 } }
  let r ← _BptInsertWorkerNoDups bpt.filesize bpt bpt.root key value
  let result := r.1
  let bpt := r.2
  if result = 0 then return (0, bpt)
  else
    let bpt ← if result = BT_OVERFLOW then do
        let base := bpt.baseaddr
        let r := _BptCreateNode bpt
        let newrootoff := r.1
        let bpt := r.2
        let newroot ← bpt.loadNode newrootoff
        let bpt := bpt.storeNode newrootoff { newroot with nitems := 1 }
        if bpt.baseaddr ≠ base then throw Fault.stale
        let rootobj ← bpt.load bpt.root
        let (newchildoff, bpt) ← if isLeafWord rootobj.word0 then do
            let r ← _BptSplitLeaf bpt bpt.root
            let newleaf ← r.2.loadLeaf r.1
            let newroot ← r.2.loadNode newrootoff
            let bpt := r.2.storeNode newrootoff
              { newroot with keys := wr newroot.keys 0 (rd newleaf.items 0).key }
            pure (r.1, bpt)
          else do
            let r ← _BptSplitNode bpt bpt.root
            let oldroot ← r.2.loadNode r.2.root
            let newroot ← r.2.loadNode newrootoff
            let bpt := r.2.storeNode newrootoff
              { newroot with keys := wr newroot.keys 0 (rd oldroot.keys (BT_NBRANCHES / 2 - 1)) }
            pure (r.1, bpt)
        let newroot ← bpt.loadNode newrootoff
        let newroot := { newroot with choffs := wr newroot.choffs 0 bpt.root }
        let newroot := { newroot with choffs := wr newroot.choffs 1 newchildoff }
        let bpt := bpt.storeNode newrootoff newroot
        let bpt := { bpt with root := newrootoff }
        let bpt := { bpt with header := { bpt.header with rootoff := newrootoff } }
        let bpt := { bpt with header := { bpt.header with depth := (bpt.header.depth + 1) % 256 } }
        pure bpt
      else pure bpt
    let bpt := { bpt with header := { bpt.header with dirty := 0 } }
    return (1, bpt)

/-- Insert the pairs in order into `bpt`, in the build with `BT_NO_DUPS`. -/
def insertAllNoDups (bpt : BPTREE) : List (KEYTYPE × VALTYPE) → Except Fault BPTREE
  | [] => .ok bpt
  | kv :: rest => do
    let r ← BptInsertNoDups bpt kv.1 kv.2
    insertAllNoDups r.2 rest

/-- The pairs `(10, 1), (20, 1), ..., (10 n, 1)`. -/
def tens (n : Nat) : List (KEYTYPE × VALTYPE) :=
  (List.range n).map fun i => (((10 * (i + 1) : Nat) : Int), 1)

/-! ## Further views used to state properties -/

/-- Keys held by the node at `off`. -/
def nodeKeysAt (bpt : BPTREE) (off : Nat) : Except Fault (List KEYTYPE) :=
  (bpt.loadNode off).map fun nd => nd.liveKeys

/-- View of a tree whose root is an internal node over internal nodes:
`header.depth`, `header.nnodes`, the keys of the root, and the keys held by each
child node, left to right. -/
def rootNodeView (bpt : BPTREE) :
    Except Fault (Nat × Nat × List KEYTYPE × List (List KEYTYPE)) := do
  let root ← bpt.loadNode bpt.root
  let children ← root.liveChoffs.mapM (nodeKeysAt bpt)
  return (bpt.header.depth, bpt.header.nnodes, root.liveKeys, children)

/-- View of a tree whose root is an internal node: the keys of the root and, for each
child, the keys stored in the leaves of its subtree, left to right. -/
def rootSubtreeView (bpt : BPTREE) : Except Fault (List KEYTYPE × List (List KEYTYPE)) := do
  let root ← bpt.loadNode bpt.root
  return (root.liveKeys,
    root.liveChoffs.map fun c => (subItems bpt.mem (bpt.header.depth - 1) c).map KVPAIR.key)

/-- The tree after `BptInsert(1, 10)` on a new database. -/
def oneItemTree : BPTREE :=
  { _BptInitNewDB with
    header := { _BptInitNewDB.header with nitems := 1 },
    mem := [(SIZEOF_BTHEADER,
      .leaf ⟨BT_LEAF + 1, [⟨1, 10⟩, ⟨0, 0⟩, ⟨0, 0⟩, ⟨0, 0⟩, ⟨0, 0⟩], 0, 0⟩)] }

/-- A handle whose root leaf at offset 28 holds the five pairs of keys 1 to 5, as
inside `BptInsert` before the root is split. -/
def fiveItemTree : BPTREE :=
  { _BptInitNewDB with
    header := { _BptInitNewDB.header with nitems := 5, dirty := 1 },
    mem := [(SIZEOF_BTHEADER,
      .leaf ⟨BT_LEAF + 5, [⟨1, 10⟩, ⟨2, 20⟩, ⟨3, 30⟩, ⟨4, 40⟩, ⟨5, 50⟩], 0, 0⟩)] }

/-! ## The thumbnail cache file (`thumb.c`, `thumb.h`)

The cache file is a sequence of bytes read and written through a `FILE` stream.
Structures are laid out as on an LP64 little-endian target: `time_t` has 8 bytes,
`sizeof(TCHEADER) = 16`, and `TCENTRY` has `mtime` at 0, `fnlen` at 8, `thumbfsize`
at 12, `thumbkey` at 16 and `sizeof(TCENTRY) = 24`; padding bytes are written as 0.
The float `thumbkey` is kept as its 32-bit pattern.  Stream operations succeed
(`ferror` is never set).  A C string is the list of its bytes before the NUL. -/

abbrev ALIGN_BYTES : Nat := 4
abbrev ALIGN_MASK : Nat := ALIGN_BYTES - 1
abbrev UCHAR_MAX : Nat := 255
abbrev TC_MTIME_DELETED : Nat := 0
abbrev SIZEOF_TCHEADER : Nat := 16
abbrev SIZEOF_TCENTRY : Nat := 24

/-- The fixed part of a cache entry, `TCENTRY` without `filename`. -/
structure TCENTRY where
  mtime : Nat
  fnlen : Nat
  thumbfsize : Nat
  thumbkey : Nat
  deriving DecidableEq, Repr

/-- A record of the filename index, `TCRECORD`, with the filename copied behind it. -/
structure TCRECORD where
  offset : Nat
  ent : TCENTRY
  filename : List Nat
  deriving DecidableEq, Repr

/-- A stdio stream on the cache file: the bytes of the file and the position. -/
structure FILE where
  data : List Nat
  pos : Nat
  deriving DecidableEq, Repr

/-- The `n` bytes of `v`, least significant first. -/
def leBytes : Nat → Nat → List Nat
  | 0, _ => []
  | n + 1, v => v % 256 :: leBytes n (v / 256)

/-- The number whose bytes, least significant first, are `bs`. -/
def leValue : List Nat → Nat
  | [] => 0
  | b :: bs => b + 256 * leValue bs

/-- The bytes of a `TCENTRY` in memory. -/
def encodeEntry (e : TCENTRY) : List Nat :=
  leBytes 8 e.mtime ++ [e.fnlen % 256, 0, 0, 0] ++ leBytes 4 e.thumbfsize ++
    leBytes 4 e.thumbkey ++ [0, 0, 0, 0]

/-- The `TCENTRY` held by `SIZEOF_TCENTRY` bytes of memory. -/
def decodeEntry (bs : List Nat) : TCENTRY :=
  { mtime := leValue (bs.take 8), fnlen := rd bs 8,
    thumbfsize := leValue ((bs.drop 12).take 4), thumbkey := leValue ((bs.drop 16).take 4) }

/-- The call `ftell(tc)`. -/
def ftell (tc : FILE) : Nat := tc.pos

/-- The call `fseek(tc, off, SEEK_SET)`. -/
def fseekSet (tc : FILE) (off : Nat) : FILE := { tc with pos := off }

/-- The call `fseek(tc, 0, SEEK_END)`. -/
def fseekEnd (tc : FILE) : FILE := { tc with pos := tc.data.length }

/-- The call `fseek(tc, n, SEEK_CUR)`. -/
def fseekCur (tc : FILE) (n : Nat) : FILE := { tc with pos := tc.pos + n }

/-- The call `fwrite(bs, 1, len, tc)`: the bytes replace those at the position and
extend the file; a gap before the position is filled with zeros. -/
def fwrite (tc : FILE) (bs : List Nat) : FILE :=
  let data := tc.data ++ List.replicate (tc.pos - tc.data.length) 0
  { data := data.take tc.pos ++ bs ++ data.drop (tc.pos + bs.length),
    pos := tc.pos + bs.length }

/-- The call `fread(buf, n, 1, tc)`: the item read, if `n` bytes are left, and the
stream; a short read consumes the rest of the file. -/
def fread (tc : FILE) (n : Nat) : Option (List Nat) × FILE :=
  if tc.pos + n ≤ tc.data.length then
    (some ((tc.data.drop tc.pos).take n), { tc with pos := tc.pos + n })
  else (none, { tc with pos := max tc.pos tc.data.length })

/-- The function `_ThumbCacheWriteEntry`: the return value, the stream, and the
entry `*ptcent` as it is left.  `thumbdata` is a buffer of `ptcent->thumbfsize`
bytes; a read past its end yields 0. -/
def _ThumbCacheWriteEntry (tc : FILE) (ptcent : TCENTRY) (filename : List Nat)
    (thumbdata : List Nat) : Nat × FILE × TCENTRY :=
  let len := filename.length
  if len = 0 ∨ len > UCHAR_MAX then (0, tc, ptcent)
  else
    let padlen :=
      (ALIGN_BYTES - ((ptcent.thumbfsize + len + 1) % 4294967296) % ALIGN_BYTES) % ALIGN_BYTES
    let padding := List.replicate padlen 0
    let ptcent := { ptcent with thumbfsize := (ptcent.thumbfsize + padlen) % 4294967296 }
    let ptcent := { ptcent with fnlen := len % 256 }
    let fileoffset := ftell tc
    let tc := fwrite tc (encodeEntry ptcent)
    let tc := fwrite tc (filename ++ [0])
    let tc := fwrite tc ((List.range (ptcent.thumbfsize - padlen)).map (rd thumbdata))
    let tc := fwrite tc padding
    (fileoffset, tc, ptcent)

/-- The file operations of `ThumbCacheReplace` on an open stream `tc`, on the path
where `BptRemove`, `ThumbCreate` and `gdImagePngPtr` succeed: `thumbdata` is the
PNG image of the new thumbnail (`thumbsize` is its length) and `thumbkey` the value
of `_ThumbCalcKey`.  Yields the offset returned by `_ThumbCacheWriteEntry`, the
stream and the record `*ptcrec`. -/
def ThumbCacheReplace (tc : FILE) (filename : List Nat) (ptcrec : TCRECORD) (mtime : Nat)
    (thumbdata : List Nat) (thumbkey : Nat) : Nat × FILE × TCRECORD :=
  let thumbsize := thumbdata.length
  let origoffset := ftell tc
  let (tc, ptcrec) :=
    if thumbsize ≤ ptcrec.ent.thumbfsize then (fseekSet tc ptcrec.offset, ptcrec)
    else
      let tc := fseekEnd tc
      (tc, { ptcrec with offset := ftell tc })
  let ent := { ptcrec.ent with mtime := mtime, thumbfsize := thumbsize, thumbkey := thumbkey }
  let r := _ThumbCacheWriteEntry tc ent filename thumbdata
  let ptcrec := { ptcrec with ent := r.2.2 }
  (r.1, fseekSet r.2.1 origoffset, ptcrec)

/-- The file operations of `ThumbCacheRemove` outside burst mode: the entry at
`offset` is read and written back with `mtime = TC_MTIME_DELETED`. -/
def ThumbCacheRemove (data : List Nat) (offset : Nat) : Option (List Nat) :=
  let tc : FILE := { data := data, pos := 0 }
  let tc := fseekSet tc offset
  match fread tc SIZEOF_TCENTRY with
  | (none, _) => none
  | (some bs, tc) =>
    let entry := decodeEntry bs
    match fread tc (entry.fnlen + 1) with
    | (none, _) => none
    | (some _, tc) =>
      let tc := fseekSet tc offset
      let entry := { entry with mtime := TC_MTIME_DELETED }
      some (fwrite tc (encodeEntry entry)).data

/-- The stride of the forward scan at an entry:
`sizeof(TCENTRY) + fnlen + 1 + thumbfsize`. -/
def entryStride (e : TCENTRY) : Nat := SIZEOF_TCENTRY + e.fnlen + 1 + e.thumbfsize

/-- The entry that the scan of the mapped cache sees at `pos`; bytes past the end
of the mapping read as 0. -/
def entryAt (data : List Nat) (pos : Nat) : TCENTRY :=
  decodeEntry ((List.range SIZEOF_TCENTRY).map fun i => rd data (pos + i))

/-- The loop of `ThumbCacheEnumerate` over the mapped cache: the offsets it visits
with the entry found there, starting at `pos`. -/
def enumerateScan (data : List Nat) : Nat → Nat → List (Nat × TCENTRY)
  | 0, _ => []
  | fuel + 1, pos =>
    if pos < data.length then
      let e := entryAt data pos
      (pos, e) :: enumerateScan data fuel (pos + entryStride e)
    else []

/-- The function `ThumbCacheEnumerate`, reduced to its scan: offsets and entries
visited from `sizeof(TCHEADER)` on. -/
def ThumbCacheEnumerate (data : List Nat) : List (Nat × TCENTRY) :=
  enumerateScan data data.length SIZEOF_TCHEADER

/-- The loop of `_ThumbCacheBuildHt`: the records handed to `HtInsertItem`, in
order. -/
def buildHtLoop : Nat → FILE → List TCRECORD → List TCRECORD
  | 0, _, acc => acc
  | fuel + 1, tc, acc =>
    match fread tc SIZEOF_TCENTRY with
    | (none, _) => acc
    | (some bs, tc) =>
      let entry := decodeEntry bs
      if entry.mtime ≠ TC_MTIME_DELETED then
        let offset := ftell tc - SIZEOF_TCENTRY
        match fread tc (entry.fnlen + 1) with
        | (none, _) => acc
        | (some fn, tc) =>
          let tc := fseekCur tc entry.thumbfsize
          buildHtLoop fuel tc (acc ++ [{ offset := offset, ent := entry, filename := fn }])
      else buildHtLoop fuel tc acc

/-- The function `_ThumbCacheBuildHt` on a stream positioned behind the header, as
`ThumbCacheUpdate` calls it: the records it puts into the filename index. -/
def _ThumbCacheBuildHt (tc : FILE) : List TCRECORD :=
  buildHtLoop (tc.data.length + 1) tc []

/-- A cache file of two entries written by `_ThumbCacheWriteEntry` behind a zeroed
header: file name `a`, `mtime` 5, a thumbnail of 6 bytes, and file name `b`,
`mtime` 7, a thumbnail of 2 bytes. -/
def twoEntryCache : FILE :=
  let tc : FILE := { data := List.replicate SIZEOF_TCHEADER 0, pos := SIZEOF_TCHEADER }
  let r := _ThumbCacheWriteEntry tc { mtime := 5, fnlen := 0, thumbfsize := 6, thumbkey := 11 }
    [97] [1, 2, 3, 4, 5, 6]
  let r := _ThumbCacheWriteEntry r.2.1 { mtime := 7, fnlen := 0, thumbfsize := 2, thumbkey := 12 }
    [98] [8, 9]
  r.2.1

/-! ## The match engine (`ThumbFindMatches`, `_ThumbCalcKey`) -/

/-- The value returned by `_ThumbCalcKey`, from the three channel averages. -/
def thumbKey {K : Type} [Add K] [Mul K] (avg_r avg_g avg_b : K) : K :=
  avg_r * avg_r + avg_g * avg_g + avg_b * avg_b

/-- The constant `DIFF_TOLERANCE`, 1.5. -/
def DIFF_TOLERANCE {K : Type} [Field K] : K := 3 / 2

/-- The search radius `delta` of `ThumbFindMatches`, with `sqrt` the square root. -/
def searchDelta {K : Type} [Field K] (sqrt : K → K) (key : K) : K :=
  6 * sqrt (key / 3) * DIFF_TOLERANCE + DIFF_TOLERANCE * DIFF_TOLERANCE

abbrev HT_HASH_CRC32 : Nat := 0
abbrev HT_HASH_ADLER32 : Nat := 1
abbrev HT_HASH_DEFAULT : Nat := 2

/-- The function `HtDefaultHash` on the bytes of the key, in 32-bit arithmetic. -/
def HtDefaultHash (key : List Nat) : Nat :=
  let hash := key.foldl
    (fun hash k =>
      let hash := (hash + k) % 4294967296
      let hash := (hash + hash * 1024) % 4294967296
      hash ^^^ (hash / 64)) 0
  let hash := (hash + hash * 8) % 4294967296
  let hash := hash ^^^ (hash / 2048)
  (hash + hash * 32768) % 4294967296

/-- The function `HtAdler32Hash`. -/
def HtAdler32Hash (key : List Nat) : Nat :=
  let r := key.foldl
    (fun (ab : Nat × Nat) k =>
      let a := (ab.1 + k) % 65521
      (a, (ab.2 + a) % 65521)) (1, 0)
  (r.2 * 65536) % 4294967296 ||| r.1

/-- The table `crc_tab` filled by `HtCrc32GenTab`. -/
def crc_tab : List Nat :=
  (List.range 256).map fun i =>
    (List.range 8).foldl
      (fun crc _ => if crc % 2 = 1 then (crc / 2) ^^^ 0xEDB88320 else crc / 2) i

/-- The function `HtCrc32Hash`. -/
def HtCrc32Hash (key : List Nat) : Nat :=
  (key.foldl
    (fun crc k => ((crc / 256) % 16777216) ^^^ rd crc_tab ((crc ^^^ k) % 256))
    0xFFFFFFFF) ^^^ 0xFFFFFFFF

/-- Modelled from the spec: `vector.h` is not among the sources and the spec only
names it a generic vector helper; a vector is the list of its elements in the order
of the `VectorAdd` calls, `none` stands for a NULL table slot. -/
abbrev VECTOR := List (List Nat)

/-- The structure `HT`; `tablelen` holds the mask `HtInit` stores, and `hash` the
algorithm chosen.  Items and keys are byte strings. -/
structure HT where
  table : List (Option VECTOR)
  tablelen : Nat
  keylen : Nat
  vectlen : Nat
  hash : Nat
  deriving DecidableEq, Repr

/-- The call `ht->hash(key, keylen)`. -/
def HT.hashOf (ht : HT) (key : List Nat) : Nat :=
  if ht.hash = HT_HASH_CRC32 then HtCrc32Hash key
  else if ht.hash = HT_HASH_ADLER32 then HtAdler32Hash key
  else HtDefaultHash key

/-- The function `HtInit`. -/
def HtInit (tablelen keylen algorithm num_initial_slots : Nat) : HT :=
  { table := List.replicate tablelen none,
    tablelen := tablelen - 1,
    keylen := keylen,
    vectlen := num_initial_slots,
    hash := if algorithm = HT_HASH_CRC32 ∨ algorithm = HT_HASH_ADLER32 then algorithm
            else HT_HASH_DEFAULT }

/-- The bytes that `ht->hash` and `memcmp` look at: `keylen` of them, or those of
the C string `key` when `ht->keylen` is 0. -/
def HT.keyBytes (ht : HT) (key : List Nat) : List Nat :=
  if ht.keylen ≠ 0 then key.take ht.keylen else key

/-- The function `HtInsertItem`. -/
def HtInsertItem (ht : HT) (key : List Nat) (newentry : List Nat) : HT :=
  let k := ht.keyBytes key
  let index := ht.hashOf k &&& ht.tablelen
  let v := match rd ht.table index with
    | none => []
    | some v => v
  { ht with table := wr ht.table index (some (v ++ [newentry])) }

/-- The function `HtGetItem`: the first item of the bucket whose first `keylen`
bytes are those of `key`, `none` for NULL. -/
def HtGetItem (ht : HT) (key : List Nat) : Option (List Nat) :=
  let k := ht.keyBytes key
  let index := ht.hashOf k &&& ht.tablelen
  match rd ht.table index with
  | none => none
  | some v => v.find? fun e => e.take k.length == k

/-- The function `HtResetContents`: the loop runs over `i = 0 .. ht->tablelen - 1`. -/
def HtResetContents (ht : HT) : HT :=
  { ht with table := (List.range ht.tablelen).foldl (fun t i => wr t i none) ht.table }

/-! ## String helpers (`main.c`) -/

/-- The first loop of `strrplcpy`: `i` bytes of `src` are consumed, `len` is what is
left of the buffer, `dst` the bytes written. -/
def strrplcpyLoop (src : List Nat) (find replacewith : Nat) :
    Nat → Nat → Nat → List Nat → Nat × Nat × List Nat
  | 0, i, len, dst => (i, len, dst)
  | fuel + 1, i, len, dst =>
    if len > 1 ∧ rd src i ≠ 0 then
      strrplcpyLoop src find replacewith fuel (i + 1) (len - 1)
        (dst ++ [if rd src i ≠ find then rd src i else replacewith])
    else (i, len, dst)

/-- The loop `while (*src) src++;`. -/
def strEnd (src : List Nat) : Nat → Nat → Nat
  | 0, i => i
  | fuel + 1, i => if rd src i ≠ 0 then strEnd src fuel (i + 1) else i

/-- The function `strrplcpy`; `src` is the memory from the pointer `src` on, which
holds a NUL.  Yields the return value and the bytes written to `dst`. -/
def strrplcpy (src : List Nat) (len : Nat) (find replacewith : Nat) : Nat × List Nat :=
  let r := strrplcpyLoop src find replacewith len 0 len []
  let dst := if r.2.1 ≠ 0 then r.2.2 ++ [0] else r.2.2
  (strEnd src src.length r.1, dst)

/-- Distances from the object at `off` down to the leaves below it, one entry per
leaf, read off the arena along the child offsets of the nodes; as in
`_BptInsertWorker`, the `BT_LEAF` flag in the first word tells a leaf from a node.
The entry `none` stands for a path that reaches no leaf within `fuel` objects. -/
def leafDepths (m : List (Nat × BTOBJ)) : Nat → Nat → List (Option Nat)
  | 0, _ => [none]
  | fuel + 1, off =>
    match memLoad m off with
    | none => [none]
    | some obj =>
      if isLeafWord obj.word0 then [some 0]
      else
        match obj with
        | .node nd =>
          ((nd.liveChoffs.map (leafDepths m fuel)).flatten).map (Option.map (· + 1))
        | .leaf _ => [none]

/-- The header of a handle agrees with its tree: `header.rootoff` is the offset of
the root, and every leaf is `header.depth` levels below the root. -/
structure DepthInv (b : BPTREE) : Prop where
  rootoff_eq : b.header.rootoff = b.root
  leaves : leafDepths b.mem (b.header.depth + 1) b.root ≠ []
  depth_eq : ∀ d ∈ leafDepths b.mem (b.header.depth + 1) b.root, d = some b.header.depth

/-- The root of `b2` is the new node that `BptInsert` puts over the overfull root
`old` of `b1`: it has one key and the two children `old` and `sib`, where `old` and
`sib` hold the two halves that `_BptSplitLeaf` or `_BptSplitNode` made of `old`. -/
def RootSplit (b1 b2 : BPTREE) (old sib : Nat) : Prop :=
  (∃ nd, memLoad b2.mem b2.root = some (.node nd) ∧ nd.nitems = 1 ∧
    rd nd.choffs 0 = old ∧ rd nd.choffs 1 = sib) ∧
  ((∃ lf, memLoad b1.mem old = some (.leaf lf) ∧
      memLoad b2.mem old = some (.leaf (lsOld lf sib)) ∧
      memLoad b2.mem sib = some (.leaf (lsNew lf old))) ∨
   (∃ nd, memLoad b1.mem old = some (.node nd) ∧
      memLoad b2.mem old = some (.node (nsOld nd)) ∧
      memLoad b2.mem sib = some (.node (nsNew nd))))

/-- The handle inside the ninth `BptInsert` of the keys 1, 2, 3, ... into a new
database, at the call of `_BptSplitLeaf` on the leaf at offset 120: the pair
(9, 90) is in, the leaf holds the five pairs of keys 5 to 9, and the used arena
fills the mapping (`filesize = maplen = 172`), so the new leaf needs a resize.
The environment `os` decides its outcome. -/
def fullArenaTree (os : List (Nat × Remap)) : BPTREE :=
  { root := 80,
    header :=
      { signature := BT_SIGNATURE, bfactor := BT_NBRANCHES, itemattrib := 0,
        depth := 1, dirty := 1, nnodes := 1, nleaves := 2, nitems := 9,
        usedsize := 172, rootoff := 80 },
    mem :=
      [(28,
        .leaf ⟨BT_LEAF + 4, [⟨1, 10⟩, ⟨2, 20⟩, ⟨3, 30⟩, ⟨4, 40⟩, ⟨5, 50⟩], 0, 120⟩),
       (80, .node ⟨1, [5, 0, 0, 0], [28, 120, 0, 0, 0]⟩),
       (120,
        .leaf ⟨BT_LEAF + 5, [⟨5, 50⟩, ⟨6, 60⟩, ⟨7, 70⟩, ⟨8, 80⟩, ⟨9, 90⟩], 28, 0⟩)],
    filesize := 172,
    maplen := 172,
    baseaddr := 0,
    os := os }

/-! ## Properties -/

/-- C1, as the code behaves: inserting the distinct keys 1, ..., 24 in ascending
order leaves key 9 found with its value 90, but after the 25th insertion
(`_BptRedistributeNodeLeft` runs for the first time) `BptSearch(9)` returns
`BT_NOTFOUND` and writes nothing, although the pair (9, 90) is still held by the
leaf at offset 172. -/
theorem BptSearch_loses_key_after_RedistributeNodeLeft :
    (insertAll _BptInitNewDB (ascending 24) >>= fun b => BptSearch b 9) = .ok (1, some 90) ∧
    (insertAll _BptInitNewDB (ascending 25) >>= fun b => BptSearch b 9) = .ok (BT_NOTFOUND, none) ∧
    (insertAll _BptInitNewDB (ascending 25) >>= fun b => b.loadLeaf 172).map BTLEAF.live =
      .ok [⟨9, 90⟩, ⟨10, 100⟩, ⟨11, 110⟩, ⟨12, 120⟩] := by
  decide

/-- C2, as the code behaves: after inserting (1,1), (3,1), (3,2), (3,3), (3,4) the
leaf list holds four pairs with key 3, the first of them in the left leaf, but
`BptSearchRange(3, 3)` returns 3 and only the three pairs of the right leaf. -/
theorem BptSearchRange_skips_equal_keys_in_left_leaf :
    (insertAll _BptInitNewDB [(1, 1), (3, 1), (3, 2), (3, 3), (3, 4)] >>=
        fun b => BptSearchRange b 3 3) = .ok (3, some [⟨3, 2⟩, ⟨3, 3⟩, ⟨3, 4⟩]) ∧
    (insertAll _BptInitNewDB [(1, 1), (3, 1), (3, 2), (3, 3), (3, 4)] >>=
        fun b => b.loadLeaf 28).map BTLEAF.live = .ok [⟨1, 1⟩, ⟨3, 1⟩] ∧
    (insertAll _BptInitNewDB [(1, 1), (3, 1), (3, 2), (3, 3), (3, 4)] >>=
        fun b => b.loadLeaf 120).map BTLEAF.live = .ok [⟨3, 2⟩, ⟨3, 3⟩, ⟨3, 4⟩] := by
  decide

/-- C3, as the code behaves: on the tree holding the single pair (1, 10), and on
the tree holding the keys 1, ..., 5, `BptEnumerate` follows `nextoff = 0` of the
last leaf and dereferences offset 0, the header, as a leaf. -/
theorem BptEnumerate_walks_into_header :
    (insertAll _BptInitNewDB (ascending 1) >>= BptEnumerate) = .error .header ∧
    (insertAll _BptInitNewDB (ascending 5) >>= BptEnumerate) = .error .header := by
  decide

/-! ## Insertion keeps the tree well formed

Lemmas on the arena, on the objects written by the insertion paths, and on the
subtrees they leave behind, up to `BptInsert` itself. -/

theorem memLoad_memStore (m : List (Nat × BTOBJ)) (a b : Nat) (v : BTOBJ) :
    memLoad (memStore m a v) b = if b = a then some v else memLoad m b := by
  induction m with
  | nil => simp [memStore, memLoad, eq_comm]
  | cons p rest ih =>
    obtain ⟨x, y⟩ := p
    by_cases hx : x = a
    · subst hx
      by_cases hb : x = b
      · subst hb; simp [memStore, memLoad]
      · have hb2 : ¬ b = x := fun h => hb h.symm
        simp [memStore, memLoad, hb, hb2]
    · by_cases hb : x = b
      · subst hb; simp [memStore, memLoad, hx]
      · simp [memStore, memLoad, hx, hb, ih]

theorem BTNITEMS_of_shape {lf : BTLEAF} {n : Nat} (h : LeafShape lf n) (hn : n ≤ 5) :
    BTNITEMS lf = n := by
  unfold BTNITEMS; rw [h.2]; simp only [BT_LEAF, BT_DELETED]; omega

theorem isLeafWord_leaf {n : Nat} (hn : n ≤ 5) : isLeafWord (BT_LEAF + n) = true := by
  unfold isLeafWord; simp only [BT_LEAF, beq_iff_eq]; omega

theorem isLeafWord_node {n : Nat} (hn : n ≤ 5) : isLeafWord n = false := by
  unfold isLeafWord; simp only [BT_LEAF, beq_eq_false_iff_ne, ne_eq]; omega

theorem mem_sum_map {α : Type} (f : α → Multiset Nat) (l : List α) (o : Nat) :
    o ∈ (l.map f).sum ↔ ∃ c ∈ l, o ∈ f c := by
  induction l with
  | nil => simp
  | cons a l ih => simp [ih]

theorem self_mem_subFp (m : List (Nat × BTOBJ)) (h off : Nat) : off ∈ subFp m h off := by
  cases h with
  | zero => simp [subFp]
  | succ h =>
    unfold subFp
    split <;> simp

theorem subFp_node {m : List (Nat × BTOBJ)} {off : Nat} {nd : BTNODE} (h : Nat)
    (hl : memLoad m off = some (.node nd)) :
    subFp m (h + 1) off = off ::ₘ (nd.liveChoffs.map (subFp m h)).sum := by
  simp [subFp, hl]

theorem subItems_node {m : List (Nat × BTOBJ)} {off : Nat} {nd : BTNODE} (h : Nat)
    (hl : memLoad m off = some (.node nd)) :
    subItems m (h + 1) off = (nd.liveChoffs.map (subItems m h)).flatten := by
  simp [subItems, hl]

theorem subKeys_node {m : List (Nat × BTOBJ)} {off : Nat} {nd : BTNODE} (h : Nat)
    (hl : memLoad m off = some (.node nd)) :
    subKeys m (h + 1) off = nd.liveKeys ++ (nd.liveChoffs.map (subKeys m h)).flatten := by
  simp [subKeys, hl]

theorem subItems_leaf {m : List (Nat × BTOBJ)} {off : Nat} {L : BTLEAF}
    (hl : memLoad m off = some (.leaf L)) : subItems m 0 off = L.live := by
  simp [subItems, hl]

theorem child_subFp_sub {m : List (Nat × BTOBJ)} {off : Nat} {nd : BTNODE} (h : Nat)
    (hl : memLoad m off = some (.node nd)) {c o : Nat} (hc : c ∈ nd.liveChoffs)
    (ho : o ∈ subFp m h c) : o ∈ subFp m (h + 1) off := by
  rw [subFp_node h hl]
  simp only [Multiset.mem_cons, mem_sum_map]
  exact Or.inr ⟨c, hc, ho⟩

theorem subFp_frame (m m1 : List (Nat × BTOBJ)) :
    ∀ (h off : Nat), (∀ o ∈ subFp m h off, memLoad m1 o = memLoad m o) →
      subFp m1 h off = subFp m h off := by
  intro h
  induction h with
  | zero => intro off _; rfl
  | succ h ih =>
    intro off hag
    have hoff := hag off (self_mem_subFp m (h + 1) off)
    cases hld : memLoad m off with
    | none => simp [subFp, hld, hoff]
    | some obj =>
      cases obj with
      | leaf lf => simp [subFp, hld, hoff]
      | node nd =>
        rw [hld] at hoff
        rw [subFp_node h hld, subFp_node h hoff]
        congr 2
        apply List.map_congr_left
        intro c hc
        exact ih c (fun o ho => hag o (child_subFp_sub h hld hc ho))

theorem subItems_frame (m m1 : List (Nat × BTOBJ)) :
    ∀ (h off : Nat), (∀ o ∈ subFp m h off, memLoad m1 o = memLoad m o) →
      subItems m1 h off = subItems m h off := by
  intro h
  induction h with
  | zero =>
    intro off hag
    have hoff := hag off (self_mem_subFp m 0 off)
    simp [subItems, hoff]
  | succ h ih =>
    intro off hag
    have hoff := hag off (self_mem_subFp m (h + 1) off)
    cases hld : memLoad m off with
    | none => simp [subItems, hld, hoff]
    | some obj =>
      cases obj with
      | leaf lf => simp [subItems, hld, hoff]
      | node nd =>
        rw [hld] at hoff
        rw [subItems_node h hld, subItems_node h hoff]
        congr 1
        apply List.map_congr_left
        intro c hc
        exact ih c (fun o ho => hag o (child_subFp_sub h hld hc ho))

theorem subKeys_frame (m m1 : List (Nat × BTOBJ)) :
    ∀ (h off : Nat), (∀ o ∈ subFp m h off, memLoad m1 o = memLoad m o) →
      subKeys m1 h off = subKeys m h off := by
  intro h
  induction h with
  | zero => intro off _; rfl
  | succ h ih =>
    intro off hag
    have hoff := hag off (self_mem_subFp m (h + 1) off)
    cases hld : memLoad m off with
    | none => simp [subKeys, hld, hoff]
    | some obj =>
      cases obj with
      | leaf lf => simp [subKeys, hld, hoff]
      | node nd =>
        rw [hld] at hoff
        rw [subKeys_node h hld, subKeys_node h hoff]
        congr 2
        apply List.map_congr_left
        intro c hc
        exact ih c (fun o ho => hag o (child_subFp_sub h hld hc ho))

theorem SubOK_frame (m m1 : List (Nat × BTOBJ)) :
    ∀ (h : Nat) (ov : Bool) (off : Nat), (∀ o ∈ subFp m h off, memLoad m1 o = memLoad m o) →
      SubOK m ov h off → SubOK m1 ov h off := by
  intro h
  induction h with
  | zero =>
    intro ov off hag hok
    have hoff := hag off (self_mem_subFp m 0 off)
    simpa [SubOK, hoff] using hok
  | succ h ih =>
    intro ov off hag hok
    have hoff := hag off (self_mem_subFp m (h + 1) off)
    have hfp := subFp_frame m m1 (h + 1) off hag
    unfold SubOK at hok ⊢
    obtain ⟨h0, nd, hld, hsh, hcnt, hch, hnd⟩ := hok
    refine ⟨h0, nd, by rw [hoff, hld], hsh, hcnt, ?_, by rw [hfp]; exact hnd⟩
    intro c hc
    exact ih false c (fun o ho => hag o (child_subFp_sub h hld hc ho)) (hch c hc)

theorem list5 {α : Type} {l : List α} (h : l.length = 5) : ∃ a b c d e, l = [a, b, c, d, e] := by
  match l, h with
  | [a, b, c, d, e], _ => exact ⟨a, b, c, d, e, rfl⟩

theorem list4 {α : Type} {l : List α} (h : l.length = 4) : ∃ a b c d, l = [a, b, c, d] := by
  match l, h with
  | [a, b, c, d], _ => exact ⟨a, b, c, d, rfl⟩

theorem BTNITEMS_mk (n : Nat) (hn : n ≤ 5) (its : List KVPAIR) (p q : Nat) :
    BTNITEMS ⟨BT_LEAF + n, its, p, q⟩ = n := by
  unfold BTNITEMS; simp only [BT_LEAF, BT_DELETED]; omega

theorem leafPut_spec (lf : BTLEAF) (n : Nat) (key : KEYTYPE) (value : VALTYPE)
    (hs : LeafShape lf n) (hn : n ≤ 4) :
    LeafShape (leafPut lf key value) (n + 1) ∧
    (leafPut lf key value).live =
      lf.live.take (_BptMakeSpaceLeaf lf key).1 ++
        ⟨key, value⟩ :: lf.live.drop (_BptMakeSpaceLeaf lf key).1 ∧
    (∀ y ∈ lf.live.drop (_BptMakeSpaceLeaf lf key).1, key < y.key) ∧
    (∀ y ∈ (lf.live.take (_BptMakeSpaceLeaf lf key).1).getLast?, y.key ≤ key) := by
  obtain ⟨hlen, hat⟩ := hs
  obtain ⟨a, b, c, d, e, hit⟩ := list5 hlen
  obtain ⟨at0, it0, p0, n0⟩ := lf
  simp only at hit hat
  subst hit hat
  have e1 : BT_LEAF + n + 1 = BT_LEAF + (n + 1) := by omega
  interval_cases n <;>
    simp only [leafPut, _BptMakeSpaceLeaf, BTLEAF.live, LeafShape, e1, BTNITEMS_mk, makeSpaceLeafLoop, rd, wr,
      Nat.le_refl, Nat.reduceLeDiff, Nat.reduceAdd, List.getD_cons_succ, List.getD_cons_zero] <;>
    (try split_ifs) <;>
    simp_all [makeSpaceLeafLoop, rd, wr] <;> (try omega)

theorem load_of {b : BPTREE} {off : Nat} {o : BTOBJ} (h0 : off ≠ 0)
    (hl : memLoad b.mem off = some o) : b.load off = .ok o := by
  simp [BPTREE.load, h0, hl]

theorem loadLeaf_of {b : BPTREE} {off : Nat} {lf : BTLEAF} (h0 : off ≠ 0)
    (hl : memLoad b.mem off = some (.leaf lf)) : b.loadLeaf off = .ok lf := by
  simp [BPTREE.loadLeaf, load_of h0 hl, bind, Except.bind, BTOBJ.asLeaf]

theorem loadNode_of {b : BPTREE} {off : Nat} {nd : BTNODE} (h0 : off ≠ 0)
    (hl : memLoad b.mem off = some (.node nd)) : b.loadNode off = .ok nd := by
  simp [BPTREE.loadNode, load_of h0 hl, bind, Except.bind, BTOBJ.asNode]

theorem getLast?_append_singleton {α : Type} (l : List α) (y : α) :
    (l ++ [y]).getLast? = some y := by simp

theorem worker_leaf (key : KEYTYPE) (value : VALTYPE) (fuel : Nat) (b : BPTREE) (off : Nat)
    (hok : SubOK b.mem false 0 off) (hlt : ∀ o ∈ subFp b.mem 0 off, o < b.filesize) :
    ∃ res b1, _BptInsertWorker (fuel + 1) b off key value = .ok (res, b1) ∧
      WorkerPost key value 0 off b res b1 := by
  simp only [SubOK, Bool.false_eq_true, if_false] at hok
  obtain ⟨h0, lf, n, hld, hsh, hn1, hn4⟩ := hok
  have hput := leafPut_spec lf n key value hsh hn4
  obtain ⟨hsh1, hlive, hgt, hle⟩ := hput
  have hcnt1 : BTNITEMS (leafPut lf key value) = n + 1 := BTNITEMS_of_shape hsh1 (by omega)
  have hw : isLeafWord (BTOBJ.leaf lf).word0 = true := by
    simp only [BTOBJ.word0, hsh.2]; exact isLeafWord_leaf (by omega)
  have hlive0 : lf.live ≠ [] := by
    have : lf.live.length = n := by
      simp [BTLEAF.live, BTNITEMS_of_shape hsh (by omega : n ≤ 5), hsh.1]; omega
    intro h; rw [h] at this; simp at this; omega
  refine ⟨if n + 1 = 5 then BT_OVERFLOW else 1,
    { (b.storeLeaf off (leafPut lf key value)) with
      header := { b.header with nitems := (b.header.nitems + 1) % 4294967296 } }, ?_, ?_⟩
  · simp only [_BptInsertWorker, load_of h0 hld, bind, Except.bind, hw, BTOBJ.asLeaf, hcnt1,
      if_true, pure, Except.pure, BT_NBRANCHES]
    split_ifs <;> rfl
  · have hm : ∀ o, memLoad (memStore b.mem off (.leaf (leafPut lf key value))) o =
        if o = off then some (.leaf (leafPut lf key value)) else memLoad b.mem o :=
      fun o => memLoad_memStore _ _ _ _
    constructor
    · split_ifs <;> simp
    · simp only [SubOK, BPTREE.storeLeaf, BPTREE.store, hm, if_true]
      refine ⟨h0, leafPut lf key value, n + 1, rfl, hsh1, ?_⟩
      by_cases hn5 : n = 4
      · simp [hn5]
      · have : ¬ (n + 1 = 5) := by omega
        simp [this]
        exact ⟨by decide, by omega⟩
    · exact Nat.le_refl _
    · intro o ho _
      simp only [subFp, Multiset.mem_singleton] at ho
      simp [BPTREE.storeLeaf, BPTREE.store, hm, ho]
    · intro o ho; left; simpa [subFp] using ho
    · intro o ho
      simp only [subFp, Multiset.mem_singleton] at ho
      subst ho
      exact hlt o (by simp [subFp])
    · refine ⟨lf.live.take (_BptMakeSpaceLeaf lf key).1, lf.live.drop (_BptMakeSpaceLeaf lf key).1,
        ?_, ?_, ?_, ?_, ?_, ?_⟩
      · rw [subItems_leaf hld]; exact (List.take_append_drop _ _).symm
      · simp only [BPTREE.storeLeaf, BPTREE.store]
        rw [subItems_leaf (L := leafPut lf key value) (by rw [hm]; simp), hlive]
      · intro h1
        rw [h1] at hlive
        have h2 : lf.live.drop (_BptMakeSpaceLeaf lf key).1 = lf.live := by
          have := List.take_append_drop (_BptMakeSpaceLeaf lf key).1 lf.live
          rw [h1] at this; simpa using this
        rw [h2] at hgt ⊢
        cases hl : lf.live with
        | nil => exact absurd hl hlive0
        | cons y l => exact ⟨y, l, rfl, hgt y (by rw [hl]; simp)⟩
      · intro h2
        have h1 : lf.live.take (_BptMakeSpaceLeaf lf key).1 = lf.live := by
          have := List.take_append_drop (_BptMakeSpaceLeaf lf key).1 lf.live
          rw [h2] at this; simpa using this
        rw [h1] at hle ⊢
        rcases List.eq_nil_or_concat lf.live with hl | ⟨l, y, hl⟩
        · exact absurd hl hlive0
        · refine ⟨y, l, by rw [hl]; simp, ?_⟩
          apply hle; rw [hl]; simp
      · intro _ hall
        rw [List.take_append_drop] at hall
        by_contra hne
        rcases List.eq_nil_or_concat (lf.live.take (_BptMakeSpaceLeaf lf key).1) with hl | ⟨l, y, hl⟩
        · exact hne hl
        · have h3 := hle y (by rw [hl]; simp)
          have h4 := hall y (List.mem_of_mem_take (by rw [hl]; simp))
          exact absurd h4 (not_lt.mpr h3)
      · intro _ hall
        rw [List.take_append_drop] at hall
        by_contra hne
        cases hl : lf.live.drop (_BptMakeSpaceLeaf lf key).1 with
        | nil => exact hne hl
        | cons y l =>
          have h3 := hgt y (by rw [hl]; simp)
          have h4 := hall y (List.mem_of_mem_drop (by rw [hl]; simp))
          exact absurd h3 (not_lt.mpr h4)
    · intro k hk; simp [subKeys] at hk
    · rfl
    · rfl
    · rfl
    · rfl
    · rfl
    · rfl
    · exact Nat.le_add_right _ _

theorem rd_of_append {α : Type} [Inhabited α] (l A B : List α) (x : α) (n : Nat)
    (h : l.take n = A ++ x :: B) : rd l A.length = x := by
  have h1 : (l.take n)[A.length]? = some x := by
    rw [h, List.getElem?_append_right (Nat.le_refl _)]; simp
  rw [List.getElem?_take] at h1
  split_ifs at h1
  simp [rd, List.getD_eq_getElem?_getD, h1]

theorem rd_choffs {N : BTNODE} {A B : List Nat} {x : Nat}
    (h : N.liveChoffs = A ++ x :: B) : rd N.choffs A.length = x :=
  rd_of_append N.choffs A B x _ h

theorem subFp_one {m : List (Nat × BTOBJ)} {P : Nat} {nd : BTNODE}
    (hl : memLoad m P = some (.node nd)) : subFp m 1 P = P ::ₘ (nd.liveChoffs : Multiset Nat) := by
  rw [subFp_node 0 hl]
  congr 1
  induction nd.liveChoffs with
  | nil => rfl
  | cons a l ih =>
    rw [List.map_cons, List.sum_cons, ih]
    simp [subFp]

theorem BT_NBRANCHES_eq : BT_NBRANCHES = 4 := rfl

theorem lor_leaf_2 : (2 : Nat) ||| BT_LEAF = BT_LEAF + 2 := by decide
theorem lor_leaf_3 : (3 : Nat) ||| BT_LEAF = BT_LEAF + 3 := by decide

/-- Object level: `_BptRedistributeLeafLeft` on the two leaves. -/
theorem leafLeft_objs (lfl lfc : BTLEAF) (nl : Nat) (hl : LeafShape lfl nl) (hnl1 : 1 ≤ nl)
    (hnl : nl < 4)
    (hc : LeafShape lfc 5) :
    LeafShape (llLeft lfl lfc) (nl + 1) ∧ LeafShape (llChild lfc) 4 ∧
    (llLeft lfl lfc).live ++ (llChild lfc).live = lfl.live ++ lfc.live ∧
    (∃ l, (llChild lfc).live = rd (llChild lfc).items 0 :: l) := by
  obtain ⟨hlen, hat⟩ := hl
  obtain ⟨hlenc, hatc⟩ := hc
  obtain ⟨a0, a1, a2, a3, a4, hit⟩ := list5 hlen
  obtain ⟨b0, b1, b2, b3, b4, hitc⟩ := list5 hlenc
  obtain ⟨at0, it0, p0, n0⟩ := lfl
  obtain ⟨at1, it1, p1, n1⟩ := lfc
  simp only at hit hat hitc hatc
  subst hit hat hitc hatc
  have e1 : BT_LEAF + nl + 1 = BT_LEAF + (nl + 1) := by omega
  have e2 : BT_LEAF + 5 - 1 = BT_LEAF + 4 := by omega
  interval_cases nl <;>
    simp [llLeft, llChild, LeafShape, BTLEAF.live, _BptShiftLeafLeft, e1, e2, BTNITEMS_mk, rd, wr,
      List.range_succ]

/-- Object level: `_BptRedistributeLeafRight` on the two leaves. -/
theorem leafRight_objs (lfr lfc : BTLEAF) (nr : Nat) (hr : LeafShape lfr nr) (hnr1 : 1 ≤ nr)
    (hnr : nr < 4)
    (hc : LeafShape lfc 5) :
    LeafShape (lrRight lfr lfc) (nr + 1) ∧ LeafShape (lrChild lfc) 4 ∧
    (lrChild lfc).live ++ (lrRight lfr lfc).live = lfc.live ++ lfr.live ∧
    (∃ l, (lrRight lfr lfc).live = rd (lrRight lfr lfc).items 0 :: l) := by
  obtain ⟨hlen, hat⟩ := hr
  obtain ⟨hlenc, hatc⟩ := hc
  obtain ⟨a0, a1, a2, a3, a4, hit⟩ := list5 hlen
  obtain ⟨b0, b1, b2, b3, b4, hitc⟩ := list5 hlenc
  obtain ⟨at0, it0, p0, n0⟩ := lfr
  obtain ⟨at1, it1, p1, n1⟩ := lfc
  simp only at hit hat hitc hatc
  subst hit hat hitc hatc
  have e1 : BT_LEAF + nr + 1 = BT_LEAF + (nr + 1) := by omega
  have e2 : BT_LEAF + 5 - 1 = BT_LEAF + 4 := by omega
  interval_cases nr <;>
    simp [lrRight, lrChild, LeafShape, BTLEAF.live, _BptShiftLeafRight, e1, e2, BTNITEMS_mk, rd, wr,
      List.range_succ]

/-- Object level: `_BptSplitLeaf` on the two leaves. -/
theorem leafSplit_objs (lfc : BTLEAF) (leaf offset : Nat) (hc : LeafShape lfc 5) :
    LeafShape (lsOld lfc offset) 2 ∧ LeafShape (lsNew lfc leaf) 3 ∧
    (lsOld lfc offset).live ++ (lsNew lfc leaf).live = lfc.live ∧
    (∃ l, (lsNew lfc leaf).live = rd (lsNew lfc leaf).items 0 :: l) := by
  obtain ⟨hlenc, hatc⟩ := hc
  obtain ⟨b0, b1, b2, b3, b4, hitc⟩ := list5 hlenc
  obtain ⟨at1, it1, p1, n1⟩ := lfc
  simp only at hitc hatc
  subst hitc hatc
  have hB : BT_NBRANCHES = 4 := rfl
  simp [lsOld, lsNew, LeafShape, BTLEAF.live, lor_leaf_2, lor_leaf_3, BTNITEMS_mk, rd, wr,
      List.range_succ, zeroLeaf, hB]

theorem nsInsNode_eq (node : BTNODE) (i : Nat) (newkey : KEYTYPE) (newchoff : Nat) :
    nsInsNode node i newkey newchoff = nsInsLeaf node i newkey newchoff := rfl

theorem nodeSetKey_spec (nd : BTNODE) (j : Nat) (v : KEYTYPE) (hs : NodeShape nd)
    (hn : nd.nitems ≤ 4) :
    NodeShape { nd with keys := wr nd.keys j v } ∧
    BTNODE.liveChoffs { nd with keys := wr nd.keys j v } = nd.liveChoffs ∧
    ∀ k ∈ BTNODE.liveKeys { nd with keys := wr nd.keys j v }, k ∈ nd.liveKeys ∨ k = v := by
  obtain ⟨hk, hc⟩ := hs
  obtain ⟨k0, k1, k2, k3, hke⟩ := list4 hk
  obtain ⟨n, ks, cs⟩ := nd
  simp only at hke hn hc
  subst hke
  refine ⟨⟨by simp [wr], hc⟩, rfl, ?_⟩
  rcases j with _ | _ | _ | _ | j <;> interval_cases n <;>
    simp [BTNODE.liveKeys, wr] <;> tauto

theorem nsInsLeaf_spec (nd : BTNODE) (i : Nat) (k : KEYTYPE) (c : Nat) (hs : NodeShape nd)
    (hn : nd.nitems ≤ 3) (hi : i ≤ nd.nitems) :
    NodeShape (nsInsLeaf nd i k c) ∧ (nsInsLeaf nd i k c).nitems = nd.nitems + 1 ∧
    (nsInsLeaf nd i k c).liveChoffs =
      nd.liveChoffs.take (i + 1) ++ c :: nd.liveChoffs.drop (i + 1) ∧
    ∀ k1 ∈ (nsInsLeaf nd i k c).liveKeys, k1 ∈ nd.liveKeys ∨ k1 = k := by
  obtain ⟨hk, hc⟩ := hs
  obtain ⟨k0, k1, k2, k3, hke⟩ := list4 hk
  obtain ⟨c0, c1, c2, c3, c4, hce⟩ := list5 hc
  obtain ⟨n, ks, cs⟩ := nd
  simp only at hke hn hce hi
  subst hke hce
  interval_cases n <;> interval_cases i <;>
    simp [nsInsLeaf, _BptMakeSpaceNode, NodeShape, BTNODE.liveKeys, BTNODE.liveChoffs, rd, wr,
      List.range_succ] <;> tauto

theorem take_succ_append_cons {α : Type} (pre post : List α) (x : α) :
    (pre ++ x :: post).take (pre.length + 1) = pre ++ [x] := by
  rw [List.take_append_eq_append_take]
  simp

theorem drop_succ_append_cons {α : Type} (pre post : List α) (x : α) :
    (pre ++ x :: post).drop (pre.length + 1) = post := by
  rw [List.drop_append_eq_append_drop]
  simp

theorem load_store (b : BPTREE) (a x : Nat) (o : BTOBJ) :
    (b.store a o).load x =
      if x = 0 then .error .header else if x = a then .ok o else b.load x := by
  unfold BPTREE.load BPTREE.store
  simp only [memLoad_memStore]
  split_ifs <;> rfl

theorem load_storeLeaf (b : BPTREE) (a x : Nat) (lf : BTLEAF) :
    (b.storeLeaf a lf).load x =
      if x = 0 then .error .header else if x = a then .ok (.leaf lf) else b.load x :=
  load_store b a x _

theorem load_storeNode (b : BPTREE) (a x : Nat) (nd : BTNODE) :
    (b.storeNode a nd).load x =
      if x = 0 then .error .header else if x = a then .ok (.node nd) else b.load x :=
  load_store b a x _

theorem loadLeaf_storeLeaf (b : BPTREE) (a x : Nat) (lf : BTLEAF) :
    (b.storeLeaf a lf).loadLeaf x =
      if x = 0 then .error .header else if x = a then .ok lf else b.loadLeaf x := by
  unfold BPTREE.loadLeaf
  rw [load_storeLeaf]
  split_ifs <;> rfl

theorem loadLeaf_storeNode (b : BPTREE) (a x : Nat) (nd : BTNODE) :
    (b.storeNode a nd).loadLeaf x =
      if x = 0 then .error .header else if x = a then .error .typepun else b.loadLeaf x := by
  unfold BPTREE.loadLeaf
  rw [load_storeNode]
  split_ifs <;> rfl

theorem loadNode_storeNode (b : BPTREE) (a x : Nat) (nd : BTNODE) :
    (b.storeNode a nd).loadNode x =
      if x = 0 then .error .header else if x = a then .ok nd else b.loadNode x := by
  unfold BPTREE.loadNode
  rw [load_storeNode]
  split_ifs <;> rfl

theorem loadNode_storeLeaf (b : BPTREE) (a x : Nat) (lf : BTLEAF) :
    (b.storeLeaf a lf).loadNode x =
      if x = 0 then .error .header else if x = a then .error .typepun else b.loadNode x := by
  unfold BPTREE.loadNode
  rw [load_storeLeaf]
  split_ifs <;> rfl

theorem mem_storeLeaf (b : BPTREE) (a : Nat) (lf : BTLEAF) :
    (b.storeLeaf a lf).mem = memStore b.mem a (.leaf lf) := rfl

theorem mem_storeNode (b : BPTREE) (a : Nat) (nd : BTNODE) :
    (b.storeNode a nd).mem = memStore b.mem a (.node nd) := rfl

theorem subKeys_one {m : List (Nat × BTOBJ)} {P : Nat} {nd : BTNODE}
    (hl : memLoad m P = some (.node nd)) : subKeys m 1 P = nd.liveKeys := by
  rw [subKeys_node 0 hl]
  have : (nd.liveChoffs.map (subKeys m 0)).flatten = [] := by
    induction nd.liveChoffs with
    | nil => rfl
    | cons a l ih => simp [subKeys, ih]
  rw [this, List.append_nil]

theorem subOK_leaf_iff {m : List (Nat × BTOBJ)} {ov : Bool} {s : Nat} :
    SubOK m ov 0 s ↔ s ≠ 0 ∧ ∃ lf n, memLoad m s = some (.leaf lf) ∧ LeafShape lf n ∧
      (if ov then n = 5 else 1 ≤ n ∧ n ≤ 4) := by
  simp [SubOK]

theorem sum_split (F : Nat → Multiset Nat) (pre post : List Nat) (x : Nat) :
    ((pre ++ x :: post).map F).sum = F x + ((pre ++ post).map F).sum := by
  simp only [List.map_append, List.map_cons, List.sum_append, List.sum_cons]
  rw [← add_assoc, add_comm _ (F x), add_assoc]

theorem nodup_node_split (F : Nat → Multiset Nat) (P x : Nat) (pre post : List Nat)
    (h : (P ::ₘ ((pre ++ x :: post).map F).sum).Nodup) :
    P ∉ F x ∧ (F x).Nodup ∧ (∀ s ∈ pre ++ post, ∀ o ∈ F s, o ≠ P ∧ o ∉ F x) ∧
      (P ::ₘ ((pre ++ post).map F).sum).Nodup := by
  rw [sum_split] at h
  rw [Multiset.nodup_cons, Multiset.mem_add, not_or, Multiset.nodup_add] at h
  obtain ⟨⟨h1, h2⟩, h3, h4, h5⟩ := h
  refine ⟨h1, h3, ?_, ?_⟩
  · intro s hs o ho
    have hmem : o ∈ ((pre ++ post).map F).sum := (mem_sum_map F _ o).2 ⟨s, hs, ho⟩
    refine ⟨fun e => h2 (e ▸ hmem), fun hx => ?_⟩
    exact Multiset.disjoint_left.1 h5 hx hmem
  · rw [Multiset.nodup_cons]; exact ⟨h2, h4⟩

theorem mem_flatten_map_of_mem {α β : Type} (f : α → List β) (l : List α) (a : α) (y : β)
    (ha : a ∈ l) (hy : y ∈ f a) : y ∈ (l.map f).flatten := by
  simp only [List.mem_flatten, List.mem_map]
  exact ⟨f a, ⟨a, ha, rfl⟩, hy⟩

/-- Assemble `FixPost` from a description of the node and its children after the
overflow handling. -/
theorem fixPost_assemble (h P : Nat) (b b2 : BPTREE) (nd nd2 : BTNODE) (extra : Multiset Nat)
    (hP0 : P ≠ 0) (hP : memLoad b.mem P = some (.node nd))
    (hnd : (subFp b.mem (h + 1) P).Nodup)
    (hlt : ∀ o ∈ subFp b.mem (h + 1) P, o < b.filesize)
    (hP2 : memLoad b2.mem P = some (.node nd2)) (hsh2 : NodeShape nd2)
    (hn2 : 1 ≤ nd2.nitems ∧ nd2.nitems ≤ 4)
    (hch2 : ∀ s ∈ nd2.liveChoffs, SubOK b2.mem false h s)
    (hitems : (nd2.liveChoffs.map (subItems b2.mem h)).flatten = subItems b.mem (h + 1) P)
    (hkeys : ∀ k ∈ nd2.liveKeys ++ (nd2.liveChoffs.map (subKeys b2.mem h)).flatten,
      k ∈ subKeys b.mem (h + 1) P ∨ ∃ y ∈ subItems b.mem (h + 1) P, y.key = k)
    (hfp : P ::ₘ (nd2.liveChoffs.map (subFp b2.mem h)).sum = extra + subFp b.mem (h + 1) P)
    (hex : extra.Nodup) (hexr : ∀ o ∈ extra, b.filesize ≤ o ∧ o < b2.filesize)
    (hfs : b.filesize ≤ b2.filesize)
    (hframe : ∀ o, o ∉ subFp b.mem (h + 1) P → o < b.filesize →
      memLoad b2.mem o = memLoad b.mem o)
    (hroot : b2.root = b.root) (hdepth : b2.header.depth = b.header.depth)
    (hnit : b2.header.nitems = b.header.nitems)
    (hro : b2.header.rootoff = b.header.rootoff) (hos : b2.os = b.os)
    (hbase : b2.baseaddr = b.baseaddr) (hbd : b2.filesize ≤ b.filesize + 52) :
    FixPost h P b b2 := by
  have hfp2 : subFp b2.mem (h + 1) P = extra + subFp b.mem (h + 1) P := by
    rw [subFp_node h hP2, hfp]
  constructor
  · refine ⟨decide (nd2.nitems = 4), ?_⟩
    unfold SubOK
    refine ⟨hP0, nd2, hP2, hsh2, ?_, hch2, ?_⟩
    · by_cases h4 : nd2.nitems = 4
      · simp [h4]
      · simp only [h4, decide_False, Bool.false_eq_true, if_false]; omega
    · rw [hfp2, Multiset.nodup_add]
      refine ⟨hex, hnd, ?_⟩
      rw [Multiset.disjoint_left]
      intro o ho1 ho2
      have := hexr o ho1
      have := hlt o ho2
      omega
  · rw [subItems_node h hP2, hitems]
  · rw [subKeys_node h hP2]; exact hkeys
  · exact hfs
  · exact hframe
  · intro o ho
    rw [hfp2, Multiset.mem_add] at ho
    rcases ho with ho | ho
    · exact Or.inr (hexr o ho).1
    · exact Or.inl ho
  · intro o ho
    rw [hfp2, Multiset.mem_add] at ho
    rcases ho with ho | ho
    · exact (hexr o ho).2
    · exact Nat.lt_of_lt_of_le (hlt o ho) hfs
  · exact hroot
  · exact hdepth
  · exact hnit
  · exact hro
  · exact hos
  · exact hbase
  · exact hbd

theorem subItems_zero_eq {m m2 : List (Nat × BTOBJ)} {s : Nat}
    (h : memLoad m2 s = memLoad m s) : subItems m2 0 s = subItems m 0 s := by
  simp [subItems, h]

theorem subOK_zero_of_eq {m m2 : List (Nat × BTOBJ)} {s : Nat} {ov : Bool}
    (h : memLoad m2 s = memLoad m s) (hok : SubOK m ov 0 s) : SubOK m2 ov 0 s := by
  simpa [SubOK, h] using hok

theorem subFp_zero (m m2 : List (Nat × BTOBJ)) : subFp m2 0 = subFp m 0 := rfl

theorem subKeys_zero_flatten (m : List (Nat × BTOBJ)) (l : List Nat) :
    (l.map (subKeys m 0)).flatten = [] := by
  induction l with
  | nil => rfl
  | cons a l ih => simp [subKeys, ih]

theorem subOK_leaf_intro {m : List (Nat × BTOBJ)} {s : Nat} {lf : BTLEAF} {n : Nat}
    (h0 : s ≠ 0) (hl : memLoad m s = some (.leaf lf)) (hs : LeafShape lf n) (h1 : 1 ≤ n)
    (h4 : n ≤ 4) : SubOK m false 0 s := by
  simp only [SubOK, Bool.false_eq_true, if_false]
  exact ⟨h0, lf, n, hl, hs, h1, h4⟩

/-- Tree level: the left redistribution of leaves in `_BptInsertWorker`. -/
theorem fixLeaf_LL (b : BPTREE) (P : Nat) (nd : BTNODE) (pre post : List Nat) (lc c : Nat)
    (lfl lfc : BTLEAF) (nl : Nat)
    (hP0 : P ≠ 0) (hP : memLoad b.mem P = some (.node nd)) (hsh : NodeShape nd)
    (hn1 : 1 ≤ nd.nitems) (hn3 : nd.nitems ≤ 3)
    (hcs : nd.liveChoffs = pre ++ lc :: c :: post)
    (hsib : ∀ s ∈ pre ++ post, SubOK b.mem false 0 s)
    (hlc0 : lc ≠ 0) (hlc : memLoad b.mem lc = some (.leaf lfl)) (hlsh : LeafShape lfl nl)
    (hnl1 : 1 ≤ nl) (hnl : nl < 4)
    (hc0 : c ≠ 0) (hc : memLoad b.mem c = some (.leaf lfc)) (hcsh : LeafShape lfc 5)
    (hnd : (subFp b.mem 1 P).Nodup)
    (hlt : ∀ o ∈ subFp b.mem 1 P, o < b.filesize) :
    ∃ b2, insertFixLeaf b P (pre.length + 1) = .ok b2 ∧ FixPost 0 P b b2 := by
  obtain ⟨hsl, hsc, hlive, l, hl⟩ := leafLeft_objs lfl lfc nl hlsh hnl1 hnl hcsh
  -- distinctness
  have hfp := subFp_node 0 hP
  have hnd1 := hnd
  rw [hfp, hcs] at hnd1
  have hcs2 : pre ++ lc :: c :: post = (pre ++ [lc]) ++ c :: post := by simp
  rw [hcs2] at hnd1
  obtain ⟨hPc, -, hsibc, hnd2⟩ := nodup_node_split (subFp b.mem 0) P c (pre ++ [lc]) post hnd1
  have hcs3 : pre ++ [lc] ++ post = pre ++ lc :: post := by simp
  rw [hcs3] at hnd2 hsibc
  obtain ⟨hPlc, -, hsiblc, -⟩ := nodup_node_split (subFp b.mem 0) P lc pre post hnd2
  simp only [subFp, Multiset.mem_singleton, forall_eq] at hPc hPlc hsibc hsiblc
  have hlcc : lc ≠ c := (hsibc lc (by simp)).2
  have hlcP : lc ≠ P := fun e => hPlc e.symm
  have hcP : c ≠ P := fun e => hPc e.symm
  have hsibne : ∀ s ∈ pre ++ post, s ≠ P ∧ s ≠ lc ∧ s ≠ c := fun s hs =>
    ⟨(hsiblc s hs).1, (hsiblc s hs).2,
      (hsibc s (by simp only [List.mem_append, List.mem_cons] at hs ⊢; tauto)).2⟩
  -- the run
  have hrc : rd nd.choffs (pre.length + 1) = c := by
    have := rd_choffs (N := nd) (A := pre ++ [lc]) (B := post) (x := c) (by rw [hcs]; simp)
    simpa using this
  have hrl : rd nd.choffs pre.length = lc := rd_choffs (N := nd) hcs
  have hcntl : BTNITEMS lfl = nl := BTNITEMS_of_shape hlsh (by omega)
  have hnl' : BTNITEMS lfl < 4 := by rw [hcntl]; exact hnl
  let nd2 : BTNODE := { nd with keys := wr nd.keys pre.length (rd (llChild lfc).items 0).key }
  obtain ⟨hsh2, hcs2', hk2⟩ :=
    nodeSetKey_spec nd pre.length (rd (llChild lfc).items 0).key hsh (by omega)
  refine ⟨((b.storeLeaf lc (llLeft lfl lfc)).storeLeaf c (llChild lfc)).storeNode P nd2, ?_, ?_⟩
  · simp only [insertFixLeaf, _BptRedistributeLeafLeft, loadNode_of hP0 hP, bind, Except.bind, hrc,
      Nat.add_sub_cancel, hrl, loadLeaf_of hlc0 hlc, loadLeaf_of hc0 hc, BT_NBRANCHES, hnl',
      ne_eq, one_ne_zero, not_false_eq_true,
      Nat.succ_pos, gt_iff_lt, if_true, pure, Except.pure, Nat.lt_add_left_iff_pos, Nat.lt_add_one,
      loadLeaf_storeLeaf, loadNode_storeLeaf,
      hc0, hP0, hPc, Ne.symm hlcc, hPlc, if_false]
    rfl
  · have hm2 : ∀ o, memLoad (((b.storeLeaf lc (llLeft lfl lfc)).storeLeaf c (llChild lfc)).storeNode
        P nd2).mem o = if o = P then some (.node nd2) else if o = c then some (.leaf (llChild lfc))
          else if o = lc then some (.leaf (llLeft lfl lfc)) else memLoad b.mem o := by
      intro o; simp only [mem_storeNode, mem_storeLeaf, memLoad_memStore]
    have hsame : ∀ s ∈ pre ++ post, memLoad (((b.storeLeaf lc (llLeft lfl lfc)).storeLeaf c
        (llChild lfc)).storeNode P nd2).mem s = memLoad b.mem s := by
      intro s hs
      obtain ⟨h1, h2, h3⟩ := hsibne s hs
      simp [hm2, h1, h2, h3]
    have hitems0 : subItems b.mem 1 P =
        ((pre.map (subItems b.mem 0)).flatten ++ (lfl.live ++ lfc.live)) ++
          (post.map (subItems b.mem 0)).flatten := by
      rw [subItems_node 0 hP, hcs]
      simp [subItems_leaf hlc, subItems_leaf hc]
    apply fixPost_assemble 0 P b _ nd nd2 0 hP0 hP hnd hlt
    · simp [hm2]
    · exact hsh2
    · exact ⟨hn1, by show nd.nitems ≤ 4; omega⟩
    · rw [hcs2', hcs]
      intro s hs
      simp only [List.mem_append, List.mem_cons] at hs
      rcases hs with hs | rfl | rfl | hs
      · exact subOK_zero_of_eq (hsame s (by simp [hs])) (hsib s (by simp [hs]))
      · exact subOK_leaf_intro hlc0 (by simp [hm2, hlcP, hlcc]) hsl (by omega) (by omega)
      · exact subOK_leaf_intro hc0 (by simp [hm2, hcP]) hsc (by omega) (by omega)
      · exact subOK_zero_of_eq (hsame s (by simp [hs])) (hsib s (by simp [hs]))
    · rw [hcs2', hcs, hitems0, ← hlive]
      have e1 : pre.map (subItems (((b.storeLeaf lc (llLeft lfl lfc)).storeLeaf c
          (llChild lfc)).storeNode P nd2).mem 0) = pre.map (subItems b.mem 0) :=
        List.map_congr_left fun s hs => subItems_zero_eq (hsame s (by simp [hs]))
      have e2 : post.map (subItems (((b.storeLeaf lc (llLeft lfl lfc)).storeLeaf c
          (llChild lfc)).storeNode P nd2).mem 0) = post.map (subItems b.mem 0) :=
        List.map_congr_left fun s hs => subItems_zero_eq (hsame s (by simp [hs]))
      have e3 : subItems (((b.storeLeaf lc (llLeft lfl lfc)).storeLeaf c
          (llChild lfc)).storeNode P nd2).mem 0 lc = (llLeft lfl lfc).live :=
        subItems_leaf (by simp [hm2, hlcP, hlcc])
      have e4 : subItems (((b.storeLeaf lc (llLeft lfl lfc)).storeLeaf c
          (llChild lfc)).storeNode P nd2).mem 0 c = (llChild lfc).live :=
        subItems_leaf (by simp [hm2, hcP])
      simp [e1, e2, e3, e4]
    · rw [subKeys_zero_flatten, List.append_nil, subKeys_one hP]
      intro k hk
      rcases hk2 k hk with h1 | h1
      · exact Or.inl h1
      · right
        refine ⟨rd (llChild lfc).items 0, ?_, h1.symm⟩
        rw [hitems0, ← hlive, hl]
        simp
    · rw [hcs2', zero_add, subFp_node 0 hP]
      rfl
    · exact Multiset.nodup_zero
    · intro o ho; simp at ho
    · exact Nat.le_refl _
    · intro o ho _
      have h1 : o ≠ P := fun e => ho (e ▸ self_mem_subFp _ _ _)
      have h2 : ∀ s ∈ nd.liveChoffs, o ≠ s := fun s hs e =>
        ho (child_subFp_sub 0 hP hs (e ▸ self_mem_subFp _ 0 _))
      have h3 := h2 c (by rw [hcs]; simp)
      have h4 := h2 lc (by rw [hcs]; simp)
      simp [hm2, h1, h3, h4]
    · rfl
    · rfl
    · rfl
    · rfl
    · rfl
    · rfl
    · exact Nat.le_add_right _ _

theorem liveChoffs_length {nd : BTNODE} (hs : NodeShape nd) (hn : nd.nitems ≤ 4) :
    nd.liveChoffs.length = nd.nitems + 1 := by
  simp [BTNODE.liveChoffs, hs.2]; omega

theorem RLL_fail_zero (b : BPTREE) (P : Nat) (nd : BTNODE) (hP0 : P ≠ 0)
    (hP : memLoad b.mem P = some (.node nd)) :
    _BptRedistributeLeafLeft b P 0 = .ok (0, b) := by
  simp [_BptRedistributeLeafLeft, loadNode_of hP0 hP, bind, Except.bind, pure, Except.pure]

theorem RLL_fail_full (b : BPTREE) (P : Nat) (nd : BTNODE) (pre post : List Nat) (lc : Nat)
    (lfl : BTLEAF) (hP0 : P ≠ 0) (hP : memLoad b.mem P = some (.node nd))
    (hcs : nd.liveChoffs = pre ++ lc :: post)
    (hlc0 : lc ≠ 0) (hlc : memLoad b.mem lc = some (.leaf lfl)) (hlsh : LeafShape lfl 4) :
    _BptRedistributeLeafLeft b P (pre.length + 1) = .ok (0, b) := by
  have hrl : rd nd.choffs pre.length = lc := rd_choffs (N := nd) hcs
  have hcntl : BTNITEMS lfl = 4 := BTNITEMS_of_shape hlsh (by omega)
  simp [_BptRedistributeLeafLeft, loadNode_of hP0 hP, bind, Except.bind, pure, Except.pure, hrl,
    loadLeaf_of hlc0 hlc, hcntl]

theorem RLR_fail_last (b : BPTREE) (P : Nat) (nd : BTNODE) (hP0 : P ≠ 0)
    (hP : memLoad b.mem P = some (.node nd)) :
    _BptRedistributeLeafRight b P nd.nitems = .ok (0, b) := by
  simp [_BptRedistributeLeafRight, loadNode_of hP0 hP, bind, Except.bind, pure, Except.pure]

theorem RLR_fail_full (b : BPTREE) (P : Nat) (nd : BTNODE) (pre post : List Nat) (c rc : Nat)
    (lfr : BTLEAF) (hP0 : P ≠ 0) (hP : memLoad b.mem P = some (.node nd))
    (hcs : nd.liveChoffs = pre ++ c :: rc :: post)
    (hrc0 : rc ≠ 0) (hrc : memLoad b.mem rc = some (.leaf lfr)) (hrsh : LeafShape lfr 4) :
    _BptRedistributeLeafRight b P pre.length = .ok (0, b) := by
  have hrr : rd nd.choffs (pre.length + 1) = rc := by
    have := rd_choffs (N := nd) (A := pre ++ [c]) (B := post) (x := rc) (by rw [hcs]; simp)
    simpa using this
  have hcntl : BTNITEMS lfr = 4 := BTNITEMS_of_shape hrsh (by omega)
  simp [_BptRedistributeLeafRight, loadNode_of hP0 hP, bind, Except.bind, pure, Except.pure, hrr,
    loadLeaf_of hrc0 hrc, hcntl]

/-- Tree level: the right redistribution of leaves in `_BptInsertWorker`. -/
theorem fixLeaf_LR (b : BPTREE) (P : Nat) (nd : BTNODE) (pre post : List Nat) (c rc : Nat)
    (lfc lfr : BTLEAF) (nr : Nat)
    (hP0 : P ≠ 0) (hP : memLoad b.mem P = some (.node nd)) (hsh : NodeShape nd)
    (hn1 : 1 ≤ nd.nitems) (hn3 : nd.nitems ≤ 3)
    (hcs : nd.liveChoffs = pre ++ c :: rc :: post)
    (hsib : ∀ s ∈ pre ++ post, SubOK b.mem false 0 s)
    (hrc0 : rc ≠ 0) (hrc : memLoad b.mem rc = some (.leaf lfr)) (hrsh : LeafShape lfr nr)
    (hnr1 : 1 ≤ nr) (hnr : nr < 4)
    (hc0 : c ≠ 0) (hc : memLoad b.mem c = some (.leaf lfc)) (hcsh : LeafShape lfc 5)
    (hnd : (subFp b.mem 1 P).Nodup)
    (hlt : ∀ o ∈ subFp b.mem 1 P, o < b.filesize)
    (hLL : _BptRedistributeLeafLeft b P pre.length = .ok (0, b)) :
    ∃ b2, insertFixLeaf b P pre.length = .ok b2 ∧ FixPost 0 P b b2 := by
  obtain ⟨hsr, hsc, hlive, l, hl⟩ := leafRight_objs lfr lfc nr hrsh hnr1 hnr hcsh
  -- distinctness
  have hfp := subFp_node 0 hP
  have hnd1 := hnd
  rw [hfp, hcs] at hnd1
  obtain ⟨hPc, -, hsibc, hnd2⟩ := nodup_node_split (subFp b.mem 0) P c pre (rc :: post) hnd1
  obtain ⟨hPrc, -, hsibrc, -⟩ := nodup_node_split (subFp b.mem 0) P rc pre post hnd2
  simp only [subFp, Multiset.mem_singleton, forall_eq] at hPc hPrc hsibc hsibrc
  have hrcc : rc ≠ c := (hsibc rc (by simp)).2
  have hrcP : rc ≠ P := fun e => hPrc e.symm
  have hcP : c ≠ P := fun e => hPc e.symm
  have hsibne : ∀ s ∈ pre ++ post, s ≠ P ∧ s ≠ rc ∧ s ≠ c := fun s hs =>
    ⟨(hsibrc s hs).1, (hsibrc s hs).2,
      (hsibc s (by simp only [List.mem_append, List.mem_cons] at hs ⊢; tauto)).2⟩
  -- the run
  have hrr : rd nd.choffs (pre.length + 1) = rc := by
    have := rd_choffs (N := nd) (A := pre ++ [c]) (B := post) (x := rc) (by rw [hcs]; simp)
    simpa using this
  have hrcx : rd nd.choffs pre.length = c := rd_choffs (N := nd) hcs
  have hcntr : BTNITEMS lfr = nr := BTNITEMS_of_shape hrsh (by omega)
  have hnr' : BTNITEMS lfr < 4 := by rw [hcntr]; exact hnr
  have hlen := liveChoffs_length hsh (by omega)
  have hilt : pre.length < nd.nitems := by
    rw [hcs] at hlen; simp at hlen; omega
  let nd2 : BTNODE := { nd with keys := wr nd.keys pre.length (rd (lrRight lfr lfc).items 0).key }
  obtain ⟨hsh2, hcs2', hk2⟩ :=
    nodeSetKey_spec nd pre.length (rd (lrRight lfr lfc).items 0).key hsh (by omega)
  refine ⟨((b.storeLeaf rc (lrRight lfr lfc)).storeLeaf c (lrChild lfc)).storeNode P nd2, ?_, ?_⟩
  · simp only [insertFixLeaf, hLL, _BptRedistributeLeafRight, loadNode_of hP0 hP, bind, Except.bind,
      hrr, hrcx, loadLeaf_of hrc0 hrc, loadLeaf_of hc0 hc, BT_NBRANCHES, hnr', hilt,
      ne_eq, one_ne_zero, not_false_eq_true, not_true_eq_false,
      if_true, pure, Except.pure,
      loadLeaf_storeLeaf, loadNode_storeLeaf,
      hrc0, hP0, hPc, hrcc, hPrc, if_false]
    rfl
  · have hm2 : ∀ o, memLoad (((b.storeLeaf rc (lrRight lfr lfc)).storeLeaf c (lrChild lfc)).storeNode
        P nd2).mem o = if o = P then some (.node nd2) else if o = c then some (.leaf (lrChild lfc))
          else if o = rc then some (.leaf (lrRight lfr lfc)) else memLoad b.mem o := by
      intro o; simp only [mem_storeNode, mem_storeLeaf, memLoad_memStore]
    have hsame : ∀ s ∈ pre ++ post, memLoad (((b.storeLeaf rc (lrRight lfr lfc)).storeLeaf c
        (lrChild lfc)).storeNode P nd2).mem s = memLoad b.mem s := by
      intro s hs
      obtain ⟨h1, h2, h3⟩ := hsibne s hs
      simp [hm2, h1, h2, h3]
    have hitems0 : subItems b.mem 1 P =
        ((pre.map (subItems b.mem 0)).flatten ++ (lfc.live ++ lfr.live)) ++
          (post.map (subItems b.mem 0)).flatten := by
      rw [subItems_node 0 hP, hcs]
      simp [subItems_leaf hrc, subItems_leaf hc]
    apply fixPost_assemble 0 P b _ nd nd2 0 hP0 hP hnd hlt
    · simp [hm2]
    · exact hsh2
    · exact ⟨hn1, by show nd.nitems ≤ 4; omega⟩
    · rw [hcs2', hcs]
      intro s hs
      simp only [List.mem_append, List.mem_cons] at hs
      rcases hs with hs | rfl | rfl | hs
      · exact subOK_zero_of_eq (hsame s (by simp [hs])) (hsib s (by simp [hs]))
      · exact subOK_leaf_intro hc0 (by simp [hm2, hcP]) hsc (by omega) (by omega)
      · exact subOK_leaf_intro hrc0 (by simp [hm2, hrcP, hrcc]) hsr (by omega) (by omega)
      · exact subOK_zero_of_eq (hsame s (by simp [hs])) (hsib s (by simp [hs]))
    · rw [hcs2', hcs, hitems0, ← hlive]
      have e1 : pre.map (subItems (((b.storeLeaf rc (lrRight lfr lfc)).storeLeaf c
          (lrChild lfc)).storeNode P nd2).mem 0) = pre.map (subItems b.mem 0) :=
        List.map_congr_left fun s hs => subItems_zero_eq (hsame s (by simp [hs]))
      have e2 : post.map (subItems (((b.storeLeaf rc (lrRight lfr lfc)).storeLeaf c
          (lrChild lfc)).storeNode P nd2).mem 0) = post.map (subItems b.mem 0) :=
        List.map_congr_left fun s hs => subItems_zero_eq (hsame s (by simp [hs]))
      have e3 : subItems (((b.storeLeaf rc (lrRight lfr lfc)).storeLeaf c
          (lrChild lfc)).storeNode P nd2).mem 0 rc = (lrRight lfr lfc).live :=
        subItems_leaf (by simp [hm2, hrcP, hrcc])
      have e4 : subItems (((b.storeLeaf rc (lrRight lfr lfc)).storeLeaf c
          (lrChild lfc)).storeNode P nd2).mem 0 c = (lrChild lfc).live :=
        subItems_leaf (by simp [hm2, hcP])
      simp [e1, e2, e3, e4]
    · rw [subKeys_zero_flatten, List.append_nil, subKeys_one hP]
      intro k hk
      rcases hk2 k hk with h1 | h1
      · exact Or.inl h1
      · right
        refine ⟨rd (lrRight lfr lfc).items 0, ?_, h1.symm⟩
        rw [hitems0, ← hlive, hl]
        simp
    · rw [hcs2', zero_add, subFp_node 0 hP]
      rfl
    · exact Multiset.nodup_zero
    · intro o ho; simp at ho
    · exact Nat.le_refl _
    · intro o ho _
      have h1 : o ≠ P := fun e => ho (e ▸ self_mem_subFp _ _ _)
      have h2 : ∀ s ∈ nd.liveChoffs, o ≠ s := fun s hs e =>
        ho (child_subFp_sub 0 hP hs (e ▸ self_mem_subFp _ 0 _))
      have h3 := h2 c (by rw [hcs]; simp)
      have h4 := h2 rc (by rw [hcs]; simp)
      simp [hm2, h1, h3, h4]
    · rfl
    · rfl
    · rfl
    · rfl
    · rfl
    · rfl
    · exact Nat.le_add_right _ _

/-- `_BptAllocateSpace` when the operating system maps in place and the new size
fits in 32 bits. -/
theorem allocate_spec (b : BPTREE) (size : Nat) (hos : b.os = [])
    (h32 : b.filesize + size < 4294967296) :
    _BptAllocateSpace b size = (b.filesize,
      { b with
        maplen := if b.filesize + size > b.maplen then b.maplen * 2 % 4294967296 else b.maplen,
        filesize := b.filesize + size,
        header := { b.header with usedsize := b.filesize + size } }) := by
  have e := Nat.mod_eq_of_lt h32
  by_cases hg : b.filesize + size > b.maplen
  · simp only [_BptAllocateSpace, MMFileResize, e, hos, hg, if_true, List.lookup, Option.getD]
    rfl
  · simp only [_BptAllocateSpace, MMFileResize, e, hg, if_false]
    rfl

theorem createLeaf_spec (b : BPTREE) (hfs : 0 < b.filesize) (hos : b.os = [])
    (h32 : b.filesize + 52 < 4294967296) :
    (_BptCreateLeaf b).1 = b.filesize ∧
    (_BptCreateLeaf b).2.mem = memStore b.mem b.filesize (.leaf zeroLeaf) ∧
    (_BptCreateLeaf b).2.filesize = b.filesize + 52 ∧
    (_BptCreateLeaf b).2.root = b.root ∧
    (_BptCreateLeaf b).2.header.depth = b.header.depth ∧
    (_BptCreateLeaf b).2.header.nitems = b.header.nitems ∧
    (_BptCreateLeaf b).2.header.rootoff = b.header.rootoff ∧
    (_BptCreateLeaf b).2.os = b.os ∧
    (_BptCreateLeaf b).2.baseaddr = b.baseaddr := by
  have h0 : b.filesize ≠ 0 := by omega
  simp only [_BptCreateLeaf, allocate_spec b SIZEOF_BTLEAF hos h32, BPTREE.storeLeaf,
    BPTREE.store, ne_eq, h0, not_false_eq_true, if_true]
  refine ⟨?_, ?_, ?_, ?_, ?_, ?_, ?_, ?_, ?_⟩ <;> first | rfl | trivial

theorem createNode_spec (b : BPTREE) (hfs : 0 < b.filesize) (hos : b.os = [])
    (h32 : b.filesize + 40 < 4294967296) :
    (_BptCreateNode b).1 = b.filesize ∧
    (_BptCreateNode b).2.mem = memStore b.mem b.filesize (.node zeroNode) ∧
    (_BptCreateNode b).2.filesize = b.filesize + 40 ∧
    (_BptCreateNode b).2.root = b.root ∧
    (_BptCreateNode b).2.header.depth = b.header.depth ∧
    (_BptCreateNode b).2.header.nitems = b.header.nitems ∧
    (_BptCreateNode b).2.header.rootoff = b.header.rootoff ∧
    (_BptCreateNode b).2.os = b.os ∧
    (_BptCreateNode b).2.baseaddr = b.baseaddr := by
  have h0 : b.filesize ≠ 0 := by omega
  simp only [_BptCreateNode, allocate_spec b SIZEOF_BTNODE hos h32, BPTREE.storeNode,
    BPTREE.store, ne_eq, h0, not_false_eq_true, if_true]
  refine ⟨?_, ?_, ?_, ?_, ?_, ?_, ?_, ?_, ?_⟩ <;> first | rfl | trivial

theorem splitLeaf_spec (b : BPTREE) (c : Nat) (lfc : BTLEAF) (hc0 : c ≠ 0)
    (hc : memLoad b.mem c = some (.leaf lfc)) (hclt : c < b.filesize) (hos : b.os = [])
    (h32 : b.filesize + 52 < 4294967296) :
    ∃ b1, _BptSplitLeaf b c = .ok (b.filesize, b1) ∧
      (∀ o, memLoad b1.mem o = if o = c then some (.leaf (lsOld lfc b.filesize))
        else if o = b.filesize then some (.leaf (lsNew lfc c)) else memLoad b.mem o) ∧
      b1.filesize = b.filesize + 52 ∧ b1.root = b.root ∧
      b1.header.depth = b.header.depth ∧ b1.header.nitems = b.header.nitems ∧
      b1.header.rootoff = b.header.rootoff ∧ b1.os = b.os ∧ b1.baseaddr = b.baseaddr := by
  have hfs : 0 < b.filesize := by omega
  obtain ⟨h1, h2, h3, h4, h5, h6, h7, h8, h9⟩ := createLeaf_spec b hfs hos h32
  obtain ⟨bA, hbA⟩ : ∃ x, x = (_BptCreateLeaf b).2 := ⟨_, rfl⟩
  rw [← hbA] at h2 h3 h4 h5 h6 h7 h8 h9
  have hne : c ≠ b.filesize := by omega
  have hf0 : b.filesize ≠ 0 := by omega
  have hl1 : bA.loadLeaf c = .ok lfc := by
    apply loadLeaf_of hc0
    rw [h2, memLoad_memStore]; simp [hne, hc]
  have hl2 : bA.loadLeaf b.filesize = .ok zeroLeaf := by
    apply loadLeaf_of hf0
    rw [h2, memLoad_memStore]; simp
  refine ⟨((bA.storeLeaf b.filesize (lsNew lfc c)).storeLeaf c (lsOld lfc b.filesize)),
    ?_, ?_, h3, h4, h5, h6, h7, h8, h9⟩
  · simp only [_BptSplitLeaf, h1, ← hbA, h9, hl1, hl2, bind, Except.bind, pure, Except.pure,
      ne_eq, not_true_eq_false, if_false]
    rfl
  · intro o
    simp only [mem_storeLeaf, memLoad_memStore, h2]
    split_ifs <;> rfl

theorem loadLeaf_of_mem {b : BPTREE} {off : Nat} {lf : BTLEAF} (h0 : off ≠ 0)
    (hl : memLoad b.mem off = some (.leaf lf)) : b.loadLeaf off = .ok lf := loadLeaf_of h0 hl

/-- Tree level: the leaf split in `_BptInsertWorker`. -/
theorem fixLeaf_LS (b : BPTREE) (P : Nat) (nd : BTNODE) (pre post : List Nat) (c : Nat)
    (lfc : BTLEAF)
    (hP0 : P ≠ 0) (hP : memLoad b.mem P = some (.node nd)) (hsh : NodeShape nd)
    (hn1 : 1 ≤ nd.nitems) (hn3 : nd.nitems ≤ 3)
    (hcs : nd.liveChoffs = pre ++ c :: post)
    (hsib : ∀ s ∈ pre ++ post, SubOK b.mem false 0 s)
    (hc0 : c ≠ 0) (hc : memLoad b.mem c = some (.leaf lfc)) (hcsh : LeafShape lfc 5)
    (hnd : (subFp b.mem 1 P).Nodup)
    (hlt : ∀ o ∈ subFp b.mem 1 P, o < b.filesize)
    (hLL : _BptRedistributeLeafLeft b P pre.length = .ok (0, b))
    (hLR : _BptRedistributeLeafRight b P pre.length = .ok (0, b))
    (hos : b.os = []) (h32 : b.filesize + 52 < 4294967296) :
    ∃ b2, insertFixLeaf b P pre.length = .ok b2 ∧ FixPost 0 P b b2 := by
  obtain ⟨hso, hsn, hlive, l, hl⟩ := leafSplit_objs lfc c b.filesize hcsh
  -- distinctness
  have hfp := subFp_node 0 hP
  have hnd1 := hnd
  rw [hfp, hcs] at hnd1
  obtain ⟨hPc, -, hsibc, -⟩ := nodup_node_split (subFp b.mem 0) P c pre post hnd1
  simp only [subFp, Multiset.mem_singleton, forall_eq] at hPc hsibc
  have hcP : c ≠ P := fun e => hPc e.symm
  have hPlt : P < b.filesize := hlt P (self_mem_subFp _ _ _)
  have hchlt : ∀ s ∈ nd.liveChoffs, s < b.filesize := fun s hs =>
    hlt s (child_subFp_sub 0 hP hs (self_mem_subFp _ 0 _))
  have hclt : c < b.filesize := hchlt c (by rw [hcs]; simp)
  have hfs0 : b.filesize ≠ 0 := by omega
  have hPfs : P ≠ b.filesize := by omega
  -- the run
  have hrcx : rd nd.choffs pre.length = c := rd_choffs (N := nd) hcs
  have hlen := liveChoffs_length hsh (by omega)
  have hile : pre.length ≤ nd.nitems := by
    rw [hcs] at hlen; simp at hlen; omega
  obtain ⟨b1, hrun, hm1, hfs1, hroot1, hdepth1, hnit1, hro1, hos1, hbase1⟩ :=
    splitLeaf_spec b c lfc hc0 hc hclt hos h32
  clear h32
  obtain ⟨hsh2, hn2, hcs2', hk2⟩ :=
    nsInsLeaf_spec nd pre.length (rd (lsNew lfc c).items 0).key b.filesize hsh hn3 hile
  rw [hcs, take_succ_append_cons, drop_succ_append_cons] at hcs2'
  obtain ⟨nd2, hnd2⟩ : ∃ x, x = nsInsLeaf nd pre.length (rd (lsNew lfc c).items 0).key
    b.filesize := ⟨_, rfl⟩
  rw [← hnd2] at hsh2 hn2 hcs2' hk2
  have hl1 : b1.loadLeaf b.filesize = .ok (lsNew lfc c) :=
    loadLeaf_of hfs0 (by rw [hm1]; simp; omega)
  have hl2 : b1.loadNode P = .ok nd := loadNode_of hP0 (by rw [hm1]; simp [hPc, hPfs, hP])
  refine ⟨b1.storeNode P nd2, ?_, ?_⟩
  · simp only [insertFixLeaf, hLL, hLR, loadNode_of hP0 hP, bind, Except.bind, hrcx, hrun, hl1, hl2,
      ne_eq, not_true_eq_false, if_false, pure, Except.pure, hnd2]
    rfl
  · have hm2 : ∀ o, memLoad (b1.storeNode P nd2).mem o = if o = P then some (.node nd2)
        else if o = c then some (.leaf (lsOld lfc b.filesize))
        else if o = b.filesize then some (.leaf (lsNew lfc c)) else memLoad b.mem o := by
      intro o; simp only [mem_storeNode, memLoad_memStore, hm1]
    have hsame : ∀ s ∈ pre ++ post, memLoad (b1.storeNode P nd2).mem s = memLoad b.mem s := by
      intro s hs
      obtain ⟨h1, h2⟩ := hsibc s hs
      have h3 : s < b.filesize := hchlt s (by
        rw [hcs]; simp only [List.mem_append, List.mem_cons] at hs ⊢
        clear * - hs
        tauto)
      have h4 : s ≠ b.filesize := by omega
      simp [hm2, h1, h2, h4]
    have hitems0 : subItems b.mem 1 P =
        ((pre.map (subItems b.mem 0)).flatten ++ lfc.live) ++
          (post.map (subItems b.mem 0)).flatten := by
      rw [subItems_node 0 hP, hcs]
      simp [subItems_leaf hc]
    apply fixPost_assemble 0 P b _ nd nd2 {b.filesize} hP0 hP hnd hlt
    · simp [hm2]
    · exact hsh2
    · exact ⟨by omega, by omega⟩
    · rw [hcs2']
      intro s hs
      simp only [List.mem_append, List.mem_cons, List.mem_singleton, List.not_mem_nil,
        or_false] at hs
      rcases hs with (hs | rfl) | rfl | hs
      · exact subOK_zero_of_eq (hsame s (by simp [hs])) (hsib s (by simp [hs]))
      · exact subOK_leaf_intro hc0 (by simp [hm2, hcP]) hso (by omega) (by omega)
      · exact subOK_leaf_intro hfs0 (by simp [hm2, Ne.symm hPfs]; omega) hsn (by omega) (by omega)
      · exact subOK_zero_of_eq (hsame s (by simp [hs])) (hsib s (by simp [hs]))
    · rw [hcs2', hitems0, ← hlive]
      have e1 : pre.map (subItems (b1.storeNode P nd2).mem 0) = pre.map (subItems b.mem 0) :=
        List.map_congr_left fun s hs => subItems_zero_eq (hsame s (by simp [hs]))
      have e2 : post.map (subItems (b1.storeNode P nd2).mem 0) = post.map (subItems b.mem 0) :=
        List.map_congr_left fun s hs => subItems_zero_eq (hsame s (by simp [hs]))
      have e3 : subItems (b1.storeNode P nd2).mem 0 b.filesize = (lsNew lfc c).live :=
        subItems_leaf (by simp [hm2, Ne.symm hPfs]; omega)
      have e4 : subItems (b1.storeNode P nd2).mem 0 c = (lsOld lfc b.filesize).live :=
        subItems_leaf (by simp [hm2, hcP])
      simp [e1, e2, e3, e4]
    · rw [subKeys_zero_flatten, List.append_nil, subKeys_one hP]
      intro k hk
      rcases hk2 k hk with h1 | h1
      · exact Or.inl h1
      · right
        refine ⟨rd (lsNew lfc c).items 0, ?_, h1.symm⟩
        rw [hitems0, ← hlive, hl]
        simp
    · rw [hcs2', subFp_node 0 hP, hcs]
      have := sum_split (subFp (b1.storeNode P nd2).mem 0) (pre ++ [c]) post b.filesize
      rw [this]
      simp only [subFp, Multiset.cons_add, List.append_assoc, List.singleton_append]
      rw [Multiset.singleton_add, Multiset.cons_swap]
      rfl
    · exact Multiset.nodup_singleton _
    · intro o ho
      simp only [Multiset.mem_singleton] at ho
      subst ho
      show b.filesize ≤ b.filesize ∧ b.filesize < b1.filesize
      omega
    · show b.filesize ≤ b1.filesize
      omega
    · intro o ho hol
      have h1 : o ≠ P := fun e => ho (e ▸ self_mem_subFp _ _ _)
      have h2 : ∀ s ∈ nd.liveChoffs, o ≠ s := fun s hs e =>
        ho (child_subFp_sub 0 hP hs (e ▸ self_mem_subFp _ 0 _))
      have h3 := h2 c (by rw [hcs]; simp)
      have h4 : o ≠ b.filesize := by omega
      simp [hm2, h1, h3, h4]
    · exact hroot1
    · exact hdepth1
    · exact hnit1
    · exact hro1
    · exact hos1
    · exact hbase1
    · show b1.filesize ≤ b.filesize + 52
      omega

theorem eq_nil_or_snoc {α : Type} (l : List α) : l = [] ∨ ∃ l1 a, l = l1 ++ [a] := by
  rcases List.eq_nil_or_concat l with h | ⟨l1, a, h⟩
  · exact Or.inl h
  · exact Or.inr ⟨l1, a, by rw [h, List.concat_eq_append]⟩

/-- Tree level: the overflow handling of `_BptInsertWorker` for a leaf child. -/
theorem insertFixLeaf_spec (b : BPTREE) (P : Nat) (nd : BTNODE) (pre post : List Nat) (c : Nat)
    (hP0 : P ≠ 0) (hP : memLoad b.mem P = some (.node nd)) (hsh : NodeShape nd)
    (hn1 : 1 ≤ nd.nitems) (hn3 : nd.nitems ≤ 3)
    (hcs : nd.liveChoffs = pre ++ c :: post)
    (hsib : ∀ s ∈ pre ++ post, SubOK b.mem false 0 s)
    (hc : SubOK b.mem true 0 c)
    (hnd : (subFp b.mem 1 P).Nodup)
    (hlt : ∀ o ∈ subFp b.mem 1 P, o < b.filesize)
    (hos : b.os = []) (h32 : b.filesize + 52 < 4294967296) :
    ∃ b2, insertFixLeaf b P pre.length = .ok b2 ∧ FixPost 0 P b b2 := by
  simp only [SubOK, if_true] at hc
  obtain ⟨hc0, lfc, n, hcl, hcsh, hn5⟩ := hc
  subst hn5
  -- left sibling
  have hLLcase : (∃ pre1 lc lfl nl, pre = pre1 ++ [lc] ∧ lc ≠ 0 ∧
      memLoad b.mem lc = some (.leaf lfl) ∧ LeafShape lfl nl ∧ 1 ≤ nl ∧ nl < 4) ∨
      _BptRedistributeLeafLeft b P pre.length = .ok (0, b) := by
    rcases eq_nil_or_snoc pre with hpre | ⟨pre1, lc, hpre⟩
    · right; rw [hpre]; exact RLL_fail_zero b P nd hP0 hP
    · have hl := hsib lc (by rw [hpre]; simp)
      simp only [SubOK, Bool.false_eq_true, if_false] at hl
      obtain ⟨hlc0, lfl, nl, hlcl, hlsh, hnl1, hnl4⟩ := hl
      by_cases h4 : nl < 4
      · left; exact ⟨pre1, lc, lfl, nl, hpre, hlc0, hlcl, hlsh, hnl1, h4⟩
      · right
        have : nl = 4 := by omega
        subst this
        rw [hpre, List.length_append, List.length_singleton]
        exact RLL_fail_full b P nd pre1 (c :: post) lc lfl hP0 hP
          (by rw [hcs, hpre]; simp) hlc0 hlcl hlsh
  rcases hLLcase with ⟨pre1, lc, lfl, nl, hpre, hlc0, hlcl, hlsh, hnl1, hnl4⟩ | hLL
  · have := fixLeaf_LL b P nd pre1 post lc c lfl lfc nl hP0 hP hsh hn1 hn3
      (by rw [hcs, hpre]; simp)
      (fun s hs => hsib s (by
        rw [hpre]; simp only [List.mem_append, List.mem_singleton] at hs ⊢; tauto))
      hlc0 hlcl hlsh hnl1 hnl4 hc0 hcl hcsh hnd hlt
    rw [hpre, List.length_append, List.length_singleton]
    exact this
  -- right sibling
  have hLRcase : (∃ rc post1 lfr nr, post = rc :: post1 ∧ rc ≠ 0 ∧
      memLoad b.mem rc = some (.leaf lfr) ∧ LeafShape lfr nr ∧ 1 ≤ nr ∧ nr < 4) ∨
      _BptRedistributeLeafRight b P pre.length = .ok (0, b) := by
    cases hpost : post with
    | nil =>
      right
      have hlen := liveChoffs_length hsh (by omega)
      rw [hcs, hpost] at hlen
      simp at hlen
      rw [hlen]
      exact RLR_fail_last b P nd hP0 hP
    | cons rc post1 =>
      have hr := hsib rc (by rw [hpost]; simp)
      simp only [SubOK, Bool.false_eq_true, if_false] at hr
      obtain ⟨hrc0, lfr, nr, hrcl, hrsh, hnr1, hnr4⟩ := hr
      by_cases h4 : nr < 4
      · left; exact ⟨rc, post1, lfr, nr, rfl, hrc0, hrcl, hrsh, hnr1, h4⟩
      · right
        have : nr = 4 := by omega
        subst this
        exact RLR_fail_full b P nd pre post1 c rc lfr hP0 hP (by rw [hcs, hpost]) hrc0 hrcl hrsh
  rcases hLRcase with ⟨rc, post1, lfr, nr, hpost, hrc0, hrcl, hrsh, hnr1, hnr4⟩ | hLR
  · exact fixLeaf_LR b P nd pre post1 c rc lfc lfr nr hP0 hP hsh hn1 hn3
      (by rw [hcs, hpost])
      (fun s hs => hsib s (by
        rw [hpost]; simp only [List.mem_append, List.mem_cons] at hs ⊢; tauto))
      hrc0 hrcl hrsh hnr1 hnr4 hc0 hcl hcsh hnd hlt hLL
  exact fixLeaf_LS b P nd pre post c lfc hP0 hP hsh hn1 hn3 hcs hsib hc0 hcl hcsh hnd hlt hLL hLR
    hos h32

theorem rd_mem_liveKeys (nd : BTNODE) (j : Nat) (hs : NodeShape nd) (hn : nd.nitems ≤ 4)
    (hj : j < nd.nitems) : rd nd.keys j ∈ nd.liveKeys := by
  obtain ⟨hk, hc⟩ := hs
  obtain ⟨k0, k1, k2, k3, hke⟩ := list4 hk
  obtain ⟨n, ks, cs⟩ := nd
  simp only at hke hn hj
  subst hke
  interval_cases n <;> interval_cases j <;> simp [BTNODE.liveKeys, rd]

theorem nodeLeft_objs (ndl par child : BTNODE) (chindex : Nat) (hl : NodeShape ndl)
    (hnl : ndl.nitems = 1) (hc : NodeShape child) (hnc : child.nitems = 4) :
    NodeShape (nlLeft ndl par child chindex) ∧ (nlLeft ndl par child chindex).nitems = 2 ∧
    (nlLeft ndl par child chindex).liveChoffs = ndl.liveChoffs ++ [rd child.choffs 0] ∧
    (nlLeft ndl par child chindex).liveKeys = ndl.liveKeys ++ [rd par.keys (chindex - 1)] ∧
    NodeShape (nlChild child) ∧ (nlChild child).nitems = 3 ∧
    child.liveChoffs = rd child.choffs 0 :: (nlChild child).liveChoffs ∧
    child.liveKeys = rd child.keys 0 :: (nlChild child).liveKeys := by
  obtain ⟨hk, hcl⟩ := hl
  obtain ⟨k0, k1, k2, k3, hke⟩ := list4 hk
  obtain ⟨c0, c1, c2, c3, c4, hce⟩ := list5 hcl
  obtain ⟨hk', hcl'⟩ := hc
  obtain ⟨k0', k1', k2', k3', hke'⟩ := list4 hk'
  obtain ⟨c0', c1', c2', c3', c4', hce'⟩ := list5 hcl'
  obtain ⟨n, ks, cs⟩ := ndl
  obtain ⟨n', ks', cs'⟩ := child
  simp only at hke hce hke' hce' hnl hnc
  subst hke hce hke' hce' hnl hnc
  simp [nlLeft, nlChild, _BptShiftNodeLeft, NodeShape, BTNODE.liveKeys, BTNODE.liveChoffs, rd, wr,
    List.range_succ]

theorem nodeRight_objs (ndr par child : BTNODE) (chindex : Nat) (hr : NodeShape ndr)
    (hnr1 : 1 ≤ ndr.nitems) (hnr : ndr.nitems < 3) (hc : NodeShape child)
    (hnc : child.nitems = 4) :
    NodeShape (nrRight ndr par child chindex) ∧
    (nrRight ndr par child chindex).nitems = ndr.nitems + 1 ∧
    (nrRight ndr par child chindex).liveChoffs = rd child.choffs 4 :: ndr.liveChoffs ∧
    (nrRight ndr par child chindex).liveKeys = rd par.keys chindex :: ndr.liveKeys ∧
    NodeShape (nrChild child) ∧ (nrChild child).nitems = 3 ∧
    child.liveChoffs = (nrChild child).liveChoffs ++ [rd child.choffs 4] ∧
    child.liveKeys = (nrChild child).liveKeys ++ [rd child.keys 3] := by
  obtain ⟨hk, hcl⟩ := hr
  obtain ⟨k0, k1, k2, k3, hke⟩ := list4 hk
  obtain ⟨c0, c1, c2, c3, c4, hce⟩ := list5 hcl
  obtain ⟨hk', hcl'⟩ := hc
  obtain ⟨k0', k1', k2', k3', hke'⟩ := list4 hk'
  obtain ⟨c0', c1', c2', c3', c4', hce'⟩ := list5 hcl'
  obtain ⟨n, ks, cs⟩ := ndr
  obtain ⟨n', ks', cs'⟩ := child
  simp only at hke hce hke' hce' hnr1 hnr hnc
  subst hke hce hke' hce' hnc
  interval_cases n <;>
  simp [nrRight, nrChild, _BptShiftNodeRight, NodeShape, BTNODE.liveKeys, BTNODE.liveChoffs, rd, wr,
    List.range_succ, BT_NBRANCHES_eq]

theorem nodeSplit_objs (child : BTNODE) (hc : NodeShape child) (hnc : child.nitems = 4) :
    NodeShape (nsOld child) ∧ (nsOld child).nitems = 1 ∧
    NodeShape (nsNew child) ∧ (nsNew child).nitems = 2 ∧
    child.liveChoffs = (nsOld child).liveChoffs ++ (nsNew child).liveChoffs ∧
    child.liveKeys = (nsOld child).liveKeys ++ rd (nsOld child).keys 1 :: (nsNew child).liveKeys := by
  obtain ⟨hk', hcl'⟩ := hc
  obtain ⟨k0', k1', k2', k3', hke'⟩ := list4 hk'
  obtain ⟨c0', c1', c2', c3', c4', hce'⟩ := list5 hcl'
  obtain ⟨n', ks', cs'⟩ := child
  simp only at hke' hce' hnc
  subst hke' hce' hnc
  simp [nsOld, nsNew, NodeShape, BTNODE.liveKeys, BTNODE.liveChoffs, rd, wr,
    List.range_succ, BT_NBRANCHES_eq, zeroNode]

theorem subOK_node_elim {m : List (Nat × BTOBJ)} {ov : Bool} {h x : Nat}
    (hok : SubOK m ov (h + 1) x) :
    x ≠ 0 ∧ ∃ nd, memLoad m x = some (.node nd) ∧ NodeShape nd ∧
      (if ov then nd.nitems = 4 else 1 ≤ nd.nitems ∧ nd.nitems ≤ 3) ∧
      (∀ g ∈ nd.liveChoffs, SubOK m false h g) ∧ (subFp m (h + 1) x).Nodup := by
  unfold SubOK at hok; exact hok

theorem subOK_node_intro {m : List (Nat × BTOBJ)} {h x : Nat} {nd : BTNODE}
    (h0 : x ≠ 0) (hl : memLoad m x = some (.node nd)) (hs : NodeShape nd)
    (h1 : 1 ≤ nd.nitems) (h3 : nd.nitems ≤ 3)
    (hch : ∀ g ∈ nd.liveChoffs, SubOK m false h g)
    (hnd : (x ::ₘ (nd.liveChoffs.map (subFp m h)).sum).Nodup) : SubOK m false (h + 1) x := by
  unfold SubOK
  refine ⟨h0, nd, hl, hs, ?_, hch, ?_⟩
  · simp only [Bool.false_eq_true, if_false]; exact ⟨h1, h3⟩
  · rw [subFp_node h hl]; exact hnd

theorem RNL_fail_zero (b : BPTREE) (P : Nat) (nd : BTNODE) (hP0 : P ≠ 0)
    (hP : memLoad b.mem P = some (.node nd)) :
    _BptRedistributeNodeLeft b P 0 = .ok (0, b) := by
  simp [_BptRedistributeNodeLeft, loadNode_of hP0 hP, bind, Except.bind, pure, Except.pure]

theorem RNL_fail_full (b : BPTREE) (P : Nat) (nd : BTNODE) (pre post : List Nat) (lc : Nat)
    (ndl : BTNODE) (hP0 : P ≠ 0) (hP : memLoad b.mem P = some (.node nd))
    (hcs : nd.liveChoffs = pre ++ lc :: post)
    (hlc0 : lc ≠ 0) (hlc : memLoad b.mem lc = some (.node ndl)) (hnl : 2 ≤ ndl.nitems) :
    _BptRedistributeNodeLeft b P (pre.length + 1) = .ok (0, b) := by
  have hrl : rd nd.choffs pre.length = lc := rd_choffs (N := nd) hcs
  have : ¬ ndl.nitems < BT_NBRANCHES - 2 := by show ¬ ndl.nitems < 2; omega
  have h2 : ¬ ndl.nitems < 2 := by omega
  simp [_BptRedistributeNodeLeft, loadNode_of hP0 hP, bind, Except.bind, pure, Except.pure, hrl,
    loadNode_of hlc0 hlc, this, h2]

theorem RNR_fail_last (b : BPTREE) (P : Nat) (nd : BTNODE) (hP0 : P ≠ 0)
    (hP : memLoad b.mem P = some (.node nd)) :
    _BptRedistributeNodeRight b P nd.nitems = .ok (0, b) := by
  simp [_BptRedistributeNodeRight, loadNode_of hP0 hP, bind, Except.bind, pure, Except.pure]

theorem RNR_fail_full (b : BPTREE) (P : Nat) (nd : BTNODE) (pre post : List Nat) (c rc : Nat)
    (ndr : BTNODE) (hP0 : P ≠ 0) (hP : memLoad b.mem P = some (.node nd))
    (hcs : nd.liveChoffs = pre ++ c :: rc :: post)
    (hrc0 : rc ≠ 0) (hrc : memLoad b.mem rc = some (.node ndr)) (hnr : 3 ≤ ndr.nitems) :
    _BptRedistributeNodeRight b P pre.length = .ok (0, b) := by
  have hrr : rd nd.choffs (pre.length + 1) = rc := by
    have := rd_choffs (N := nd) (A := pre ++ [c]) (B := post) (x := rc) (by rw [hcs]; simp)
    simpa using this
  have : ¬ ndr.nitems < BT_NBRANCHES - 1 := by show ¬ ndr.nitems < 3; omega
  have h3 : ¬ ndr.nitems < 3 := by omega
  simp [_BptRedistributeNodeRight, loadNode_of hP0 hP, bind, Except.bind, pure, Except.pure, hrr,
    loadNode_of hrc0 hrc, this, h3]

/-- Summaries of untouched subtrees. -/
theorem untouched_maps (m m2 : List (Nat × BTOBJ)) (h : Nat) (l : List Nat)
    (hl : ∀ s ∈ l, ∀ o ∈ subFp m h s, memLoad m2 o = memLoad m o) :
    l.map (subFp m2 h) = l.map (subFp m h) ∧ l.map (subItems m2 h) = l.map (subItems m h) ∧
    l.map (subKeys m2 h) = l.map (subKeys m h) ∧
    ∀ s ∈ l, ∀ ov, SubOK m ov h s → SubOK m2 ov h s :=
  ⟨List.map_congr_left fun s hs => subFp_frame m m2 h s (hl s hs),
   List.map_congr_left fun s hs => subItems_frame m m2 h s (hl s hs),
   List.map_congr_left fun s hs => subKeys_frame m m2 h s (hl s hs),
   fun s hs ov hok => SubOK_frame m m2 h ov s (hl s hs) hok⟩

theorem mem_fp_of_child {m : List (Nat × BTOBJ)} {h x g o : Nat} {nd : BTNODE}
    (hl : memLoad m x = some (.node nd)) (hg : g ∈ nd.liveChoffs) (ho : o ∈ subFp m h g) :
    o ∈ subFp m (h + 1) x := child_subFp_sub h hl hg ho

theorem flatten_map_append {α β : Type} (f : α → List β) (l1 l2 : List α) :
    ((l1 ++ l2).map f).flatten = (l1.map f).flatten ++ (l2.map f).flatten := by
  simp

/-- Facts drawn from the disjointness of a node with two adjacent children `x`, `y`. -/
theorem nodup_two (F : Nat → Multiset Nat) (P x y : Nat) (pre post : List Nat)
    (hx : x ∈ F x) (hy : y ∈ F y)
    (h : (P ::ₘ ((pre ++ x :: y :: post).map F).sum).Nodup) :
    x ≠ P ∧ y ≠ P ∧ x ≠ y ∧ (F x + F y).Nodup ∧ P ∉ F x ∧ P ∉ F y ∧
    (∀ s ∈ pre ++ post, ∀ o ∈ F s, o ≠ P ∧ o ∉ F x ∧ o ∉ F y) := by
  have e : pre ++ x :: y :: post = (pre ++ [x]) ++ y :: post := by simp
  rw [e] at h
  obtain ⟨hPy, hndy, hsy, h2⟩ := nodup_node_split F P y (pre ++ [x]) post h
  have e2 : pre ++ [x] ++ post = pre ++ x :: post := by simp
  rw [e2] at h2 hsy
  obtain ⟨hPx, hndx, hsx, -⟩ := nodup_node_split F P x pre post h2
  have hxy : ∀ o ∈ F x, o ∉ F y := fun o ho => (hsy x (by simp) o ho).2
  refine ⟨fun e => hPx (e ▸ hx), fun e => hPy (e ▸ hy), fun e => hxy x hx (e ▸ hy), ?_, hPx, hPy, ?_⟩
  · rw [Multiset.nodup_add]
    exact ⟨hndx, hndy, Multiset.disjoint_left.2 (fun {o} ho => hxy o ho)⟩
  · intro s hs o ho
    refine ⟨(hsx s hs o ho).1, (hsx s hs o ho).2, ?_⟩
    exact (hsy s (by simp only [List.mem_append, List.mem_cons] at hs ⊢; tauto) o ho).2

/-- Tree level: the left redistribution of nodes in `_BptInsertWorker`. -/
theorem fixNode_NL (h : Nat) (b : BPTREE) (P : Nat) (nd : BTNODE) (pre post : List Nat)
    (lc c : Nat) (ndl ndc : BTNODE)
    (hP0 : P ≠ 0) (hP : memLoad b.mem P = some (.node nd)) (hsh : NodeShape nd)
    (hn1 : 1 ≤ nd.nitems) (hn3 : nd.nitems ≤ 3)
    (hcs : nd.liveChoffs = pre ++ lc :: c :: post)
    (hsib : ∀ s ∈ pre ++ post, SubOK b.mem false (h + 1) s)
    (hlc0 : lc ≠ 0) (hlc : memLoad b.mem lc = some (.node ndl)) (hlsh : NodeShape ndl)
    (hnl : ndl.nitems = 1) (hlch : ∀ g ∈ ndl.liveChoffs, SubOK b.mem false h g)
    (hc0 : c ≠ 0) (hc : memLoad b.mem c = some (.node ndc)) (hcsh : NodeShape ndc)
    (hnc : ndc.nitems = 4) (hcch : ∀ g ∈ ndc.liveChoffs, SubOK b.mem false h g)
    (hnd : (subFp b.mem (h + 1 + 1) P).Nodup)
    (hlt : ∀ o ∈ subFp b.mem (h + 1 + 1) P, o < b.filesize) :
    ∃ b2, insertFixNode b P (pre.length + 1) = .ok b2 ∧ FixPost (h + 1) P b b2 := by
  obtain ⟨hsl, hnl2, hlcs, hlks, hsc, hnc2, hccs, hcks⟩ :=
    nodeLeft_objs ndl nd ndc (pre.length + 1) hlsh hnl hcsh hnc
  obtain ⟨Cc, hCc⟩ : ∃ l, (nlChild ndc).liveChoffs = l := ⟨_, rfl⟩
  obtain ⟨Ck, hCk⟩ : ∃ l, (nlChild ndc).liveKeys = l := ⟨_, rfl⟩
  rw [hCc] at hccs
  rw [hCk] at hcks
  -- distinctness
  have hnd1 := hnd
  rw [subFp_node (h + 1) hP, hcs] at hnd1
  obtain ⟨hlcP, hcP, hlcc, hndlc, hPlc, hPc, hsibd⟩ :=
    nodup_two (subFp b.mem (h + 1)) P lc c pre post (self_mem_subFp _ _ _) (self_mem_subFp _ _ _)
      hnd1
  have hfl := subFp_node h hlc
  have hfc := subFp_node h hc
  have hndl1 : (subFp b.mem (h + 1) lc).Nodup := (Multiset.nodup_add.1 hndlc).1
  have hndc1 : (subFp b.mem (h + 1) c).Nodup := (Multiset.nodup_add.1 hndlc).2.1
  have hdis : ∀ o ∈ subFp b.mem (h + 1) lc, o ∉ subFp b.mem (h + 1) c := fun o ho =>
    Multiset.disjoint_left.1 (Multiset.nodup_add.1 hndlc).2.2 ho
  -- untouched subtrees
  have hUs : ∀ s ∈ pre ++ post, ∀ o ∈ subFp b.mem (h + 1) s, o ≠ c ∧ o ≠ P ∧ o ≠ lc := by
    intro s hs o ho
    obtain ⟨h1, h2, h3⟩ := hsibd s hs o ho
    exact ⟨fun e => h3 (e ▸ self_mem_subFp _ _ _), h1, fun e => h2 (e ▸ self_mem_subFp _ _ _)⟩
  have hUl : ∀ g ∈ ndl.liveChoffs, ∀ o ∈ subFp b.mem h g, o ≠ c ∧ o ≠ P ∧ o ≠ lc := by
    intro g hg o ho
    have hin := mem_fp_of_child hlc hg ho
    refine ⟨fun e => hdis o hin (e ▸ self_mem_subFp _ _ _), fun e => hPlc (e ▸ hin), ?_⟩
    intro e
    rw [hfl, Multiset.nodup_cons] at hndl1
    exact hndl1.1 ((mem_sum_map _ _ _).2 ⟨g, hg, e ▸ ho⟩)
  have hUc : ∀ g ∈ ndc.liveChoffs, ∀ o ∈ subFp b.mem h g, o ≠ c ∧ o ≠ P ∧ o ≠ lc := by
    intro g hg o ho
    have hin := mem_fp_of_child hc hg ho
    refine ⟨?_, fun e => hPc (e ▸ hin), fun e => hdis lc (self_mem_subFp _ _ _) (e ▸ hin)⟩
    intro e
    rw [hfc, Multiset.nodup_cons] at hndc1
    exact hndc1.1 ((mem_sum_map _ _ _).2 ⟨g, hg, e ▸ ho⟩)
  -- the run
  have hrc : rd nd.choffs (pre.length + 1) = c := by
    have := rd_choffs (N := nd) (A := pre ++ [lc]) (B := post) (x := c) (by rw [hcs]; simp)
    simpa using this
  have hrl : rd nd.choffs pre.length = lc := rd_choffs (N := nd) hcs
  have hnl' : ndl.nitems < BT_NBRANCHES - 2 := by show ndl.nitems < 2; omega
  obtain ⟨hsh2, hcs2', hk2⟩ :=
    nodeSetKey_spec nd (pre.length + 1) (rd ndc.keys 0) hsh (by omega)
  have hrun : insertFixNode b P (pre.length + 1) = .ok
      (((b.storeNode lc (nlLeft ndl nd ndc (pre.length + 1))).storeNode P
        (nlPar nd ndc (pre.length + 1))).storeNode c (nlChild ndc)) := by
    simp only [insertFixNode, _BptRedistributeNodeLeft, loadNode_of hP0 hP, bind, Except.bind, hrc,
      Nat.add_sub_cancel, hrl, loadNode_of hlc0 hlc, loadNode_of hc0 hc, hnl',
      ne_eq, one_ne_zero, not_false_eq_true,
      Nat.succ_pos, gt_iff_lt, if_true, pure, Except.pure, Nat.lt_add_left_iff_pos, Nat.lt_add_one]
    rfl
  have hm2 : ∀ o, memLoad (((b.storeNode lc (nlLeft ndl nd ndc (pre.length + 1))).storeNode P
        (nlPar nd ndc (pre.length + 1))).storeNode c (nlChild ndc)).mem o =
        if o = c then some (.node (nlChild ndc))
        else if o = P then some (.node (nlPar nd ndc (pre.length + 1)))
        else if o = lc then some (.node (nlLeft ndl nd ndc (pre.length + 1)))
        else memLoad b.mem o := by
    intro o; simp only [mem_storeNode, memLoad_memStore]
  obtain ⟨b2, hb2⟩ : ∃ x, x = (((b.storeNode lc (nlLeft ndl nd ndc (pre.length + 1))).storeNode P
        (nlPar nd ndc (pre.length + 1))).storeNode c (nlChild ndc)) := ⟨_, rfl⟩
  have hfs2 : b2.filesize = b.filesize := by rw [hb2]; rfl
  have hroot2 : b2.root = b.root := by rw [hb2]; rfl
  have hhdr2 : b2.header = b.header := by rw [hb2]; rfl
  have hos2 : b2.os = b.os := by rw [hb2]; rfl
  have hbase2 : b2.baseaddr = b.baseaddr := by rw [hb2]; rfl
  rw [← hb2] at hrun hm2
  clear hb2
  refine ⟨b2, hrun, ?_⟩
  have hsame : ∀ o, o ≠ c → o ≠ P → o ≠ lc → memLoad b2.mem o = memLoad b.mem o := by
    intro o h1 h2 h3; simp [hm2, h1, h2, h3]
  have hU : ∀ (hh s : Nat), (∀ o ∈ subFp b.mem hh s, o ≠ c ∧ o ≠ P ∧ o ≠ lc) →
      subFp b2.mem hh s = subFp b.mem hh s ∧ subItems b2.mem hh s = subItems b.mem hh s ∧
      subKeys b2.mem hh s = subKeys b.mem hh s ∧
      (∀ ov, SubOK b.mem ov hh s → SubOK b2.mem ov hh s) := by
    intro hh s hs
    have hag : ∀ o ∈ subFp b.mem hh s, memLoad b2.mem o = memLoad b.mem o :=
      fun o ho => hsame o (hs o ho).1 (hs o ho).2.1 (hs o ho).2.2
    exact ⟨subFp_frame _ _ hh s hag, subItems_frame _ _ hh s hag, subKeys_frame _ _ hh s hag,
      fun ov => SubOK_frame _ _ hh ov s hag⟩
  have hl2 : memLoad b2.mem lc = some (.node (nlLeft ndl nd ndc (pre.length + 1))) := by
    simp [hm2, hlcc, hlcP]
  have hc2 : memLoad b2.mem c = some (.node (nlChild ndc)) := by simp [hm2]
  have hP2 : memLoad b2.mem P = some (.node (nlPar nd ndc (pre.length + 1))) := by
    simp [hm2, Ne.symm hcP]
  -- summaries of the two rewritten children
  have hg0 : rd ndc.choffs 0 ∈ ndc.liveChoffs := by rw [hccs]; simp
  have hsubC : ∀ g ∈ Cc, g ∈ ndc.liveChoffs := fun g hg => by
    rw [hccs]; simp [hg]
  have hUg0 := hU h _ (hUc _ hg0)
  have eL : ∀ g ∈ ndl.liveChoffs, _ := fun g hg => hU h g (hUl g hg)
  have eC : ∀ g ∈ Cc, _ := fun g hg => hU h g (hUc g (hsubC g hg))
  have hfpL2 : subFp b2.mem (h + 1) lc =
      subFp b.mem (h + 1) lc + subFp b.mem h (rd ndc.choffs 0) := by
    rw [subFp_node h hl2, subFp_node h hlc, hlcs, List.map_append, List.sum_append,
      List.map_congr_left (fun g hg => (eL g hg).1), Multiset.cons_add]
    simp [hUg0.1]
  have hfpC : subFp b.mem (h + 1) c =
      subFp b.mem h (rd ndc.choffs 0) + subFp b2.mem (h + 1) c := by
    rw [subFp_node h hc2, subFp_node h hc, hCc, List.map_congr_left (fun g hg => (eC g hg).1),
      hccs, List.map_cons, List.sum_cons, Multiset.add_cons]
  have hitL2 : subItems b2.mem (h + 1) lc =
      subItems b.mem (h + 1) lc ++ subItems b.mem h (rd ndc.choffs 0) := by
    rw [subItems_node h hl2, subItems_node h hlc, hlcs, List.map_append, List.flatten_append,
      List.map_congr_left (fun g hg => (eL g hg).2.1)]
    simp [hUg0.2.1]
  have hitC : subItems b.mem (h + 1) c =
      subItems b.mem h (rd ndc.choffs 0) ++ subItems b2.mem (h + 1) c := by
    rw [subItems_node h hc2, subItems_node h hc, hCc,
      List.map_congr_left (fun g hg => (eC g hg).2.1), hccs, List.map_cons, List.flatten_cons]
  have hkL2 : ∀ k ∈ subKeys b2.mem (h + 1) lc, k ∈ subKeys b.mem (h + 1) lc ∨
      k = rd nd.keys pre.length ∨ k ∈ subKeys b.mem h (rd ndc.choffs 0) := by
    intro k hk
    rw [subKeys_node h hl2, hlks, hlcs, List.map_append, List.flatten_append,
      List.map_congr_left (fun g hg => (eL g hg).2.2.1)] at hk
    rw [subKeys_node h hlc]
    simp only [List.mem_append, List.mem_singleton, List.map_cons, List.map_nil,
      List.flatten_cons, List.flatten_nil, List.append_nil, hUg0.2.2.1,
      Nat.add_sub_cancel] at hk ⊢
    tauto
  have hkC0 : ∀ k ∈ subKeys b.mem h (rd ndc.choffs 0), k ∈ subKeys b.mem (h + 1) c := by
    intro k hk
    rw [subKeys_node h hc, List.mem_append]
    exact Or.inr (mem_flatten_map_of_mem _ _ _ _ hg0 hk)
  have hkC2 : ∀ k ∈ subKeys b2.mem (h + 1) c, k ∈ subKeys b.mem (h + 1) c := by
    intro k hk
    rw [subKeys_node h hc2, hCc, hCk, List.map_congr_left (fun g hg => (eC g hg).2.2.1)] at hk
    rw [subKeys_node h hc, hccs, hcks]
    simp only [List.mem_append, List.mem_cons, List.map_cons, List.flatten_cons] at hk ⊢
    tauto
  have hkC1 : rd ndc.keys 0 ∈ subKeys b.mem (h + 1) c := by
    rw [subKeys_node h hc, hcks]; simp
  have hkP1 : rd nd.keys pre.length ∈ nd.liveKeys := by
    apply rd_mem_liveKeys nd _ hsh (by omega)
    have hlen := liveChoffs_length hsh (by omega)
    rw [hcs] at hlen; simp at hlen; omega
  have hcsP : (nlPar nd ndc (pre.length + 1)).liveChoffs = pre ++ lc :: c :: post := by
    rw [← hcs]; exact hcs2'
  have ePre : ∀ s ∈ pre, _ := fun s hs => hU (h + 1) s (hUs s (by simp [hs]))
  have ePost : ∀ s ∈ post, _ := fun s hs => hU (h + 1) s (hUs s (by simp [hs]))
  have hndL2 : (subFp b2.mem (h + 1) lc).Nodup := by
    apply Multiset.nodup_of_le _ hndlc
    rw [hfpL2, hfpC]
    exact add_le_add_left (Multiset.le_add_right _ _) _
  have hndC2 : (subFp b2.mem (h + 1) c).Nodup := by
    apply Multiset.nodup_of_le _ hndc1
    rw [hfpC]
    exact Multiset.le_add_left _ _
  apply fixPost_assemble (h + 1) P b b2 nd (nlPar nd ndc (pre.length + 1)) 0 hP0 hP hnd hlt hP2
  · exact hsh2
  · exact ⟨hn1, by show nd.nitems ≤ 4; omega⟩
  · rw [hcsP]
    intro s hs
    simp only [List.mem_append, List.mem_cons] at hs
    rcases hs with hs | rfl | rfl | hs
    · exact (ePre s hs).2.2.2 false (hsib s (by simp [hs]))
    · refine subOK_node_intro hlc0 hl2 hsl (by omega) (by omega) ?_ ?_
      · rw [hlcs]
        intro g hg
        simp only [List.mem_append, List.mem_singleton] at hg
        rcases hg with hg | rfl
        · exact (eL g hg).2.2.2 false (hlch g hg)
        · exact hUg0.2.2.2 false (hcch _ hg0)
      · rw [← subFp_node h hl2]; exact hndL2
    · refine subOK_node_intro hc0 hc2 hsc (by omega) (by omega) ?_ ?_
      · rw [hCc]
        intro g hg
        exact (eC g hg).2.2.2 false (hcch g (hsubC g hg))
      · rw [← subFp_node h hc2]; exact hndC2
    · exact (ePost s hs).2.2.2 false (hsib s (by simp [hs]))
  · rw [hcsP, subItems_node (h + 1) hP, hcs]
    simp only [List.map_append, List.map_cons, List.flatten_append, List.flatten_cons]
    rw [List.map_congr_left (fun s hs => (ePre s hs).2.1),
      List.map_congr_left (fun s hs => (ePost s hs).2.1), hitL2, hitC]
    simp
  · rw [hcsP, subKeys_node (h + 1) hP, hcs]
    intro k hk
    left
    simp only [List.map_append, List.map_cons, List.flatten_append, List.flatten_cons,
      List.mem_append] at hk ⊢
    rw [List.map_congr_left (fun s hs => (ePre s hs).2.2.1),
      List.map_congr_left (fun s hs => (ePost s hs).2.2.1)] at hk
    rcases hk with hk | hk | hk | hk | hk
    · rcases hk2 k hk with h1 | h1
      · exact Or.inl h1
      · exact Or.inr (Or.inr (Or.inr (Or.inl (h1 ▸ hkC1))))
    · exact Or.inr (Or.inl hk)
    · rcases hkL2 k hk with h1 | h1 | h1
      · exact Or.inr (Or.inr (Or.inl h1))
      · exact Or.inl (h1 ▸ hkP1)
      · exact Or.inr (Or.inr (Or.inr (Or.inl (hkC0 k h1))))
    · exact Or.inr (Or.inr (Or.inr (Or.inl (hkC2 k hk))))
    · exact Or.inr (Or.inr (Or.inr (Or.inr hk)))
  · rw [hcsP, zero_add, subFp_node (h + 1) hP, hcs]
    simp only [List.map_append, List.map_cons, List.sum_append, List.sum_cons]
    rw [List.map_congr_left (fun s hs => (ePre s hs).1),
      List.map_congr_left (fun s hs => (ePost s hs).1), hfpL2, hfpC]
    congr 1
    simp only [add_assoc]
  · exact Multiset.nodup_zero
  · intro o ho; simp at ho
  · omega
  · intro o ho _
    have h1 : o ≠ P := fun e => ho (e ▸ self_mem_subFp _ _ _)
    have h2 : ∀ s ∈ nd.liveChoffs, o ≠ s := fun s hs e =>
      ho (child_subFp_sub (h + 1) hP hs (e ▸ self_mem_subFp _ (h + 1) _))
    exact hsame o (h2 c (by rw [hcs]; simp)) h1 (h2 lc (by rw [hcs]; simp))
  · exact hroot2
  · rw [hhdr2]
  · rw [hhdr2]
  · rw [hhdr2]
  · exact hos2
  · exact hbase2
  · rw [hfs2]; exact Nat.le_add_right _ _

/-- Tree level: the right redistribution of nodes in `_BptInsertWorker`. -/
theorem fixNode_NR (h : Nat) (b : BPTREE) (P : Nat) (nd : BTNODE) (pre post : List Nat)
    (c rc : Nat) (ndc ndr : BTNODE)
    (hP0 : P ≠ 0) (hP : memLoad b.mem P = some (.node nd)) (hsh : NodeShape nd)
    (hn1 : 1 ≤ nd.nitems) (hn3 : nd.nitems ≤ 3)
    (hcs : nd.liveChoffs = pre ++ c :: rc :: post)
    (hsib : ∀ s ∈ pre ++ post, SubOK b.mem false (h + 1) s)
    (hrc0 : rc ≠ 0) (hrc : memLoad b.mem rc = some (.node ndr)) (hrsh : NodeShape ndr)
    (hnr1 : 1 ≤ ndr.nitems) (hnr : ndr.nitems < 3)
    (hrch : ∀ g ∈ ndr.liveChoffs, SubOK b.mem false h g)
    (hc0 : c ≠ 0) (hc : memLoad b.mem c = some (.node ndc)) (hcsh : NodeShape ndc)
    (hnc : ndc.nitems = 4) (hcch : ∀ g ∈ ndc.liveChoffs, SubOK b.mem false h g)
    (hnd : (subFp b.mem (h + 1 + 1) P).Nodup)
    (hlt : ∀ o ∈ subFp b.mem (h + 1 + 1) P, o < b.filesize)
    (hNL : _BptRedistributeNodeLeft b P pre.length = .ok (0, b)) :
    ∃ b2, insertFixNode b P pre.length = .ok b2 ∧ FixPost (h + 1) P b b2 := by
  obtain ⟨hsr, hnr2, hrcs, hrks, hsc, hnc2, hccs, hcks⟩ :=
    nodeRight_objs ndr nd ndc pre.length hrsh hnr1 hnr hcsh hnc
  obtain ⟨Cc, hCc⟩ : ∃ l, (nrChild ndc).liveChoffs = l := ⟨_, rfl⟩
  obtain ⟨Ck, hCk⟩ : ∃ l, (nrChild ndc).liveKeys = l := ⟨_, rfl⟩
  rw [hCc] at hccs
  rw [hCk] at hcks
  -- distinctness
  have hnd1 := hnd
  rw [subFp_node (h + 1) hP, hcs] at hnd1
  obtain ⟨hcP, hrcP, hcrc, hndcr, hPc, hPrc, hsibd⟩ :=
    nodup_two (subFp b.mem (h + 1)) P c rc pre post (self_mem_subFp _ _ _) (self_mem_subFp _ _ _)
      hnd1
  have hfr := subFp_node h hrc
  have hfc := subFp_node h hc
  have hndc1 : (subFp b.mem (h + 1) c).Nodup := (Multiset.nodup_add.1 hndcr).1
  have hndr1 : (subFp b.mem (h + 1) rc).Nodup := (Multiset.nodup_add.1 hndcr).2.1
  have hdis : ∀ o ∈ subFp b.mem (h + 1) c, o ∉ subFp b.mem (h + 1) rc := fun o ho =>
    Multiset.disjoint_left.1 (Multiset.nodup_add.1 hndcr).2.2 ho
  -- untouched subtrees
  have hUs : ∀ s ∈ pre ++ post, ∀ o ∈ subFp b.mem (h + 1) s, o ≠ c ∧ o ≠ P ∧ o ≠ rc := by
    intro s hs o ho
    obtain ⟨h1, h2, h3⟩ := hsibd s hs o ho
    exact ⟨fun e => h2 (e ▸ self_mem_subFp _ _ _), h1, fun e => h3 (e ▸ self_mem_subFp _ _ _)⟩
  have hUr : ∀ g ∈ ndr.liveChoffs, ∀ o ∈ subFp b.mem h g, o ≠ c ∧ o ≠ P ∧ o ≠ rc := by
    intro g hg o ho
    have hin := mem_fp_of_child hrc hg ho
    refine ⟨fun e => hdis c (self_mem_subFp _ _ _) (e ▸ hin), fun e => hPrc (e ▸ hin), ?_⟩
    intro e
    rw [hfr, Multiset.nodup_cons] at hndr1
    exact hndr1.1 ((mem_sum_map _ _ _).2 ⟨g, hg, e ▸ ho⟩)
  have hUc : ∀ g ∈ ndc.liveChoffs, ∀ o ∈ subFp b.mem h g, o ≠ c ∧ o ≠ P ∧ o ≠ rc := by
    intro g hg o ho
    have hin := mem_fp_of_child hc hg ho
    refine ⟨?_, fun e => hPc (e ▸ hin), fun e => hdis o hin (e ▸ self_mem_subFp _ _ _)⟩
    intro e
    rw [hfc, Multiset.nodup_cons] at hndc1
    exact hndc1.1 ((mem_sum_map _ _ _).2 ⟨g, hg, e ▸ ho⟩)
  -- the run
  have hrr : rd nd.choffs (pre.length + 1) = rc := by
    have := rd_choffs (N := nd) (A := pre ++ [c]) (B := post) (x := rc) (by rw [hcs]; simp)
    simpa using this
  have hrcx : rd nd.choffs pre.length = c := rd_choffs (N := nd) hcs
  have hnr' : ndr.nitems < BT_NBRANCHES - 1 := by show ndr.nitems < 3; omega
  have hlen := liveChoffs_length hsh (by omega)
  have hilt : pre.length < nd.nitems := by
    rw [hcs] at hlen; simp at hlen; omega
  obtain ⟨hsh2, hcs2', hk2⟩ :=
    nodeSetKey_spec nd pre.length (rd ndc.keys 3) hsh (by omega)
  have hrun : insertFixNode b P pre.length = .ok
      (((b.storeNode rc (nrRight ndr nd ndc pre.length)).storeNode P
        (nrPar nd ndc pre.length)).storeNode c (nrChild ndc)) := by
    simp only [insertFixNode, hNL, _BptRedistributeNodeRight, loadNode_of hP0 hP, bind,
      Except.bind, hrr, hrcx, loadNode_of hrc0 hrc, loadNode_of hc0 hc, hnr', hilt,
      ne_eq, one_ne_zero, not_false_eq_true, not_true_eq_false, if_false,
      if_true, pure, Except.pure]
    rfl
  have hm2 : ∀ o, memLoad (((b.storeNode rc (nrRight ndr nd ndc pre.length)).storeNode P
        (nrPar nd ndc pre.length)).storeNode c (nrChild ndc)).mem o =
        if o = c then some (.node (nrChild ndc))
        else if o = P then some (.node (nrPar nd ndc pre.length))
        else if o = rc then some (.node (nrRight ndr nd ndc pre.length))
        else memLoad b.mem o := by
    intro o; simp only [mem_storeNode, memLoad_memStore]
  obtain ⟨b2, hb2⟩ : ∃ x, x = (((b.storeNode rc (nrRight ndr nd ndc pre.length)).storeNode P
        (nrPar nd ndc pre.length)).storeNode c (nrChild ndc)) := ⟨_, rfl⟩
  have hfs2 : b2.filesize = b.filesize := by rw [hb2]; rfl
  have hroot2 : b2.root = b.root := by rw [hb2]; rfl
  have hhdr2 : b2.header = b.header := by rw [hb2]; rfl
  have hos2 : b2.os = b.os := by rw [hb2]; rfl
  have hbase2 : b2.baseaddr = b.baseaddr := by rw [hb2]; rfl
  rw [← hb2] at hrun hm2
  clear hb2
  refine ⟨b2, hrun, ?_⟩
  have hsame : ∀ o, o ≠ c → o ≠ P → o ≠ rc → memLoad b2.mem o = memLoad b.mem o := by
    intro o h1 h2 h3; simp [hm2, h1, h2, h3]
  have hU : ∀ (hh s : Nat), (∀ o ∈ subFp b.mem hh s, o ≠ c ∧ o ≠ P ∧ o ≠ rc) →
      subFp b2.mem hh s = subFp b.mem hh s ∧ subItems b2.mem hh s = subItems b.mem hh s ∧
      subKeys b2.mem hh s = subKeys b.mem hh s ∧
      (∀ ov, SubOK b.mem ov hh s → SubOK b2.mem ov hh s) := by
    intro hh s hs
    have hag : ∀ o ∈ subFp b.mem hh s, memLoad b2.mem o = memLoad b.mem o :=
      fun o ho => hsame o (hs o ho).1 (hs o ho).2.1 (hs o ho).2.2
    exact ⟨subFp_frame _ _ hh s hag, subItems_frame _ _ hh s hag, subKeys_frame _ _ hh s hag,
      fun ov => SubOK_frame _ _ hh ov s hag⟩
  have hr2 : memLoad b2.mem rc = some (.node (nrRight ndr nd ndc pre.length)) := by
    simp [hm2, Ne.symm hcrc, hrcP]
  have hc2 : memLoad b2.mem c = some (.node (nrChild ndc)) := by simp [hm2]
  have hP2 : memLoad b2.mem P = some (.node (nrPar nd ndc pre.length)) := by
    simp [hm2, Ne.symm hcP]
  -- summaries of the two rewritten children
  have hg4 : rd ndc.choffs 4 ∈ ndc.liveChoffs := by rw [hccs]; simp
  have hsubC : ∀ g ∈ Cc, g ∈ ndc.liveChoffs := fun g hg => by
    rw [hccs]; simp [hg]
  have hUg4 := hU h _ (hUc _ hg4)
  have eR : ∀ g ∈ ndr.liveChoffs, _ := fun g hg => hU h g (hUr g hg)
  have eC : ∀ g ∈ Cc, _ := fun g hg => hU h g (hUc g (hsubC g hg))
  have hfpR2 : subFp b2.mem (h + 1) rc =
      subFp b.mem h (rd ndc.choffs 4) + subFp b.mem (h + 1) rc := by
    rw [subFp_node h hr2, subFp_node h hrc, hrcs, List.map_cons, List.sum_cons,
      List.map_congr_left (fun g hg => (eR g hg).1), Multiset.add_cons, hUg4.1]
  have hfpC : subFp b.mem (h + 1) c =
      subFp b2.mem (h + 1) c + subFp b.mem h (rd ndc.choffs 4) := by
    rw [subFp_node h hc2, subFp_node h hc, hCc, List.map_congr_left (fun g hg => (eC g hg).1),
      hccs, List.map_append, List.sum_append, Multiset.cons_add]
    simp
  have hitR2 : subItems b2.mem (h + 1) rc =
      subItems b.mem h (rd ndc.choffs 4) ++ subItems b.mem (h + 1) rc := by
    rw [subItems_node h hr2, subItems_node h hrc, hrcs, List.map_cons, List.flatten_cons,
      List.map_congr_left (fun g hg => (eR g hg).2.1), hUg4.2.1]
  have hitC : subItems b.mem (h + 1) c =
      subItems b2.mem (h + 1) c ++ subItems b.mem h (rd ndc.choffs 4) := by
    rw [subItems_node h hc2, subItems_node h hc, hCc,
      List.map_congr_left (fun g hg => (eC g hg).2.1), hccs, List.map_append, List.flatten_append]
    simp
  have hkR2 : ∀ k ∈ subKeys b2.mem (h + 1) rc, k ∈ subKeys b.mem (h + 1) rc ∨
      k = rd nd.keys pre.length ∨ k ∈ subKeys b.mem h (rd ndc.choffs 4) := by
    intro k hk
    rw [subKeys_node h hr2, hrks, hrcs, List.map_cons, List.flatten_cons,
      List.map_congr_left (fun g hg => (eR g hg).2.2.1), hUg4.2.2.1] at hk
    rw [subKeys_node h hrc]
    simp only [List.mem_append, List.mem_cons] at hk ⊢
    tauto
  have hkC0 : ∀ k ∈ subKeys b.mem h (rd ndc.choffs 4), k ∈ subKeys b.mem (h + 1) c := by
    intro k hk
    rw [subKeys_node h hc, List.mem_append]
    exact Or.inr (mem_flatten_map_of_mem _ _ _ _ hg4 hk)
  have hkC2 : ∀ k ∈ subKeys b2.mem (h + 1) c, k ∈ subKeys b.mem (h + 1) c := by
    intro k hk
    rw [subKeys_node h hc2, hCc, hCk, List.map_congr_left (fun g hg => (eC g hg).2.2.1)] at hk
    rw [subKeys_node h hc, hccs, hcks]
    simp only [List.mem_append, List.mem_cons, List.map_append, List.flatten_append] at hk ⊢
    tauto
  have hkC1 : rd ndc.keys 3 ∈ subKeys b.mem (h + 1) c := by
    rw [subKeys_node h hc, hcks]; simp
  have hkP1 : rd nd.keys pre.length ∈ nd.liveKeys :=
    rd_mem_liveKeys nd _ hsh (by omega) hilt
  have hcsP : (nrPar nd ndc pre.length).liveChoffs = pre ++ c :: rc :: post := by
    rw [← hcs]; exact hcs2'
  have ePre : ∀ s ∈ pre, _ := fun s hs => hU (h + 1) s (hUs s (by simp [hs]))
  have ePost : ∀ s ∈ post, _ := fun s hs => hU (h + 1) s (hUs s (by simp [hs]))
  have hndR2 : (subFp b2.mem (h + 1) rc).Nodup := by
    apply Multiset.nodup_of_le _ hndcr
    rw [hfpR2, hfpC]
    exact add_le_add_right (Multiset.le_add_left _ _) _
  have hndC2 : (subFp b2.mem (h + 1) c).Nodup := by
    apply Multiset.nodup_of_le _ hndc1
    rw [hfpC]
    exact Multiset.le_add_right _ _
  apply fixPost_assemble (h + 1) P b b2 nd (nrPar nd ndc pre.length) 0 hP0 hP hnd hlt hP2
  · exact hsh2
  · exact ⟨hn1, by show nd.nitems ≤ 4; omega⟩
  · rw [hcsP]
    intro s hs
    simp only [List.mem_append, List.mem_cons] at hs
    rcases hs with hs | rfl | rfl | hs
    · exact (ePre s hs).2.2.2 false (hsib s (by simp [hs]))
    · refine subOK_node_intro hc0 hc2 hsc (by omega) (by omega) ?_ ?_
      · rw [hCc]
        intro g hg
        exact (eC g hg).2.2.2 false (hcch g (hsubC g hg))
      · rw [← subFp_node h hc2]; exact hndC2
    · refine subOK_node_intro hrc0 hr2 hsr (by omega) (by omega) ?_ ?_
      · rw [hrcs]
        intro g hg
        simp only [List.mem_cons] at hg
        rcases hg with rfl | hg
        · exact hUg4.2.2.2 false (hcch _ hg4)
        · exact (eR g hg).2.2.2 false (hrch g hg)
      · rw [← subFp_node h hr2]; exact hndR2
    · exact (ePost s hs).2.2.2 false (hsib s (by simp [hs]))
  · rw [hcsP, subItems_node (h + 1) hP, hcs]
    simp only [List.map_append, List.map_cons, List.flatten_append, List.flatten_cons]
    rw [List.map_congr_left (fun s hs => (ePre s hs).2.1),
      List.map_congr_left (fun s hs => (ePost s hs).2.1), hitR2, hitC]
    simp
  · rw [hcsP, subKeys_node (h + 1) hP, hcs]
    intro k hk
    left
    simp only [List.map_append, List.map_cons, List.flatten_append, List.flatten_cons,
      List.mem_append] at hk ⊢
    rw [List.map_congr_left (fun s hs => (ePre s hs).2.2.1),
      List.map_congr_left (fun s hs => (ePost s hs).2.2.1)] at hk
    rcases hk with hk | hk | hk | hk | hk
    · rcases hk2 k hk with h1 | h1
      · exact Or.inl h1
      · exact Or.inr (Or.inr (Or.inl (h1 ▸ hkC1)))
    · exact Or.inr (Or.inl hk)
    · exact Or.inr (Or.inr (Or.inl (hkC2 k hk)))
    · rcases hkR2 k hk with h1 | h1 | h1
      · exact Or.inr (Or.inr (Or.inr (Or.inl h1)))
      · exact Or.inl (h1 ▸ hkP1)
      · exact Or.inr (Or.inr (Or.inl (hkC0 k h1)))
    · exact Or.inr (Or.inr (Or.inr (Or.inr hk)))
  · rw [hcsP, zero_add, subFp_node (h + 1) hP, hcs]
    simp only [List.map_append, List.map_cons, List.sum_append, List.sum_cons]
    rw [List.map_congr_left (fun s hs => (ePre s hs).1),
      List.map_congr_left (fun s hs => (ePost s hs).1), hfpR2, hfpC]
    congr 1
    simp only [add_assoc]
  · exact Multiset.nodup_zero
  · intro o ho; simp at ho
  · omega
  · intro o ho _
    have h1 : o ≠ P := fun e => ho (e ▸ self_mem_subFp _ _ _)
    have h2 : ∀ s ∈ nd.liveChoffs, o ≠ s := fun s hs e =>
      ho (child_subFp_sub (h + 1) hP hs (e ▸ self_mem_subFp _ (h + 1) _))
    exact hsame o (h2 c (by rw [hcs]; simp)) h1 (h2 rc (by rw [hcs]; simp))
  · exact hroot2
  · rw [hhdr2]
  · rw [hhdr2]
  · rw [hhdr2]
  · exact hos2
  · exact hbase2
  · rw [hfs2]; exact Nat.le_add_right _ _

theorem splitNode_spec (b : BPTREE) (c : Nat) (ndc : BTNODE) (hc0 : c ≠ 0)
    (hc : memLoad b.mem c = some (.node ndc)) (hclt : c < b.filesize) (hos : b.os = [])
    (h32 : b.filesize + 40 < 4294967296) :
    ∃ b1, _BptSplitNode b c = .ok (b.filesize, b1) ∧
      (∀ o, memLoad b1.mem o = if o = c then some (.node (nsOld ndc))
        else if o = b.filesize then some (.node (nsNew ndc)) else memLoad b.mem o) ∧
      b1.filesize = b.filesize + 40 ∧ b1.root = b.root ∧
      b1.header.depth = b.header.depth ∧ b1.header.nitems = b.header.nitems ∧
      b1.header.rootoff = b.header.rootoff ∧ b1.os = b.os ∧ b1.baseaddr = b.baseaddr := by
  have hfs : 0 < b.filesize := by omega
  obtain ⟨h1, h2, h3, h4, h5, h6, h7, h8, h9⟩ := createNode_spec b hfs hos h32
  obtain ⟨bA, hbA⟩ : ∃ x, x = (_BptCreateNode b).2 := ⟨_, rfl⟩
  rw [← hbA] at h2 h3 h4 h5 h6 h7 h8 h9
  have hne : c ≠ b.filesize := by omega
  have hf0 : b.filesize ≠ 0 := by omega
  have hl1 : bA.loadNode c = .ok ndc := by
    apply loadNode_of hc0
    rw [h2, memLoad_memStore]; simp [hne, hc]
  have hl2 : bA.loadNode b.filesize = .ok zeroNode := by
    apply loadNode_of hf0
    rw [h2, memLoad_memStore]; simp
  refine ⟨((bA.storeNode b.filesize (nsNew ndc)).storeNode c (nsOld ndc)),
    ?_, ?_, h3, h4, h5, h6, h7, h8, h9⟩
  · simp only [_BptSplitNode, h1, ← hbA, h9, hl1, hl2, bind, Except.bind, pure, Except.pure, hf0,
      if_false, ne_eq, not_true_eq_false]
    rfl
  · intro o
    simp only [mem_storeNode, memLoad_memStore, h2]
    split_ifs <;> rfl

/-- Tree level: the node split in `_BptInsertWorker`. -/
theorem fixNode_NS (h : Nat) (b : BPTREE) (P : Nat) (nd : BTNODE) (pre post : List Nat)
    (c : Nat) (ndc : BTNODE)
    (hP0 : P ≠ 0) (hP : memLoad b.mem P = some (.node nd)) (hsh : NodeShape nd)
    (hn1 : 1 ≤ nd.nitems) (hn3 : nd.nitems ≤ 3)
    (hcs : nd.liveChoffs = pre ++ c :: post)
    (hsib : ∀ s ∈ pre ++ post, SubOK b.mem false (h + 1) s)
    (hc0 : c ≠ 0) (hc : memLoad b.mem c = some (.node ndc)) (hcsh : NodeShape ndc)
    (hnc : ndc.nitems = 4) (hcch : ∀ g ∈ ndc.liveChoffs, SubOK b.mem false h g)
    (hnd : (subFp b.mem (h + 1 + 1) P).Nodup)
    (hlt : ∀ o ∈ subFp b.mem (h + 1 + 1) P, o < b.filesize)
    (hNL : _BptRedistributeNodeLeft b P pre.length = .ok (0, b))
    (hNR : _BptRedistributeNodeRight b P pre.length = .ok (0, b))
    (hos : b.os = []) (h32 : b.filesize + 40 < 4294967296) :
    ∃ b2, insertFixNode b P pre.length = .ok b2 ∧ FixPost (h + 1) P b b2 := by
  obtain ⟨hso, hno, hsn, hnn, hccs, hcks⟩ := nodeSplit_objs ndc hcsh hnc
  obtain ⟨Co, hCo⟩ : ∃ l, (nsOld ndc).liveChoffs = l := ⟨_, rfl⟩
  obtain ⟨Ko, hKo⟩ : ∃ l, (nsOld ndc).liveKeys = l := ⟨_, rfl⟩
  obtain ⟨Cn, hCn⟩ : ∃ l, (nsNew ndc).liveChoffs = l := ⟨_, rfl⟩
  obtain ⟨Kn, hKn⟩ : ∃ l, (nsNew ndc).liveKeys = l := ⟨_, rfl⟩
  rw [hCo, hCn] at hccs
  rw [hKo, hKn] at hcks
  -- distinctness
  have hnd1 := hnd
  rw [subFp_node (h + 1) hP, hcs] at hnd1
  obtain ⟨hPc, hndc1, hsibc, -⟩ := nodup_node_split (subFp b.mem (h + 1)) P c pre post hnd1
  have hcP : c ≠ P := fun e => hPc (e ▸ self_mem_subFp _ _ _)
  have hfc := subFp_node h hc
  have hPlt : P < b.filesize := hlt P (self_mem_subFp _ _ _)
  have hchlt : ∀ s ∈ nd.liveChoffs, ∀ o ∈ subFp b.mem (h + 1) s, o < b.filesize := fun s hs o ho =>
    hlt o (child_subFp_sub (h + 1) hP hs ho)
  have hclt : c < b.filesize := hchlt c (by rw [hcs]; simp) c (self_mem_subFp _ _ _)
  have hfs0 : b.filesize ≠ 0 := by omega
  have hPfs : P ≠ b.filesize := by omega
  have hcfs : c ≠ b.filesize := by omega
  -- untouched subtrees
  have hUs : ∀ s ∈ pre ++ post, ∀ o ∈ subFp b.mem (h + 1) s,
      o ≠ c ∧ o ≠ P ∧ o ≠ b.filesize := by
    intro s hs o ho
    obtain ⟨h1, h2⟩ := hsibc s hs o ho
    have := hchlt s (by
      rw [hcs]; simp only [List.mem_append, List.mem_cons] at hs ⊢
      clear * - hs
      tauto) o ho
    exact ⟨fun e => h2 (e ▸ self_mem_subFp _ _ _), h1, by omega⟩
  have hUc : ∀ g ∈ ndc.liveChoffs, ∀ o ∈ subFp b.mem h g, o ≠ c ∧ o ≠ P ∧ o ≠ b.filesize := by
    intro g hg o ho
    have hin := mem_fp_of_child hc hg ho
    have := hchlt c (by rw [hcs]; simp) o hin
    refine ⟨?_, fun e => hPc (e ▸ hin), by omega⟩
    intro e
    have hndc1' := hndc1
    rw [hfc, Multiset.nodup_cons] at hndc1'
    exact hndc1'.1 ((mem_sum_map _ _ _).2 ⟨g, hg, e ▸ ho⟩)
  -- the run
  have hrcx : rd nd.choffs pre.length = c := rd_choffs (N := nd) hcs
  have hlen := liveChoffs_length hsh (by omega)
  have hile : pre.length ≤ nd.nitems := by
    rw [hcs] at hlen; simp at hlen; omega
  obtain ⟨b1, hrun1, hm1, hfs1, hroot1, hdepth1, hnit1, hro1, hos1, hbase1⟩ :=
    splitNode_spec b c ndc hc0 hc hclt hos h32
  obtain ⟨hsh2, hn2, hcs2', hk2⟩ :=
    nsInsLeaf_spec nd pre.length (rd (nsOld ndc).keys 1) b.filesize hsh hn3 hile
  rw [hcs, take_succ_append_cons, drop_succ_append_cons, ← nsInsNode_eq] at hcs2'
  rw [← nsInsNode_eq] at hsh2 hn2 hk2
  obtain ⟨nd2, hnd2⟩ : ∃ x, x = nsInsNode nd pre.length (rd (nsOld ndc).keys 1)
    b.filesize := ⟨_, rfl⟩
  rw [← hnd2] at hsh2 hn2 hcs2' hk2
  have hl1 : b1.loadNode c = .ok (nsOld ndc) := loadNode_of hc0 (by rw [hm1]; simp)
  have hl2 : b1.loadNode P = .ok nd := loadNode_of hP0 (by rw [hm1]; simp [hPc, hPfs, hP, Ne.symm hcP])
  have hrun : insertFixNode b P pre.length = .ok (b1.storeNode P nd2) := by
    simp only [insertFixNode, hNL, hNR, loadNode_of hP0 hP, bind, Except.bind, hrcx, hrun1, hl1,
      hl2, ne_eq, not_true_eq_false, if_false, pure, Except.pure, hnd2, BT_NBRANCHES]
    rfl
  have hm2 : ∀ o, memLoad (b1.storeNode P nd2).mem o = if o = P then some (.node nd2)
      else if o = c then some (.node (nsOld ndc))
      else if o = b.filesize then some (.node (nsNew ndc)) else memLoad b.mem o := by
    intro o; simp only [mem_storeNode, memLoad_memStore, hm1]
  obtain ⟨b2, hb2⟩ : ∃ x, x = b1.storeNode P nd2 := ⟨_, rfl⟩
  have hfs2 : b2.filesize = b.filesize + 40 := by rw [hb2]; exact hfs1
  have hroot2 : b2.root = b.root := by rw [hb2]; exact hroot1
  have hdepth2 : b2.header.depth = b.header.depth := by rw [hb2]; exact hdepth1
  have hnit2 : b2.header.nitems = b.header.nitems := by rw [hb2]; exact hnit1
  have hro2 : b2.header.rootoff = b.header.rootoff := by rw [hb2]; exact hro1
  have hos2 : b2.os = b.os := by rw [hb2]; exact hos1
  have hbase2 : b2.baseaddr = b.baseaddr := by rw [hb2]; exact hbase1
  rw [← hb2] at hrun hm2
  clear hb2
  refine ⟨b2, hrun, ?_⟩
  have hsame : ∀ o, o ≠ c → o ≠ P → o ≠ b.filesize → memLoad b2.mem o = memLoad b.mem o := by
    intro o h1 h2 h3; simp [hm2, h1, h2, h3]
  have hU : ∀ (hh s : Nat), (∀ o ∈ subFp b.mem hh s, o ≠ c ∧ o ≠ P ∧ o ≠ b.filesize) →
      subFp b2.mem hh s = subFp b.mem hh s ∧ subItems b2.mem hh s = subItems b.mem hh s ∧
      subKeys b2.mem hh s = subKeys b.mem hh s ∧
      (∀ ov, SubOK b.mem ov hh s → SubOK b2.mem ov hh s) := by
    intro hh s hs
    have hag : ∀ o ∈ subFp b.mem hh s, memLoad b2.mem o = memLoad b.mem o :=
      fun o ho => hsame o (hs o ho).1 (hs o ho).2.1 (hs o ho).2.2
    exact ⟨subFp_frame _ _ hh s hag, subItems_frame _ _ hh s hag, subKeys_frame _ _ hh s hag,
      fun ov => SubOK_frame _ _ hh ov s hag⟩
  have hn2' : memLoad b2.mem b.filesize = some (.node (nsNew ndc)) := by
    simp [hm2, Ne.symm hPfs, Ne.symm hcfs]
  have hc2 : memLoad b2.mem c = some (.node (nsOld ndc)) := by simp [hm2, hcP]
  have hP2 : memLoad b2.mem P = some (.node nd2) := by simp [hm2]
  have hsubO : ∀ g ∈ Co, g ∈ ndc.liveChoffs := fun g hg => by rw [hccs]; simp [hg]
  have hsubN : ∀ g ∈ Cn, g ∈ ndc.liveChoffs := fun g hg => by rw [hccs]; simp [hg]
  have eO : ∀ g ∈ Co, _ := fun g hg => hU h g (hUc g (hsubO g hg))
  have eN : ∀ g ∈ Cn, _ := fun g hg => hU h g (hUc g (hsubN g hg))
  have hfpC : {b.filesize} + subFp b.mem (h + 1) c =
      subFp b2.mem (h + 1) c + subFp b2.mem (h + 1) b.filesize := by
    rw [subFp_node h hc2, subFp_node h hn2', subFp_node h hc, hCo, hCn,
      List.map_congr_left (fun g hg => (eO g hg).1),
      List.map_congr_left (fun g hg => (eN g hg).1),
      hccs, List.map_append, List.sum_append]
    simp only [Multiset.cons_add, Multiset.add_cons, Multiset.singleton_add]
    rw [Multiset.cons_swap]
  have hitC : subItems b.mem (h + 1) c =
      subItems b2.mem (h + 1) c ++ subItems b2.mem (h + 1) b.filesize := by
    rw [subItems_node h hc2, subItems_node h hn2', subItems_node h hc, hCo, hCn,
      List.map_congr_left (fun g hg => (eO g hg).2.1),
      List.map_congr_left (fun g hg => (eN g hg).2.1),
      hccs, List.map_append, List.flatten_append]
  have hkC2 : ∀ k ∈ subKeys b2.mem (h + 1) c ++ subKeys b2.mem (h + 1) b.filesize,
      k ∈ subKeys b.mem (h + 1) c := by
    intro k hk
    rw [subKeys_node h hc2, subKeys_node h hn2', hCo, hCn, hKo, hKn,
      List.map_congr_left (fun g hg => (eO g hg).2.2.1),
      List.map_congr_left (fun g hg => (eN g hg).2.2.1)] at hk
    rw [subKeys_node h hc, hccs, hcks]
    simp only [List.mem_append, List.mem_cons, List.map_append, List.flatten_append] at hk ⊢
    clear * - hk
    tauto
  have hkC1 : rd (nsOld ndc).keys 1 ∈ subKeys b.mem (h + 1) c := by
    rw [subKeys_node h hc, hcks]; simp
  have ePre : ∀ s ∈ pre, _ := fun s hs => hU (h + 1) s (hUs s (by simp [hs]))
  have ePost : ∀ s ∈ post, _ := fun s hs => hU (h + 1) s (hUs s (by simp [hs]))
  have hndCN : (subFp b2.mem (h + 1) c + subFp b2.mem (h + 1) b.filesize).Nodup := by
    rw [← hfpC, Multiset.singleton_add, Multiset.nodup_cons]
    refine ⟨fun hin => ?_, hndc1⟩
    have := hchlt c (by rw [hcs]; simp) _ hin
    omega
  apply fixPost_assemble (h + 1) P b b2 nd nd2 {b.filesize} hP0 hP hnd hlt hP2
  · exact hsh2
  · exact ⟨by omega, by omega⟩
  · rw [hcs2']
    intro s hs
    simp only [List.mem_append, List.mem_cons, List.mem_singleton, List.not_mem_nil,
      or_false] at hs
    rcases hs with (hs | rfl) | rfl | hs
    · exact (ePre s hs).2.2.2 false (hsib s (by simp [hs]))
    · refine subOK_node_intro hc0 hc2 hso (by omega) (by omega) ?_ ?_
      · rw [hCo]
        intro g hg
        exact (eO g hg).2.2.2 false (hcch g (hsubO g hg))
      · rw [← subFp_node h hc2]; exact (Multiset.nodup_add.1 hndCN).1
    · refine subOK_node_intro hfs0 hn2' hsn (by omega) (by omega) ?_ ?_
      · rw [hCn]
        intro g hg
        exact (eN g hg).2.2.2 false (hcch g (hsubN g hg))
      · rw [← subFp_node h hn2']; exact (Multiset.nodup_add.1 hndCN).2.1
    · exact (ePost s hs).2.2.2 false (hsib s (by simp [hs]))
  · rw [hcs2', subItems_node (h + 1) hP, hcs]
    simp only [List.map_append, List.map_cons, List.flatten_append, List.flatten_cons,
      List.map_nil, List.flatten_nil, List.append_nil]
    rw [List.map_congr_left (fun s hs => (ePre s hs).2.1),
      List.map_congr_left (fun s hs => (ePost s hs).2.1), hitC]
    simp
  · rw [hcs2', subKeys_node (h + 1) hP, hcs]
    intro k hk
    left
    simp only [List.map_append, List.map_cons, List.flatten_append, List.flatten_cons,
      List.mem_append, List.map_nil, List.flatten_nil, List.append_nil] at hk ⊢
    rw [List.map_congr_left (fun s hs => (ePre s hs).2.2.1),
      List.map_congr_left (fun s hs => (ePost s hs).2.2.1)] at hk
    have f1 : k ∈ nd2.liveKeys → k ∈ nd.liveKeys ∨ k ∈ subKeys b.mem (h + 1) c := fun hh => by
      rcases hk2 k hh with h1 | h1
      · exact Or.inl h1
      · exact Or.inr (h1 ▸ hkC1)
    have f3 : k ∈ subKeys b2.mem (h + 1) c → k ∈ subKeys b.mem (h + 1) c := fun hh =>
      hkC2 k (List.mem_append.2 (Or.inl hh))
    have f4 : k ∈ subKeys b2.mem (h + 1) b.filesize → k ∈ subKeys b.mem (h + 1) c := fun hh =>
      hkC2 k (List.mem_append.2 (Or.inr hh))
    clear * - hk f1 f3 f4
    tauto
  · rw [hcs2', subFp_node (h + 1) hP, hcs]
    simp only [List.map_append, List.map_cons, List.sum_append, List.sum_cons, List.map_nil,
      List.sum_nil, add_zero]
    rw [List.map_congr_left (fun s hs => (ePre s hs).1),
      List.map_congr_left (fun s hs => (ePost s hs).1)]
    rw [Multiset.singleton_add, Multiset.cons_swap]
    congr 1
    rw [← Multiset.singleton_add, add_assoc, ← add_assoc (subFp b2.mem (h + 1) c), ← hfpC]
    simp only [← add_assoc, add_comm, add_left_comm]
  · exact Multiset.nodup_singleton _
  · intro o ho
    simp only [Multiset.mem_singleton] at ho
    subst ho
    omega
  · omega
  · intro o ho hol
    have h1 : o ≠ P := fun e => ho (e ▸ self_mem_subFp _ _ _)
    have h2 : ∀ s ∈ nd.liveChoffs, o ≠ s := fun s hs e =>
      ho (child_subFp_sub (h + 1) hP hs (e ▸ self_mem_subFp _ (h + 1) _))
    exact hsame o (h2 c (by rw [hcs]; simp)) h1 (by omega)
  · exact hroot2
  · exact hdepth2
  · exact hnit2
  · exact hro2
  · exact hos2
  · exact hbase2
  · omega

/-- Tree level: the overflow handling of `_BptInsertWorker` for a node child. -/
theorem insertFixNode_spec (h : Nat) (b : BPTREE) (P : Nat) (nd : BTNODE) (pre post : List Nat)
    (c : Nat)
    (hP0 : P ≠ 0) (hP : memLoad b.mem P = some (.node nd)) (hsh : NodeShape nd)
    (hn1 : 1 ≤ nd.nitems) (hn3 : nd.nitems ≤ 3)
    (hcs : nd.liveChoffs = pre ++ c :: post)
    (hsib : ∀ s ∈ pre ++ post, SubOK b.mem false (h + 1) s)
    (hc : SubOK b.mem true (h + 1) c)
    (hnd : (subFp b.mem (h + 1 + 1) P).Nodup)
    (hlt : ∀ o ∈ subFp b.mem (h + 1 + 1) P, o < b.filesize)
    (hos : b.os = []) (h32 : b.filesize + 40 < 4294967296) :
    ∃ b2, insertFixNode b P pre.length = .ok b2 ∧ FixPost (h + 1) P b b2 := by
  obtain ⟨hc0, ndc, hcl, hcsh, hn4, hcch, -⟩ := subOK_node_elim hc
  simp only [if_true] at hn4
  -- left sibling
  have hNLcase : (∃ pre1 lc ndl, pre = pre1 ++ [lc] ∧ lc ≠ 0 ∧
      memLoad b.mem lc = some (.node ndl) ∧ NodeShape ndl ∧ ndl.nitems = 1 ∧
      (∀ g ∈ ndl.liveChoffs, SubOK b.mem false h g)) ∨
      _BptRedistributeNodeLeft b P pre.length = .ok (0, b) := by
    rcases eq_nil_or_snoc pre with hpre | ⟨pre1, lc, hpre⟩
    · right; rw [hpre]; exact RNL_fail_zero b P nd hP0 hP
    · have hl := hsib lc (by rw [hpre]; simp)
      obtain ⟨hlc0, ndl, hlcl, hlsh, hnl, hlch, -⟩ := subOK_node_elim hl
      simp only [Bool.false_eq_true, if_false] at hnl
      by_cases h2 : ndl.nitems < 2
      · left; exact ⟨pre1, lc, ndl, hpre, hlc0, hlcl, hlsh, by omega, hlch⟩
      · right
        rw [hpre, List.length_append, List.length_singleton]
        exact RNL_fail_full b P nd pre1 (c :: post) lc ndl hP0 hP
          (by rw [hcs, hpre]; simp) hlc0 hlcl (by omega)
  rcases hNLcase with ⟨pre1, lc, ndl, hpre, hlc0, hlcl, hlsh, hnl, hlch⟩ | hNL
  · have := fixNode_NL h b P nd pre1 post lc c ndl ndc hP0 hP hsh hn1 hn3
      (by rw [hcs, hpre]; simp)
      (fun s hs => hsib s (by
        rw [hpre]; simp only [List.mem_append, List.mem_singleton] at hs ⊢
        clear * - hs
        tauto))
      hlc0 hlcl hlsh hnl hlch hc0 hcl hcsh hn4 hcch hnd hlt
    rw [hpre, List.length_append, List.length_singleton]
    exact this
  -- right sibling
  have hNRcase : (∃ rc post1 ndr, post = rc :: post1 ∧ rc ≠ 0 ∧
      memLoad b.mem rc = some (.node ndr) ∧ NodeShape ndr ∧ 1 ≤ ndr.nitems ∧ ndr.nitems < 3 ∧
      (∀ g ∈ ndr.liveChoffs, SubOK b.mem false h g)) ∨
      _BptRedistributeNodeRight b P pre.length = .ok (0, b) := by
    cases hpost : post with
    | nil =>
      right
      have hlen := liveChoffs_length hsh (by omega)
      rw [hcs, hpost] at hlen
      simp at hlen
      rw [hlen]
      exact RNR_fail_last b P nd hP0 hP
    | cons rc post1 =>
      have hr := hsib rc (by rw [hpost]; simp)
      obtain ⟨hrc0, ndr, hrcl, hrsh, hnr, hrch, -⟩ := subOK_node_elim hr
      simp only [Bool.false_eq_true, if_false] at hnr
      by_cases h3 : ndr.nitems < 3
      · left; exact ⟨rc, post1, ndr, rfl, hrc0, hrcl, hrsh, hnr.1, h3, hrch⟩
      · right
        exact RNR_fail_full b P nd pre post1 c rc ndr hP0 hP (by rw [hcs, hpost]) hrc0 hrcl
          (by omega)
  rcases hNRcase with ⟨rc, post1, ndr, hpost, hrc0, hrcl, hrsh, hnr1, hnr3, hrch⟩ | hNR
  · exact fixNode_NR h b P nd pre post1 c rc ndc ndr hP0 hP hsh hn1 hn3
      (by rw [hcs, hpost])
      (fun s hs => hsib s (by
        rw [hpost]; simp only [List.mem_append, List.mem_cons] at hs ⊢
        clear * - hs
        tauto))
      hrc0 hrcl hrsh hnr1 hnr3 hrch hc0 hcl hcsh hn4 hcch hnd hlt hNL
  exact fixNode_NS h b P nd pre post c ndc hP0 hP hsh hn1 hn3 hcs hsib hc0 hcl hcsh hn4 hcch
    hnd hlt hNL hNR hos h32

theorem subOK_nodup {m : List (Nat × BTOBJ)} {ov : Bool} {h off : Nat}
    (hok : SubOK m ov h off) : (subFp m h off).Nodup := by
  cases h with
  | zero => simp [subFp]
  | succ h => exact (subOK_node_elim hok).2.choose_spec.2.2.2.2

theorem subOK_ne_zero {m : List (Nat × BTOBJ)} {ov : Bool} {h off : Nat}
    (hok : SubOK m ov h off) : off ≠ 0 := by
  cases h with
  | zero => exact (subOK_leaf_iff.1 hok).1
  | succ h => exact (subOK_node_elim hok).1

theorem live_length {lf : BTLEAF} {n : Nat} (hsh : LeafShape lf n) (hn : n ≤ 5) :
    lf.live.length = n := by
  simp [BTLEAF.live, BTNITEMS_of_shape hsh hn, hsh.1]; omega

theorem subOK_items_ne_nil {m : List (Nat × BTOBJ)} :
    ∀ (h : Nat) (ov : Bool) (off : Nat), SubOK m ov h off → subItems m h off ≠ [] := by
  intro h
  induction h with
  | zero =>
    intro ov off hok
    obtain ⟨-, lf, n, hl, hsh, hn⟩ := subOK_leaf_iff.1 hok
    rw [subItems_leaf hl]
    have hn5 : 1 ≤ n ∧ n ≤ 5 := by
      cases ov
      · simp only [Bool.false_eq_true, if_false] at hn; omega
      · simp only [if_true] at hn; omega
    have := live_length hsh hn5.2
    intro e; rw [e] at this; simp at this; omega
  | succ h ih =>
    intro ov off hok
    obtain ⟨-, nd, hl, hsh, hn, hch, -⟩ := subOK_node_elim hok
    rw [subItems_node h hl]
    have hn4 : nd.nitems ≤ 4 := by
      cases ov
      · simp only [Bool.false_eq_true, if_false] at hn; omega
      · simp only [if_true] at hn; omega
    have hlen := liveChoffs_length hsh hn4
    cases hcs : nd.liveChoffs with
    | nil => rw [hcs] at hlen; simp at hlen
    | cons c cs =>
      have := ih false c (hch c (by rw [hcs]; simp))
      intro e
      simp only [List.map_cons, List.flatten_cons, List.append_eq_nil] at e
      exact this e.1

theorem nodeScan_le (keys : List KEYTYPE) (key : KEYTYPE) :
    ∀ r i, nodeScan keys key r i ≤ i + r := by
  intro r
  induction r with
  | zero => intro i; simp [nodeScan]
  | succ r ih =>
    intro i
    simp only [nodeScan]
    split_ifs
    · have := ih (i + 1); omega
    · omega

theorem nodeScan_all (keys : List KEYTYPE) (key : KEYTYPE) :
    ∀ r i, (∀ j, i ≤ j → j < i + r → rd keys j ≤ key) → nodeScan keys key r i = i + r := by
  intro r
  induction r with
  | zero => intro i _; simp [nodeScan]
  | succ r ih =>
    intro i hall
    simp only [nodeScan]
    rw [if_pos (hall i (Nat.le_refl _) (by omega))]
    rw [ih (i + 1) (fun j h1 h2 => hall j (by omega) (by omega))]
    omega

theorem nodeScan_first (keys : List KEYTYPE) (key : KEYTYPE) (r i : Nat)
    (h : key < rd keys i) : nodeScan keys key (r + 1) i = i := by
  simp only [nodeScan]
  rw [if_neg (not_le.mpr h)]

theorem split_at {α : Type} (l : List α) (i : Nat) (hi : i < l.length) :
    ∃ pre c post, l = pre ++ c :: post ∧ pre.length = i := by
  refine ⟨l.take i, l[i], l.drop (i + 1), ?_, ?_⟩
  · rw [← List.drop_eq_getElem_cons hi]
    exact (List.take_append_drop i l).symm
  · simp; omega

/-- The effect of an insertion below the child `c` of the node `P`, seen from `P`. -/
theorem worker_lift (key : KEYTYPE) (value : VALTYPE) (h P : Nat) (nd : BTNODE)
    (pre post : List Nat) (c : Nat) (b b1 : BPTREE) (res : Int)
    (hP : memLoad b.mem P = some (.node nd)) (hcs : nd.liveChoffs = pre ++ c :: post)
    (hnd : (subFp b.mem (h + 1) P).Nodup)
    (hlt : ∀ o ∈ subFp b.mem (h + 1) P, o < b.filesize)
    (hw : WorkerPost key value h c b res b1) :
    memLoad b1.mem P = some (.node nd) ∧
    (pre ++ post).map (subFp b1.mem h) = (pre ++ post).map (subFp b.mem h) ∧
    (pre ++ post).map (subItems b1.mem h) = (pre ++ post).map (subItems b.mem h) ∧
    (pre ++ post).map (subKeys b1.mem h) = (pre ++ post).map (subKeys b.mem h) ∧
    (∀ s ∈ pre ++ post, ∀ ov, SubOK b.mem ov h s → SubOK b1.mem ov h s) ∧
    (subFp b1.mem (h + 1) P).Nodup ∧
    (∀ o ∈ subFp b1.mem (h + 1) P, o < b1.filesize) ∧
    (∀ o ∈ subFp b1.mem (h + 1) P, o ∈ subFp b.mem (h + 1) P ∨ b.filesize ≤ o) ∧
    (∀ o, o ∉ subFp b.mem (h + 1) P → o < b.filesize → memLoad b1.mem o = memLoad b.mem o) := by
  have hnd0 := hnd
  rw [subFp_node h hP, hcs] at hnd
  obtain ⟨hPc, -, hs, hrest⟩ := nodup_node_split (subFp b.mem h) P c pre post hnd
  have hmemc : c ∈ nd.liveChoffs := by rw [hcs]; simp
  have hmems : ∀ s ∈ pre ++ post, s ∈ nd.liveChoffs := by
    intro s hs; rw [hcs]; simp only [List.mem_append, List.mem_cons] at hs ⊢
    clear * - hs
    tauto
  have hP1 : memLoad b1.mem P = some (.node nd) := by
    rw [hw.frame P hPc (hlt P (self_mem_subFp _ _ _)), hP]
  have hunt := untouched_maps b.mem b1.mem h (pre ++ post) (fun s hs1 o ho =>
    hw.frame o (hs s hs1 o ho).2 (hlt o (child_subFp_sub h hP (hmems s hs1) ho)))
  obtain ⟨hu1, hu2, hu3, hu4⟩ := hunt
  have hfp1 : subFp b1.mem (h + 1) P =
      P ::ₘ (subFp b1.mem h c + ((pre ++ post).map (subFp b.mem h)).sum) := by
    rw [subFp_node h hP1, hcs, sum_split, hu1]
  have hfp0 : subFp b.mem (h + 1) P =
      P ::ₘ (subFp b.mem h c + ((pre ++ post).map (subFp b.mem h)).sum) := by
    rw [subFp_node h hP, hcs, sum_split]
  have hPlt := hlt P (self_mem_subFp _ _ _)
  refine ⟨hP1, hu1, hu2, hu3, hu4, ?_, ?_, ?_, ?_⟩
  · rw [hfp1, Multiset.nodup_cons, Multiset.mem_add, not_or, Multiset.nodup_add]
    rw [Multiset.nodup_cons] at hrest
    refine ⟨⟨?_, hrest.1⟩, subOK_nodup hw.ok, hrest.2, ?_⟩
    · intro hPm
      rcases hw.fp_new P hPm with h1 | h1
      · exact hPc h1
      · omega
    · rw [Multiset.disjoint_left]
      intro o ho1 ho2
      obtain ⟨s, hs1, hs2⟩ := (mem_sum_map _ _ o).1 ho2
      rcases hw.fp_new o ho1 with h1 | h1
      · exact (hs s hs1 o hs2).2 h1
      · have := hlt o (child_subFp_sub h hP (hmems s hs1) hs2)
        omega
  · intro o ho
    rw [hfp1] at ho
    simp only [Multiset.mem_cons, Multiset.mem_add] at ho
    rcases ho with ho | ho | ho
    · subst ho; exact Nat.lt_of_lt_of_le hPlt hw.fs_le
    · exact hw.fp_lt o ho
    · obtain ⟨s, hs1, hs2⟩ := (mem_sum_map _ _ o).1 ho
      exact Nat.lt_of_lt_of_le (hlt o (child_subFp_sub h hP (hmems s hs1) hs2)) hw.fs_le
  · intro o ho
    rw [hfp1] at ho
    rw [hfp0]
    simp only [Multiset.mem_cons, Multiset.mem_add] at ho ⊢
    rcases ho with ho | ho | ho
    · exact Or.inl (Or.inl ho)
    · rcases hw.fp_new o ho with h1 | h1
      · exact Or.inl (Or.inr (Or.inl h1))
      · exact Or.inr h1
    · exact Or.inl (Or.inr (Or.inr ho))
  · intro o ho holt
    exact hw.frame o (fun hc => ho (child_subFp_sub h hP hmemc hc)) holt

theorem fixPost_refl (h P : Nat) (b : BPTREE) (hok : SubOK b.mem false (h + 1) P)
    (hlt : ∀ o ∈ subFp b.mem (h + 1) P, o < b.filesize) : FixPost h P b b where
  ok := ⟨false, hok⟩
  items := rfl
  keys := fun _ hk => Or.inl hk
  fs_le := Nat.le_refl _
  frame := fun _ _ _ => rfl
  fp_new := fun _ ho => Or.inl ho
  fp_lt := hlt
  root_eq := rfl
  depth_eq := rfl
  nitems_eq := rfl
  rootoff_eq := rfl
  os_eq := rfl
  base_eq := rfl
  fs_bd := Nat.le_add_right _ _

theorem flatten_map_eq_nil {α β : Type} (f : α → List β) (l : List α)
    (hne : ∀ a ∈ l, f a ≠ []) (h : (l.map f).flatten = []) : l = [] := by
  cases l with
  | nil => rfl
  | cons a l =>
    simp only [List.map_cons, List.flatten_cons, List.append_eq_nil] at h
    exact absurd h.1 (hne a (by simp))

theorem mem_mid {α : Type} (A l1 l2 B : List α) (y : α) (h : y ∈ l1 ++ l2) :
    y ∈ A ++ l1 ++ (l2 ++ B) := by
  simp only [List.mem_append] at h ⊢; tauto

theorem mem_mid_cons {α : Type} (A l1 l2 B : List α) (x y : α) (h : y ∈ l1 ++ x :: l2) :
    y ∈ A ++ (l1 ++ x :: l2) ++ B := by
  simp only [List.mem_append] at h ⊢; tauto

theorem mem_keys_mid {α : Type} (K X C Y : List α) (k : α) (h : k ∈ C) :
    k ∈ K ++ (X ++ (C ++ Y)) := by
  simp only [List.mem_append]; tauto

theorem mem_keys_swap {α : Type} (K X C D Y : List α) (k : α) (h : k ∈ K ++ (X ++ (C ++ Y))) :
    k ∈ C ∨ k ∈ K ++ (X ++ (D ++ Y)) := by
  simp only [List.mem_append] at h ⊢; tauto

/-- The post-condition of `_BptInsertWorker` at a node, from the post-condition at
the child it descended into and that of the overflow handling. -/
theorem workerPost_node (key : KEYTYPE) (value : VALTYPE) (h P : Nat) (nd : BTNODE)
    (pre post : List Nat) (c : Nat) (b b1 b2 : BPTREE) (res res2 : Int)
    (hP : memLoad b.mem P = some (.node nd)) (hsh : NodeShape nd)
    (hn1 : 1 ≤ nd.nitems) (hn3 : nd.nitems ≤ 3)
    (hcs : nd.liveChoffs = pre ++ c :: post)
    (hpre : pre.length = nodeScan nd.keys key nd.nitems 0)
    (hnd : (subFp b.mem (h + 1) P).Nodup)
    (hlt : ∀ o ∈ subFp b.mem (h + 1) P, o < b.filesize)
    (hw : WorkerPost key value h c b res b1)
    (hfix : FixPost h P b1 b2)
    (hres2 : ∀ nd2, memLoad b2.mem P = some (.node nd2) →
      res2 = if nd2.nitems = 4 then BT_OVERFLOW else 1) :
    WorkerPost key value (h + 1) P b res2 b2 := by
  obtain ⟨hP1, hu1, hu2, hu3, -, hnd1, hlt1, hnew1, hframe1⟩ :=
    worker_lift key value h P nd pre post c b b1 res hP hcs hnd hlt hw
  have hu2a : pre.map (subItems b1.mem h) = pre.map (subItems b.mem h) := by
    rw [List.map_inj_left] at hu2 ⊢
    exact fun s hs => hu2 s (List.mem_append_left _ hs)
  have hu2b : post.map (subItems b1.mem h) = post.map (subItems b.mem h) := by
    rw [List.map_inj_left] at hu2 ⊢
    exact fun s hs => hu2 s (List.mem_append_right _ hs)
  have hu3a : pre.map (subKeys b1.mem h) = pre.map (subKeys b.mem h) := by
    rw [List.map_inj_left] at hu3 ⊢
    exact fun s hs => hu3 s (List.mem_append_left _ hs)
  have hu3b : post.map (subKeys b1.mem h) = post.map (subKeys b.mem h) := by
    rw [List.map_inj_left] at hu3 ⊢
    exact fun s hs => hu3 s (List.mem_append_right _ hs)
  obtain ⟨l1, l2, hi0, hi1, p1', p2', p1, p2⟩ := hw.items
  obtain ⟨A, hA⟩ : ∃ A, A = (pre.map (subItems b.mem h)).flatten := ⟨_, rfl⟩
  obtain ⟨B, hB⟩ : ∃ B, B = (post.map (subItems b.mem h)).flatten := ⟨_, rfl⟩
  have hI0 : subItems b.mem (h + 1) P = A ++ (l1 ++ l2) ++ B := by
    rw [subItems_node h hP, hcs, flatten_map_append, List.map_cons, List.flatten_cons, hi0,
      ← hA, ← hB]
    simp
  have hI1 : subItems b1.mem (h + 1) P = A ++ (l1 ++ ⟨key, value⟩ :: l2) ++ B := by
    rw [subItems_node h hP1, hcs, flatten_map_append, List.map_cons, List.flatten_cons, hi1,
      hu2a, hu2b, ← hA, ← hB]
    simp
  have hK0 : subKeys b.mem (h + 1) P = nd.liveKeys ++ ((pre.map (subKeys b.mem h)).flatten ++
      (subKeys b.mem h c ++ (post.map (subKeys b.mem h)).flatten)) := by
    rw [subKeys_node h hP, hcs, flatten_map_append, List.map_cons, List.flatten_cons]
  have hK1 : subKeys b1.mem (h + 1) P = nd.liveKeys ++ ((pre.map (subKeys b.mem h)).flatten ++
      (subKeys b1.mem h c ++ (post.map (subKeys b.mem h)).flatten)) := by
    rw [subKeys_node h hP1, hcs, flatten_map_append, List.map_cons, List.flatten_cons, hu3a, hu3b]
  have hlen := liveChoffs_length hsh (by omega : nd.nitems ≤ 4)
  obtain ⟨ov, hok2⟩ := hfix.ok
  obtain ⟨hP0, nd2, hP2, hsh2, hn2, hch2, hnd2⟩ := subOK_node_elim hok2
  have hr2 := hres2 nd2 hP2
  have hov : decide (res2 = BT_OVERFLOW) = ov := by
    cases ov
    · simp only [Bool.false_eq_true, if_false] at hn2
      rw [hr2, if_neg (by omega)]; decide
    · simp only [if_true] at hn2
      rw [hr2, if_pos hn2]; simp
  constructor
  · rw [hr2]; split_ifs
    · exact Or.inr rfl
    · exact Or.inl rfl
  · rw [hov]; exact hok2
  · exact Nat.le_trans hw.fs_le hfix.fs_le
  · intro o ho holt
    have hno : o ∉ subFp b1.mem (h + 1) P := by
      intro hc
      rcases hnew1 o hc with h1 | h1
      · exact ho h1
      · omega
    rw [hfix.frame o hno (Nat.lt_of_lt_of_le holt hw.fs_le)]
    exact hframe1 o ho holt
  · intro o ho
    rcases hfix.fp_new o ho with h1 | h1
    · exact hnew1 o h1
    · exact Or.inr (Nat.le_trans hw.fs_le h1)
  · exact hfix.fp_lt
  · refine ⟨A ++ l1, l2 ++ B, ?_, ?_, ?_, ?_, ?_, ?_⟩
    · rw [hI0]; simp
    · rw [hfix.items, hI1]; simp
    · intro e
      rw [List.append_eq_nil] at e
      obtain ⟨y, l, hl, hy⟩ := p1' e.2
      exact ⟨y, l ++ B, by rw [hl]; rfl, hy⟩
    · intro e
      rw [List.append_eq_nil] at e
      obtain ⟨y, l, hl, hy⟩ := p2' e.1
      exact ⟨y, A ++ l, by rw [hl, List.append_assoc], hy⟩
    · intro hk hy
      have hm0 : rd nd.keys 0 ∈ subKeys b.mem (h + 1) P := by
        rw [hK0]
        exact List.mem_append_left _ (rd_mem_liveKeys nd 0 hsh (by omega) (by omega))
      have h0 : key < rd nd.keys 0 := hk _ hm0
      obtain ⟨r, hr⟩ : ∃ r, nd.nitems = r + 1 := ⟨nd.nitems - 1, by omega⟩
      rw [hr, nodeScan_first _ _ _ _ h0] at hpre
      have hpre0 : pre = [] := List.length_eq_zero.1 hpre
      have hA0 : A = [] := by rw [hA, hpre0]; rfl
      have hl1 : l1 = [] := p1
        (fun k hk1 => hk k (by rw [hK0]; exact mem_keys_mid _ _ _ _ k hk1))
        (fun y hy1 => hy y (mem_mid A l1 l2 B y hy1))
      rw [hA0, hl1]; rfl
    · intro hk hy
      have hmj : ∀ j, j < 0 + nd.nitems → rd nd.keys j ∈ subKeys b.mem (h + 1) P := by
        intro j hj
        rw [hK0]
        exact List.mem_append_left _ (rd_mem_liveKeys nd j hsh (by omega) (by omega))
      have hall : nodeScan nd.keys key nd.nitems 0 = 0 + nd.nitems :=
        nodeScan_all _ _ _ _ (fun j _ hj => hk _ (hmj j hj))
      rw [hcs, List.length_append, List.length_cons] at hlen
      have hpost0 : post = [] := List.length_eq_zero.1 (by omega)
      have hB0 : B = [] := by rw [hB, hpost0]; rfl
      have hl2 : l2 = [] := p2
        (fun k hk1 => hk k (by rw [hK0]; exact mem_keys_mid _ _ _ _ k hk1))
        (fun y hy1 => hy y (mem_mid A l1 l2 B y hy1))
      rw [hB0, hl2]; rfl
  · intro k hk
    rcases hfix.keys k hk with h1 | h1
    · rw [hK1] at h1
      rw [hK0, hfix.items, hI1]
      rcases mem_keys_swap _ _ _ (subKeys b.mem h c) _ k h1 with h1 | h1
      · rcases hw.keys k h1 with h2 | ⟨y, hy, hyk⟩
        · exact Or.inl (mem_keys_mid _ _ _ _ k h2)
        · right
          rw [hi1] at hy
          exact ⟨y, mem_mid_cons A l1 l2 B _ y hy, hyk⟩
      · exact Or.inl h1
    · right; rw [hfix.items]; exact h1
  · rw [hfix.root_eq, hw.root_eq]
  · rw [hfix.depth_eq, hw.depth_eq]
  · rw [hfix.nitems_eq, hw.nitems_eq]
  · rw [hfix.rootoff_eq, hw.rootoff_eq]
  · rw [hfix.os_eq, hw.os_eq]
  · rw [hfix.base_eq, hw.base_eq]
  · have h1 := hfix.fs_bd
    have h2 := hw.fs_bd
    clear * - h1 h2
    omega

/-- `_BptInsertWorker` on a well-formed subtree of height `h`: it terminates within
`h + 1` levels of recursion and yields a subtree that is well formed or overfull at
the top, with the new pair inserted in place. -/
theorem worker_spec (key : KEYTYPE) (value : VALTYPE) :
    ∀ (h fuel : Nat) (b : BPTREE) (off : Nat), h < fuel → SubOK b.mem false h off →
      (∀ o ∈ subFp b.mem h off, o < b.filesize) →
      b.os = [] → b.filesize + 52 * h < 4294967296 →
      ∃ res b1, _BptInsertWorker fuel b off key value = .ok (res, b1) ∧
        WorkerPost key value h off b res b1 := by
  intro h
  induction h with
  | zero =>
    intro fuel b off hf hok hlt _ _
    obtain ⟨f, rfl⟩ : ∃ f, fuel = f + 1 := ⟨fuel - 1, by omega⟩
    exact worker_leaf key value f b off hok hlt
  | succ h ih =>
    intro fuel b P hf hok hlt hos h32
    obtain ⟨f, rfl⟩ : ∃ f, fuel = f + 1 := ⟨fuel - 1, by omega⟩
    obtain ⟨hP0, nd, hP, hsh, hn, hch, hnd⟩ := subOK_node_elim hok
    simp only [Bool.false_eq_true, if_false] at hn
    obtain ⟨hn1, hn3⟩ := hn
    have hlen := liveChoffs_length hsh (by omega : nd.nitems ≤ 4)
    have hi := nodeScan_le nd.keys key nd.nitems 0
    obtain ⟨pre, c, post, hcs, hpre⟩ := split_at nd.liveChoffs (nodeScan nd.keys key nd.nitems 0)
      (by omega)
    have hrd : rd nd.choffs (nodeScan nd.keys key nd.nitems 0) = c := by
      rw [← hpre]; exact rd_choffs hcs
    have hmemc : c ∈ nd.liveChoffs := by rw [hcs]; simp
    obtain ⟨res, b1, hrun, hw⟩ := ih f b c (by omega) (hch c hmemc)
      (fun o ho => hlt o (child_subFp_sub h hP hmemc ho)) hos (by omega)
    have hos1 : b1.os = [] := hw.os_eq.trans hos
    have h32a : b1.filesize + 52 < 4294967296 := by
      have := hw.fs_bd
      omega
    have h32b : b1.filesize + 40 < 4294967296 := by omega
    clear h32
    obtain ⟨hP1, -, -, -, hu4, hnd1, hlt1, -, -⟩ :=
      worker_lift key value h P nd pre post c b b1 res hP hcs hnd hlt hw
    have hsib1 : ∀ s ∈ pre ++ post, SubOK b1.mem false h s := fun s hs =>
      hu4 s hs false (hch s (by
        rw [hcs]; simp only [List.mem_append, List.mem_cons] at hs ⊢
        clear * - hs
        tauto))
    have hwn : isLeafWord (BTOBJ.node nd).word0 = false :=
      isLeafWord_node (by show nd.nitems ≤ 5; omega)
    rcases hw.res_eq with hres | hres
    · -- no overflow below
      subst hres
      have hokc : SubOK b1.mem false h c := by simpa using hw.ok
      have hok1 : SubOK b1.mem false (h + 1) P := by
        refine subOK_node_intro hP0 hP1 hsh hn1 hn3 ?_ (by rw [← subFp_node h hP1]; exact hnd1)
        intro s hs
        rw [hcs] at hs
        rcases List.mem_append.1 hs with h1 | h1
        · exact hsib1 s (List.mem_append_left _ h1)
        · rcases List.mem_cons.1 h1 with h2 | h2
          · rw [h2]; exact hokc
          · exact hsib1 s (List.mem_append_right _ h2)
      refine ⟨1, b1, ?_, ?_⟩
      · simp only [_BptInsertWorker, load_of hP0 hP, bind, Except.bind, hwn, BTOBJ.asNode, hrd,
          hrun, pure, Except.pure]
        rfl
      · refine workerPost_node key value h P nd pre post c b b1 b1 1 1 hP hsh hn1 hn3 hcs hpre
          hnd hlt hw (fixPost_refl h P b1 hok1 hlt1) ?_
        intro nd2 h2
        rw [hP1] at h2
        cases h2
        rw [if_neg (by omega)]
    · -- overflow below
      subst hres
      have hokc : SubOK b1.mem true h c := by simpa using hw.ok
      have hfix : ∃ b2 child, b1.load c = Except.ok child ∧
          ((isLeafWord child.word0 = true ∧ insertFixLeaf b1 P pre.length = Except.ok b2) ∨
           (isLeafWord child.word0 = false ∧ insertFixNode b1 P pre.length = Except.ok b2)) ∧
          FixPost h P b1 b2 := by
        cases h with
        | zero =>
          obtain ⟨hc0, lf, n, hcl, hcsh, hn5⟩ := subOK_leaf_iff.1 hokc
          simp only [if_true] at hn5
          have hwl : isLeafWord (BTOBJ.leaf lf).word0 = true := by
            simp only [BTOBJ.word0, hcsh.2]; exact isLeafWord_leaf (by omega)
          obtain ⟨b2, hb2, hfp⟩ := insertFixLeaf_spec b1 P nd pre post c hP0 hP1 hsh hn1 hn3 hcs
            hsib1 hokc hnd1 hlt1 hos1 h32a
          exact ⟨b2, _, load_of hc0 hcl, Or.inl ⟨hwl, hb2⟩, hfp⟩
        | succ h =>
          obtain ⟨hc0, ndc, hcl, hcsh, hn4, -, -⟩ := subOK_node_elim hokc
          simp only [if_true] at hn4
          have hwl : isLeafWord (BTOBJ.node ndc).word0 = false :=
            isLeafWord_node (by show ndc.nitems ≤ 5; omega)
          obtain ⟨b2, hb2, hfp⟩ := insertFixNode_spec h b1 P nd pre post c hP0 hP1 hsh hn1 hn3
            hcs hsib1 hokc hnd1 hlt1 hos1 h32b
          exact ⟨b2, _, load_of hc0 hcl, Or.inr ⟨hwl, hb2⟩, hfp⟩
      obtain ⟨b2, child, hchild, hb2, hfp⟩ := hfix
      clear h32a h32b
      obtain ⟨ov, hok2⟩ := hfp.ok
      obtain ⟨-, nd2, hP2, -, -, -, -⟩ := subOK_node_elim hok2
      refine ⟨if nd2.nitems = 4 then BT_OVERFLOW else 1, b2, ?_, ?_⟩
      · rw [hpre] at hb2
        simp only [_BptInsertWorker, load_of hP0 hP, bind, Except.bind, hwn, BTOBJ.asNode, hrd,
          hrun, pure, Except.pure, hchild]
        rcases hb2 with ⟨e1, e2⟩ | ⟨e1, e2⟩
        · simp only [e1, e2, loadNode_of hP0 hP2]
          split_ifs <;> first | rfl | (exfalso; simp_all)
        · simp only [e1, e2, loadNode_of hP0 hP2]
          split_ifs <;> first | rfl | (exfalso; simp_all)
      · refine workerPost_node key value h P nd pre post c b b1 b2 BT_OVERFLOW _ hP hsh hn1 hn3
          hcs hpre hnd hlt hw hfp ?_
        intro nd3 h3
        rw [hP2] at h3
        cases h3
        rfl

theorem root_storeNode (b : BPTREE) (a : Nat) (n : BTNODE) : (b.storeNode a n).root = b.root :=
  rfl

theorem BT_OVERFLOW_ne_zero : ((BT_OVERFLOW : Int) = 0) = False := by decide

theorem BptInsert_split_leaf (b : BPTREE) (key : KEYTYPE) (value : VALTYPE) (b1 : BPTREE)
    (lf : BTLEAF)
    (hrun : _BptInsertWorker b.filesize { b with header := { b.header with dirty := 1 } }
      b.root key value = .ok (BT_OVERFLOW, b1))
    (h0 : b1.root ≠ 0) (hlt : b1.root < b1.filesize)
    (hl : memLoad b1.mem b1.root = some (.leaf lf)) (hsh : LeafShape lf 5)
    (hos : b1.os = []) (h32 : b1.filesize + 92 < 4294967296) :
    ∃ b3, BptInsert b key value = .ok (1, b3) ∧
      (∀ o, memLoad b3.mem o =
        if o = b1.filesize then
          some (.node (rootNode (rd (lsNew lf b1.root).items 0).key b1.root (b1.filesize + 40)))
        else if o = b1.root then some (.leaf (lsOld lf (b1.filesize + 40)))
        else if o = b1.filesize + 40 then some (.leaf (lsNew lf b1.root))
        else memLoad b1.mem o) ∧
      b3.root = b1.filesize ∧ b3.header.depth = (b1.header.depth + 1) % 256 ∧
      b3.filesize = b1.filesize + 92 ∧ b3.header.nitems = b1.header.nitems ∧
      b3.header.rootoff = b1.filesize ∧ b3.os = b1.os ∧ b3.baseaddr = b1.baseaddr := by
  have hfs : 0 < b1.filesize := by omega
  have hf0 : b1.filesize ≠ 0 := by omega
  have hne : b1.root ≠ b1.filesize := by omega
  obtain ⟨c1, c2, c3, c4, c5, c6, -, c8, c9⟩ := createNode_spec b1 hfs hos (by omega)
  obtain ⟨bA, hbA⟩ : ∃ x, x = (_BptCreateNode b1).2 := ⟨_, rfl⟩
  rw [← hbA] at c2 c3 c4 c5 c6 c8 c9
  have hlA : bA.loadNode b1.filesize = .ok zeroNode :=
    loadNode_of hf0 (by rw [c2, memLoad_memStore]; simp)
  obtain ⟨bB, hbB⟩ : ∃ x, x = bA.storeNode b1.filesize { zeroNode with nitems := 1 } := ⟨_, rfl⟩
  have hBroot : bB.root = b1.root := by rw [hbB]; exact c4
  have hBfs : bB.filesize = b1.filesize + 40 := by rw [hbB]; exact c3
  have hBos : bB.os = [] := by rw [hbB]; exact c8.trans hos
  have hBbase : bB.baseaddr = b1.baseaddr := by rw [hbB]; exact c9
  have hBmem : ∀ o, memLoad bB.mem o =
      if o = b1.filesize then some (.node { zeroNode with nitems := 1 }) else memLoad b1.mem o := by
    intro o
    rw [hbB, mem_storeNode, memLoad_memStore, c2, memLoad_memStore]
    split_ifs <;> rfl
  have hlB : bB.load b1.root = .ok (.leaf lf) := load_of h0 (by rw [hBmem]; simp [hne, hl])
  obtain ⟨bC, hrunC, hCmem, hCfs, hCroot, hCdepth, hCnit, -, hCos, hCbase⟩ :=
    splitLeaf_spec bB b1.root lf h0 (by rw [hBmem]; simp [hne, hl]) (by omega) hBos (by omega)
  clear h32
  rw [hBfs] at hrunC hCmem
  have hlC1 : bC.loadLeaf (b1.filesize + 40) = .ok (lsNew lf b1.root) :=
    loadLeaf_of (by omega) (by rw [hCmem]; simp; omega)
  have hlC2 : bC.loadNode b1.filesize = .ok { zeroNode with nitems := 1 } :=
    loadNode_of hf0 (by rw [hCmem, hBmem]; simp [Ne.symm hne])
  have hw : isLeafWord (BTOBJ.leaf lf).word0 = true := by
    simp only [BTOBJ.word0, hsh.2]; exact isLeafWord_leaf (by omega)
  refine ⟨{ root := b1.filesize,
             header := { bC.header with rootoff := b1.filesize,
                                        depth := (bC.header.depth + 1) % 256,
                                        dirty := 0 },
             mem := memStore (memStore bC.mem b1.filesize (.node
               { nitems := 1, keys := wr zeroNode.keys 0 (rd (lsNew lf b1.root).items 0).key,
                 choffs := zeroNode.choffs })) b1.filesize
               (.node (rootNode (rd (lsNew lf b1.root).items 0).key b1.root (b1.filesize + 40))),
             filesize := bC.filesize, maplen := bC.maplen, baseaddr := bC.baseaddr,
             os := bC.os }, ?_, ?_⟩
  · have hbs : ∀ (x : BPTREE) (a : Nat) (n : BTNODE), (x.storeNode a n).baseaddr = x.baseaddr :=
      fun _ _ _ => rfl
    have okb : ∀ (x : Int × BPTREE) (f : Int × BPTREE → Except Fault (Int × BPTREE)),
        (Except.ok x >>= f) = f x := fun _ _ => rfl
    unfold BptInsert
    simp only [hrun]
    rw [okb]
    simp only [c1, ← hbA, hbs, c9, ne_eq, not_true_eq_false, if_false]
    simp only [bind, Except.bind, pure, Except.pure, hlA, ← hbB,
      hBroot, hlB, hw, if_true, hrunC, hlC1, hlC2, loadNode_storeNode, hf0, if_false,
      root_storeNode, hCroot, BT_OVERFLOW_ne_zero]
    rfl
  · have hm : ∀ o, memLoad (memStore (memStore bC.mem b1.filesize (.node
               { nitems := 1, keys := wr zeroNode.keys 0 (rd (lsNew lf b1.root).items 0).key,
                 choffs := zeroNode.choffs })) b1.filesize
               (.node (rootNode (rd (lsNew lf b1.root).items 0).key b1.root (b1.filesize + 40)))) o =
        if o = b1.filesize then
          some (.node (rootNode (rd (lsNew lf b1.root).items 0).key b1.root (b1.filesize + 40)))
        else if o = b1.root then some (.leaf (lsOld lf (b1.filesize + 40)))
        else if o = b1.filesize + 40 then some (.leaf (lsNew lf b1.root))
        else memLoad b1.mem o := by
      intro o
      simp only [memLoad_memStore, hCmem, hBmem]
      split_ifs <;> first | rfl | omega
    refine ⟨hm, rfl, ?_, ?_, ?_, rfl, ?_, ?_⟩
    · show (bC.header.depth + 1) % 256 = _
      rw [hCdepth, hbB]; show (bA.header.depth + 1) % 256 = _; rw [c5]
    · show bC.filesize = _
      rw [hCfs, hBfs]
    · show bC.header.nitems = _
      rw [hCnit, hbB]; show bA.header.nitems = _; rw [c6]
    · show bC.os = _
      rw [hCos, hBos, hos]
    · show bC.baseaddr = _
      rw [hCbase, hBbase]

theorem BptInsert_split_node (b : BPTREE) (key : KEYTYPE) (value : VALTYPE) (b1 : BPTREE)
    (ndc : BTNODE)
    (hrun : _BptInsertWorker b.filesize { b with header := { b.header with dirty := 1 } }
      b.root key value = .ok (BT_OVERFLOW, b1))
    (h0 : b1.root ≠ 0) (hlt : b1.root < b1.filesize)
    (hl : memLoad b1.mem b1.root = some (.node ndc)) (hn : ndc.nitems = 4)
    (hos : b1.os = []) (h32 : b1.filesize + 80 < 4294967296) :
    ∃ b3, BptInsert b key value = .ok (1, b3) ∧
      (∀ o, memLoad b3.mem o =
        if o = b1.filesize then
          some (.node (rootNode (rd (nsOld ndc).keys 1) b1.root (b1.filesize + 40)))
        else if o = b1.root then some (.node (nsOld ndc))
        else if o = b1.filesize + 40 then some (.node (nsNew ndc))
        else memLoad b1.mem o) ∧
      b3.root = b1.filesize ∧ b3.header.depth = (b1.header.depth + 1) % 256 ∧
      b3.filesize = b1.filesize + 80 ∧ b3.header.nitems = b1.header.nitems ∧
      b3.header.rootoff = b1.filesize ∧ b3.os = b1.os ∧ b3.baseaddr = b1.baseaddr := by
  have hfs : 0 < b1.filesize := by omega
  have hf0 : b1.filesize ≠ 0 := by omega
  have hne : b1.root ≠ b1.filesize := by omega
  obtain ⟨c1, c2, c3, c4, c5, c6, -, c8, c9⟩ := createNode_spec b1 hfs hos (by omega)
  obtain ⟨bA, hbA⟩ : ∃ x, x = (_BptCreateNode b1).2 := ⟨_, rfl⟩
  rw [← hbA] at c2 c3 c4 c5 c6 c8 c9
  have hlA : bA.loadNode b1.filesize = .ok zeroNode :=
    loadNode_of hf0 (by rw [c2, memLoad_memStore]; simp)
  obtain ⟨bB, hbB⟩ : ∃ x, x = bA.storeNode b1.filesize { zeroNode with nitems := 1 } := ⟨_, rfl⟩
  have hBroot : bB.root = b1.root := by rw [hbB]; exact c4
  have hBfs : bB.filesize = b1.filesize + 40 := by rw [hbB]; exact c3
  have hBos : bB.os = [] := by rw [hbB]; exact c8.trans hos
  have hBbase : bB.baseaddr = b1.baseaddr := by rw [hbB]; exact c9
  have hBmem : ∀ o, memLoad bB.mem o =
      if o = b1.filesize then some (.node { zeroNode with nitems := 1 }) else memLoad b1.mem o := by
    intro o
    rw [hbB, mem_storeNode, memLoad_memStore, c2, memLoad_memStore]
    split_ifs <;> rfl
  have hlB : bB.load b1.root = .ok (.node ndc) := load_of h0 (by rw [hBmem]; simp [hne, hl])
  obtain ⟨bC, hrunC, hCmem, hCfs, hCroot, hCdepth, hCnit, -, hCos, hCbase⟩ :=
    splitNode_spec bB b1.root ndc h0 (by rw [hBmem]; simp [hne, hl]) (by omega) hBos (by omega)
  clear h32
  rw [hBfs] at hrunC hCmem
  have hlC1 : bC.loadNode b1.root = .ok (nsOld ndc) :=
    loadNode_of h0 (by rw [hCmem]; simp)
  have hlC2 : bC.loadNode b1.filesize = .ok { zeroNode with nitems := 1 } :=
    loadNode_of hf0 (by rw [hCmem, hBmem]; simp [Ne.symm hne])
  have hw : isLeafWord (BTOBJ.node ndc).word0 = false :=
    isLeafWord_node (by show ndc.nitems ≤ 5; omega)
  refine ⟨{ root := b1.filesize,
             header := { bC.header with rootoff := b1.filesize,
                                        depth := (bC.header.depth + 1) % 256,
                                        dirty := 0 },
             mem := memStore (memStore bC.mem b1.filesize (.node
               { nitems := 1, keys := wr zeroNode.keys 0 (rd (nsOld ndc).keys 1),
                 choffs := zeroNode.choffs })) b1.filesize
               (.node (rootNode (rd (nsOld ndc).keys 1) b1.root (b1.filesize + 40))),
             filesize := bC.filesize, maplen := bC.maplen, baseaddr := bC.baseaddr,
             os := bC.os }, ?_, ?_⟩
  · have hbs : ∀ (x : BPTREE) (a : Nat) (n : BTNODE), (x.storeNode a n).baseaddr = x.baseaddr :=
      fun _ _ _ => rfl
    have okb : ∀ (x : Int × BPTREE) (f : Int × BPTREE → Except Fault (Int × BPTREE)),
        (Except.ok x >>= f) = f x := fun _ _ => rfl
    unfold BptInsert
    simp only [hrun]
    rw [okb]
    simp only [c1, ← hbA, hbs, c9, ne_eq, not_true_eq_false, if_false]
    simp only [bind, Except.bind, pure, Except.pure, hlA, ← hbB,
      hBroot, hlB, hw, Bool.false_eq_true, hrunC, hlC1, hlC2, loadNode_storeNode, hf0, if_false,
      root_storeNode, hCroot, BT_OVERFLOW_ne_zero]
    rfl
  · have hm : ∀ o, memLoad (memStore (memStore bC.mem b1.filesize (.node
               { nitems := 1, keys := wr zeroNode.keys 0 (rd (nsOld ndc).keys 1),
                 choffs := zeroNode.choffs })) b1.filesize
               (.node (rootNode (rd (nsOld ndc).keys 1) b1.root (b1.filesize + 40)))) o =
        if o = b1.filesize then
          some (.node (rootNode (rd (nsOld ndc).keys 1) b1.root (b1.filesize + 40)))
        else if o = b1.root then some (.node (nsOld ndc))
        else if o = b1.filesize + 40 then some (.node (nsNew ndc))
        else memLoad b1.mem o := by
      intro o
      simp only [memLoad_memStore, hCmem, hBmem]
      split_ifs <;> first | rfl | omega
    refine ⟨hm, rfl, ?_, ?_, ?_, rfl, ?_, ?_⟩
    · show (bC.header.depth + 1) % 256 = _
      rw [hCdepth, hbB]; show (bA.header.depth + 1) % 256 = _; rw [c5]
    · show bC.filesize = _
      rw [hCfs, hBfs]
    · show bC.header.nitems = _
      rw [hCnit, hbB]; show bA.header.nitems = _; rw [c6]
    · show bC.os = _
      rw [hCos, hBos, hos]
    · show bC.baseaddr = _
      rw [hCbase, hBbase]

theorem rootNode_spec (k : KEYTYPE) (c0 c1 : Nat) :
    NodeShape (rootNode k c0 c1) ∧ (rootNode k c0 c1).nitems = 1 ∧
    (rootNode k c0 c1).liveChoffs = [c0, c1] ∧ (rootNode k c0 c1).liveKeys = [k] := by
  simp [rootNode, zeroNode, wr, NodeShape, BTNODE.liveChoffs, BTNODE.liveKeys, BT_NBRANCHES_eq,
    List.replicate]

/-- Tree level: the new root over a split leaf root. -/
theorem rootSplit_leaf (m m3 : List (Nat × BTOBJ)) (root R : Nat) (lf : BTLEAF)
    (h0 : root ≠ 0) (hlt : root < R) (hl : memLoad m root = some (.leaf lf))
    (hsh : LeafShape lf 5)
    (hm : ∀ o, memLoad m3 o =
      if o = R then some (.node (rootNode (rd (lsNew lf root).items 0).key root (R + 40)))
      else if o = root then some (.leaf (lsOld lf (R + 40)))
      else if o = R + 40 then some (.leaf (lsNew lf root))
      else memLoad m o) :
    SubOK m3 false 1 R ∧ subItems m3 1 R = subItems m 0 root ∧
    (∀ k ∈ subKeys m3 1 R, ∃ y ∈ subItems m 0 root, y.key = k) ∧
    (∀ o ∈ subFp m3 1 R, o < R + 92) := by
  obtain ⟨hso, hsn, hlive, l, hl0⟩ := leafSplit_objs lf root (R + 40) hsh
  obtain ⟨hrs, hrn, hrc, hrk⟩ := rootNode_spec (rd (lsNew lf root).items 0).key root (R + 40)
  have hR : memLoad m3 R = some (.node (rootNode (rd (lsNew lf root).items 0).key root (R + 40))) := by
    rw [hm]; simp
  have hroot : memLoad m3 root = some (.leaf (lsOld lf (R + 40))) := by
    rw [hm]; simp; omega
  have hS : memLoad m3 (R + 40) = some (.leaf (lsNew lf root)) := by
    rw [hm]; simp; omega
  have hfp : subFp m3 1 R = R ::ₘ ((([root, R + 40] : List Nat)) : Multiset Nat) := by
    rw [subFp_one hR, hrc]
  refine ⟨?_, ?_, ?_, ?_⟩
  · refine subOK_node_intro (by omega) hR hrs (by omega) (by omega) ?_ ?_
    · rw [hrc]
      intro g hg
      simp only [List.mem_cons, List.mem_singleton, List.not_mem_nil, or_false] at hg
      rcases hg with rfl | rfl
      · exact subOK_leaf_intro h0 hroot hso (by omega) (by omega)
      · exact subOK_leaf_intro (by omega) hS hsn (by omega) (by omega)
    · rw [← subFp_node 0 hR, hfp]
      simp; omega
  · rw [subItems_node 0 hR, hrc, subItems_leaf hl]
    simp only [List.map_cons, List.map_nil, List.flatten_cons, List.flatten_nil, List.append_nil,
      subItems_leaf hroot, subItems_leaf hS]
    exact hlive
  · intro k hk
    rw [subKeys_one hR, hrk, List.mem_singleton] at hk
    refine ⟨rd (lsNew lf root).items 0, ?_, hk.symm⟩
    rw [subItems_leaf hl, ← hlive, hl0]
    simp
  · intro o ho
    rw [hfp] at ho
    simp at ho
    omega

/-- Tree level: the new root over a split node root. -/
theorem rootSplit_node (h : Nat) (m m3 : List (Nat × BTOBJ)) (root R : Nat) (ndc : BTNODE)
    (hlt : ∀ o ∈ subFp m (h + 1) root, o < R)
    (hok : SubOK m true (h + 1) root) (hl : memLoad m root = some (.node ndc))
    (hm : ∀ o, memLoad m3 o =
      if o = R then some (.node (rootNode (rd (nsOld ndc).keys 1) root (R + 40)))
      else if o = root then some (.node (nsOld ndc))
      else if o = R + 40 then some (.node (nsNew ndc))
      else memLoad m o) :
    SubOK m3 false (h + 1 + 1) R ∧ subItems m3 (h + 1 + 1) R = subItems m (h + 1) root ∧
    (∀ k ∈ subKeys m3 (h + 1 + 1) R, k ∈ subKeys m (h + 1) root) ∧
    (∀ o ∈ subFp m3 (h + 1 + 1) R, o < R + 80) := by
  obtain ⟨h0, ndc1, hl1, hcsh, hnc, hcch, hnd⟩ := subOK_node_elim hok
  rw [hl] at hl1
  cases hl1
  simp only [if_true] at hnc
  obtain ⟨hso, hno, hsn, hnn, hccs, hcks⟩ := nodeSplit_objs ndc hcsh hnc
  obtain ⟨hrs, hrn, hrc, hrk⟩ := rootNode_spec (rd (nsOld ndc).keys 1) root (R + 40)
  obtain ⟨Co, hCo⟩ : ∃ l, (nsOld ndc).liveChoffs = l := ⟨_, rfl⟩
  obtain ⟨Ko, hKo⟩ : ∃ l, (nsOld ndc).liveKeys = l := ⟨_, rfl⟩
  obtain ⟨Cn, hCn⟩ : ∃ l, (nsNew ndc).liveChoffs = l := ⟨_, rfl⟩
  obtain ⟨Kn, hKn⟩ : ∃ l, (nsNew ndc).liveKeys = l := ⟨_, rfl⟩
  rw [hCo, hCn] at hccs
  rw [hKo, hKn] at hcks
  have hrootlt : root < R := hlt root (self_mem_subFp _ _ _)
  have hR : memLoad m3 R = some (.node (rootNode (rd (nsOld ndc).keys 1) root (R + 40))) := by
    rw [hm]; simp
  have hroot : memLoad m3 root = some (.node (nsOld ndc)) := by
    rw [hm]; simp; omega
  have hS : memLoad m3 (R + 40) = some (.node (nsNew ndc)) := by
    rw [hm]; simp; omega
  have hfc := subFp_node h hl
  have hUc : ∀ g ∈ ndc.liveChoffs, ∀ o ∈ subFp m h g, memLoad m3 o = memLoad m o := by
    intro g hg o ho
    have hin := mem_fp_of_child hl hg ho
    have h1 := hlt o hin
    have h2 : o ≠ root := by
      intro e
      have hnd' := hnd
      rw [hfc, Multiset.nodup_cons] at hnd'
      exact hnd'.1 ((mem_sum_map _ _ _).2 ⟨g, hg, e ▸ ho⟩)
    rw [hm, if_neg (by omega), if_neg h2, if_neg (by omega)]
  have hsubO : ∀ g ∈ Co, g ∈ ndc.liveChoffs := fun g hg => by rw [hccs]; simp [hg]
  have hsubN : ∀ g ∈ Cn, g ∈ ndc.liveChoffs := fun g hg => by rw [hccs]; simp [hg]
  have hfp3 : subFp m3 (h + 1 + 1) R =
      R ::ₘ (R + 40) ::ₘ subFp m (h + 1) root := by
    rw [subFp_node (h + 1) hR, hrc]
    simp only [List.map_cons, List.map_nil, List.sum_cons, List.sum_nil, add_zero]
    rw [subFp_node h hroot, subFp_node h hS, hfc, hCo, hCn,
      List.map_congr_left (fun g hg => subFp_frame m m3 h g (hUc g (hsubO g hg))),
      List.map_congr_left (fun g hg => subFp_frame m m3 h g (hUc g (hsubN g hg))),
      hccs, List.map_append, List.sum_append]
    simp only [Multiset.cons_add, Multiset.add_cons]
  have hndRS : (subFp m3 (h + 1) root + subFp m3 (h + 1) (R + 40)).Nodup := by
    rw [subFp_node h hroot, subFp_node h hS, hCo, hCn,
      List.map_congr_left (fun g hg => subFp_frame m m3 h g (hUc g (hsubO g hg))),
      List.map_congr_left (fun g hg => subFp_frame m m3 h g (hUc g (hsubN g hg)))]
    have e : root ::ₘ (Co.map (subFp m h)).sum + (R + 40) ::ₘ (Cn.map (subFp m h)).sum =
        (R + 40) ::ₘ subFp m (h + 1) root := by
      rw [hfc, hccs, List.map_append, List.sum_append]
      simp only [Multiset.cons_add, Multiset.add_cons]
    rw [e, Multiset.nodup_cons]
    refine ⟨fun hin => ?_, hnd⟩
    have := hlt _ hin
    omega
  refine ⟨?_, ?_, ?_, ?_⟩
  · refine subOK_node_intro (by omega) hR hrs (by omega) (by omega) ?_ ?_
    · rw [hrc]
      intro g hg
      simp only [List.mem_cons, List.mem_singleton, List.not_mem_nil, or_false] at hg
      rcases hg with rfl | rfl
      · refine subOK_node_intro h0 hroot hso (by omega) (by omega) ?_ ?_
        · rw [hCo]
          intro g hg
          exact SubOK_frame m m3 h false g (hUc g (hsubO g hg)) (hcch g (hsubO g hg))
        · rw [← subFp_node h hroot]; exact (Multiset.nodup_add.1 hndRS).1
      · refine subOK_node_intro (by omega) hS hsn (by omega) (by omega) ?_ ?_
        · rw [hCn]
          intro g hg
          exact SubOK_frame m m3 h false g (hUc g (hsubN g hg)) (hcch g (hsubN g hg))
        · rw [← subFp_node h hS]; exact (Multiset.nodup_add.1 hndRS).2.1
    · rw [← subFp_node (h + 1) hR, hfp3, Multiset.nodup_cons, Multiset.nodup_cons]
      refine ⟨?_, ?_, hnd⟩
      · simp only [Multiset.mem_cons, not_or]
        refine ⟨by omega, fun hin => ?_⟩
        have := hlt _ hin
        omega
      · intro hin
        have := hlt _ hin
        omega
  · rw [subItems_node (h + 1) hR, hrc]
    simp only [List.map_cons, List.map_nil, List.flatten_cons, List.flatten_nil, List.append_nil]
    rw [subItems_node h hroot, subItems_node h hS, subItems_node h hl, hCo, hCn,
      List.map_congr_left (fun g hg => subItems_frame m m3 h g (hUc g (hsubO g hg))),
      List.map_congr_left (fun g hg => subItems_frame m m3 h g (hUc g (hsubN g hg))),
      hccs, List.map_append, List.flatten_append]
  · intro k hk
    rw [subKeys_node (h + 1) hR, hrc, hrk] at hk
    simp only [List.map_cons, List.map_nil, List.flatten_cons, List.flatten_nil,
      List.append_nil] at hk
    rw [subKeys_node h hroot, subKeys_node h hS, hCo, hCn, hKo, hKn,
      List.map_congr_left (fun g hg => subKeys_frame m m3 h g (hUc g (hsubO g hg))),
      List.map_congr_left (fun g hg => subKeys_frame m m3 h g (hUc g (hsubN g hg)))] at hk
    rw [subKeys_node h hl, hccs, hcks]
    clear * - hk
    simp only [List.mem_append, List.mem_cons, List.map_append, List.flatten_append,
      List.mem_singleton, List.not_mem_nil, or_false] at hk ⊢
    tauto
  · intro o ho
    rw [hfp3] at ho
    simp only [Multiset.mem_cons] at ho
    rcases ho with rfl | rfl | ho
    · omega
    · omega
    · have := hlt o ho
      omega

/-- `BptInsert` on a well-formed non-empty tree, when the operating system maps the
file again in place at every resize and the counters stay within their width: it
returns 1, the tree stays well formed, and the in-order traversal gains the new pair
in place. -/
theorem BptInsert_spec (b : BPTREE) (key : KEYTYPE) (value : VALTYPE) (hinv : TreeOK b)
    (hos : b.os = []) (h32 : b.filesize + 52 * b.header.depth + 92 < 4294967296)
    (hnit : b.header.nitems + 1 < 4294967296) (hdep : b.header.depth < 255) :
    ∃ b2, BptInsert b key value = .ok (1, b2) ∧ TreeOK b2 ∧
      (∃ l1 l2, inorder b = l1 ++ l2 ∧ inorder b2 = l1 ++ ⟨key, value⟩ :: l2 ∧
        (l1 = [] → ∃ y l, l2 = y :: l ∧ key < y.key) ∧
        (l2 = [] → ∃ y l, l1 = l ++ [y] ∧ y.key ≤ key) ∧
        ((∀ k ∈ nodeKeys b, key < k) → (∀ y ∈ l1 ++ l2, key < y.key) → l1 = []) ∧
        ((∀ k ∈ nodeKeys b, k ≤ key) → (∀ y ∈ l1 ++ l2, y.key ≤ key) → l2 = [])) ∧
      (∀ k ∈ nodeKeys b2, k ∈ nodeKeys b ∨ ∃ y ∈ inorder b2, y.key = k) ∧
      (b2.os = [] ∧ b2.baseaddr = b.baseaddr ∧ b2.header.nitems = b.header.nitems + 1 ∧
        b2.filesize ≤ b.filesize + 52 * b.header.depth + 92 ∧
        (b.header.rootoff = b.root → b2.header.rootoff = b2.root)) := by
  obtain ⟨res, b1, hrun, hw⟩ := worker_spec key value b.header.depth b.filesize
    { b with header := { b.header with dirty := 1 } } b.root hinv.depth_lt hinv.ok hinv.fp_lt
    hos (by show b.filesize + 52 * b.header.depth < 4294967296; omega)
  have hos1 : b1.os = [] := hw.os_eq.trans hos
  have hbase1 : b1.baseaddr = b.baseaddr := hw.base_eq
  have hbd1 : b1.filesize ≤ b.filesize + 52 * b.header.depth := hw.fs_bd
  have h32a : b1.filesize + 92 < 4294967296 := by omega
  have hroot1 : b1.root = b.root := hw.root_eq
  have hdepth1 : b1.header.depth = b.header.depth := hw.depth_eq
  have hnit1 : b1.header.nitems = b.header.nitems + 1 :=
    hw.nitems_eq.trans (Nat.mod_eq_of_lt hnit)
  clear h32 hnit
  have hfs1 : b.filesize ≤ b1.filesize := hw.fs_le
  have hfplt1 : ∀ o ∈ subFp b1.mem b.header.depth b.root, o < b1.filesize := hw.fp_lt
  have hitems1 : ∃ l1 l2, subItems b.mem b.header.depth b.root = l1 ++ l2 ∧
      subItems b1.mem b.header.depth b.root = l1 ++ ⟨key, value⟩ :: l2 ∧
      (l1 = [] → ∃ y l, l2 = y :: l ∧ key < y.key) ∧
      (l2 = [] → ∃ y l, l1 = l ++ [y] ∧ y.key ≤ key) ∧
      ((∀ k ∈ subKeys b.mem b.header.depth b.root, key < k) →
        (∀ y ∈ l1 ++ l2, key < y.key) → l1 = []) ∧
      ((∀ k ∈ subKeys b.mem b.header.depth b.root, k ≤ key) →
        (∀ y ∈ l1 ++ l2, y.key ≤ key) → l2 = []) := hw.items
  have hkeys1 : ∀ k ∈ subKeys b1.mem b.header.depth b.root,
      k ∈ subKeys b.mem b.header.depth b.root ∨
      ∃ y ∈ subItems b1.mem b.header.depth b.root, y.key = k := hw.keys
  have hok1 : SubOK b1.mem (decide (res = BT_OVERFLOW)) b.header.depth b.root := hw.ok
  have hfin : ∀ b2 : BPTREE, TreeOK b2 →
      (b2.os = [] ∧ b2.baseaddr = b.baseaddr ∧ b2.header.nitems = b.header.nitems + 1 ∧
        b2.filesize ≤ b.filesize + 52 * b.header.depth + 92 ∧
        (b.header.rootoff = b.root → b2.header.rootoff = b2.root)) →
      inorder b2 = subItems b1.mem b.header.depth b.root →
      (∀ k ∈ nodeKeys b2, k ∈ subKeys b1.mem b.header.depth b.root ∨
        ∃ y ∈ subItems b1.mem b.header.depth b.root, y.key = k) →
      TreeOK b2 ∧
      (∃ l1 l2, inorder b = l1 ++ l2 ∧ inorder b2 = l1 ++ ⟨key, value⟩ :: l2 ∧
        (l1 = [] → ∃ y l, l2 = y :: l ∧ key < y.key) ∧
        (l2 = [] → ∃ y l, l1 = l ++ [y] ∧ y.key ≤ key) ∧
        ((∀ k ∈ nodeKeys b, key < k) → (∀ y ∈ l1 ++ l2, key < y.key) → l1 = []) ∧
        ((∀ k ∈ nodeKeys b, k ≤ key) → (∀ y ∈ l1 ++ l2, y.key ≤ key) → l2 = [])) ∧
      (∀ k ∈ nodeKeys b2, k ∈ nodeKeys b ∨ ∃ y ∈ inorder b2, y.key = k) ∧
      (b2.os = [] ∧ b2.baseaddr = b.baseaddr ∧ b2.header.nitems = b.header.nitems + 1 ∧
        b2.filesize ≤ b.filesize + 52 * b.header.depth + 92 ∧
        (b.header.rootoff = b.root → b2.header.rootoff = b2.root)) := by
    intro b2 hT hA hI hK
    refine ⟨hT, ?_, ?_, hA⟩
    · rw [hI]; exact hitems1
    · intro k hk
      rw [hI]
      rcases hK k hk with h1 | h1
      · exact hkeys1 k h1
      · exact Or.inr h1
  rcases hw.res_eq with hres | hres
  · subst hres
    have hok1f : SubOK b1.mem false b.header.depth b.root := by simpa using hok1
    refine ⟨{ b1 with header := { b1.header with dirty := 0 } }, ?_, ?_⟩
    · unfold BptInsert
      simp only [hrun]
      rfl
    · apply hfin
      · constructor
        · show SubOK b1.mem false b1.header.depth b1.root
          rw [hdepth1, hroot1]; exact hok1f
        · show ∀ o ∈ subFp b1.mem b1.header.depth b1.root, o < b1.filesize
          rw [hdepth1, hroot1]; exact hfplt1
        · show b1.header.depth < b1.filesize
          rw [hdepth1]; exact Nat.lt_of_lt_of_le hinv.depth_lt hfs1
        · show b1.header.nitems ≠ 0
          omega
      · refine ⟨hos1, hbase1, hnit1, by show b1.filesize ≤ _; omega, ?_⟩
        intro hro
        show b1.header.rootoff = b1.root
        rw [hw.rootoff_eq, hroot1]
        exact hro
      · show subItems b1.mem b1.header.depth b1.root = _
        rw [hdepth1, hroot1]
      · intro k hk
        left
        have : k ∈ subKeys b1.mem b1.header.depth b1.root := hk
        rw [hdepth1, hroot1] at this
        exact this
  · subst hres
    have hok1t : SubOK b1.mem true b.header.depth b.root := by simpa using hok1
    have hr0 : b1.root ≠ 0 := by rw [hroot1]; exact subOK_ne_zero hok1t
    have hrlt : b1.root < b1.filesize := by
      rw [hroot1]; exact hfplt1 _ (self_mem_subFp _ _ _)
    have hdlt := hinv.depth_lt
    obtain ⟨d, hd⟩ : ∃ d, b.header.depth = d := ⟨_, rfl⟩
    rw [hd] at hok1t hfplt1 hfin hdepth1 hdlt hbd1 hdep ⊢
    rw [← hroot1] at hok1t hfplt1 hfin ⊢
    cases d with
    | zero =>
      obtain ⟨-, lf, n, hl, hsh, hn5⟩ := subOK_leaf_iff.1 hok1t
      simp only [if_true] at hn5
      subst hn5
      obtain ⟨b3, hrun3, hm3, hroot3, hdepth3, hfs3, hnit3, hro3, hos3, hbase3⟩ :=
        BptInsert_split_leaf b key value b1 lf hrun hr0 hrlt hl hsh hos1 h32a
      rw [Nat.mod_eq_of_lt (by omega)] at hdepth3
      clear h32a
      obtain ⟨t1, t2, t3, t4⟩ := rootSplit_leaf b1.mem b3.mem b1.root b1.filesize lf hr0 hrlt hl
        hsh hm3
      refine ⟨b3, hrun3, ?_⟩
      apply hfin
      · constructor
        · rw [hdepth3, hroot3, hdepth1]; exact t1
        · rw [hdepth3, hroot3, hdepth1, hfs3]; exact t4
        · rw [hdepth3, hfs3, hdepth1]; omega
        · rw [hnit3]; omega
      · exact ⟨hos3.trans hos1, hbase3.trans hbase1, hnit3.trans hnit1, by rw [hfs3]; omega,
          fun _ => hro3.trans hroot3.symm⟩
      · show subItems b3.mem b3.header.depth b3.root = _
        rw [hdepth3, hroot3, hdepth1]; exact t2
      · intro k hk
        right
        have : k ∈ subKeys b3.mem b3.header.depth b3.root := hk
        rw [hdepth3, hroot3, hdepth1] at this
        exact t3 k this
    | succ h =>
      obtain ⟨-, ndc, hl, -, hn4, -, -⟩ := subOK_node_elim hok1t
      simp only [if_true] at hn4
      obtain ⟨b3, hrun3, hm3, hroot3, hdepth3, hfs3, hnit3, hro3, hos3, hbase3⟩ :=
        BptInsert_split_node b key value b1 ndc hrun hr0 hrlt hl hn4 hos1 (by omega)
      rw [Nat.mod_eq_of_lt (by omega)] at hdepth3
      clear h32a
      obtain ⟨t1, t2, t3, t4⟩ := rootSplit_node h b1.mem b3.mem b1.root b1.filesize ndc hfplt1
        hok1t hl hm3
      refine ⟨b3, hrun3, ?_⟩
      apply hfin
      · constructor
        · rw [hdepth3, hroot3, hdepth1]; exact t1
        · rw [hdepth3, hroot3, hdepth1, hfs3]; exact t4
        · rw [hdepth3, hfs3, hdepth1]; omega
        · rw [hnit3]; omega
      · exact ⟨hos3.trans hos1, hbase3.trans hbase1, hnit3.trans hnit1, by rw [hfs3]; omega,
          fun _ => hro3.trans hroot3.symm⟩
      · show subItems b3.mem b3.header.depth b3.root = _
        rw [hdepth3, hroot3, hdepth1]; exact t2
      · intro k hk
        left
        have : k ∈ subKeys b3.mem b3.header.depth b3.root := hk
        rw [hdepth3, hroot3, hdepth1] at this
        exact t3 k this

theorem worker_leaf_run (key : KEYTYPE) (value : VALTYPE) (fuel : Nat) (b : BPTREE) (off : Nat)
    (lf : BTLEAF) (n : Nat) (h0 : off ≠ 0) (hld : memLoad b.mem off = some (.leaf lf))
    (hsh : LeafShape lf n) (hn4 : n ≤ 4) :
    _BptInsertWorker (fuel + 1) b off key value =
      .ok (if n + 1 = 5 then BT_OVERFLOW else 1,
        { (b.storeLeaf off (leafPut lf key value)) with
          header := { b.header with nitems := (b.header.nitems + 1) % 4294967296 } }) := by
  obtain ⟨hsh1, -, -, -⟩ := leafPut_spec lf n key value hsh hn4
  have hcnt1 : BTNITEMS (leafPut lf key value) = n + 1 := BTNITEMS_of_shape hsh1 (by omega)
  have hw : isLeafWord (BTOBJ.leaf lf).word0 = true := by
    simp only [BTOBJ.word0, hsh.2]; exact isLeafWord_leaf (by omega)
  simp only [_BptInsertWorker, load_of h0 hld, bind, Except.bind, hw, BTOBJ.asLeaf, hcnt1,
    if_true, pure, Except.pure, BT_NBRANCHES]
  split_ifs <;> rfl

theorem BptInsert_of_worker_one (b b1 : BPTREE) (key : KEYTYPE) (value : VALTYPE)
    (hrun : _BptInsertWorker b.filesize { b with header := { b.header with dirty := 1 } }
      b.root key value = .ok (1, b1)) :
    BptInsert b key value = .ok (1, { b1 with header := { b1.header with dirty := 0 } }) := by
  unfold BptInsert
  simp only [hrun]
  rfl

/-- The first insertion into a new database. -/
theorem BptInsert_first (k : KEYTYPE) (v : VALTYPE) :
    ∃ b1, BptInsert _BptInitNewDB k v = .ok (1, b1) ∧ TreeOK b1 ∧ inorder b1 = [⟨k, v⟩] ∧
      nodeKeys b1 = [] ∧
      (b1.os = [] ∧ b1.header.nitems = 1 ∧ b1.filesize = 80 ∧ b1.header.rootoff = b1.root) := by
  obtain ⟨lf0, hlf0⟩ : ∃ x : BTLEAF, x = { zeroLeaf with attribs := BT_LEAF } := ⟨_, rfl⟩
  have hsh0 : LeafShape lf0 0 := by rw [hlf0]; exact ⟨rfl, rfl⟩
  have hld0 : memLoad _BptInitNewDB.mem 28 = some (.leaf lf0) := by rw [hlf0]; rfl
  obtain ⟨hsh1, hlive1, -, -⟩ := leafPut_spec lf0 0 k v hsh0 (by omega)
  have hl0 : lf0.live = [] := List.length_eq_zero.1 (live_length hsh0 (by omega))
  rw [hl0] at hlive1
  simp only [List.take_nil, List.drop_nil, List.nil_append] at hlive1
  have hrun := worker_leaf_run k v 79 { _BptInitNewDB with
      header := { _BptInitNewDB.header with dirty := 1 } } 28 lf0 0 (by omega) hld0 hsh0
    (by omega)
  rw [if_neg (by omega)] at hrun
  obtain ⟨b1, hb1⟩ : ∃ x : BPTREE, x = { ({ _BptInitNewDB with
      header := { _BptInitNewDB.header with dirty := 1 } }.storeLeaf 28 (leafPut lf0 k v)) with
      header := { ({ _BptInitNewDB.header with dirty := 1 } : BTHEADER) with
        nitems := (_BptInitNewDB.header.nitems + 1) % 4294967296 } } := ⟨_, rfl⟩
  have hmem1 : memLoad b1.mem 28 = some (.leaf (leafPut lf0 k v)) := by
    rw [hb1]
    show memLoad (memStore _ 28 _) 28 = _
    rw [memLoad_memStore, if_pos rfl]
  have hroot1 : b1.root = 28 := by rw [hb1]; rfl
  have hdepth1 : b1.header.depth = 0 := by rw [hb1]; rfl
  have hfs1 : b1.filesize = 80 := by rw [hb1]; rfl
  have hnit1 : b1.header.nitems = 1 := by rw [hb1]; rfl
  have hos1 : b1.os = [] := by rw [hb1]; rfl
  have hro1 : b1.header.rootoff = b1.root := by rw [hb1]; rfl
  have hrun1 : _BptInsertWorker _BptInitNewDB.filesize { _BptInitNewDB with
      header := { _BptInitNewDB.header with dirty := 1 } } _BptInitNewDB.root k v =
      .ok (1, b1) := by rw [hb1]; exact hrun
  clear hb1 hrun
  refine ⟨{ b1 with header := { b1.header with dirty := 0 } },
    BptInsert_of_worker_one _BptInitNewDB b1 k v hrun1, ?_, ?_, ?_, hos1, hnit1, hfs1, hro1⟩
  · constructor
    · show SubOK b1.mem false b1.header.depth b1.root
      rw [hdepth1, hroot1]
      exact subOK_leaf_intro (by omega) hmem1 hsh1 (by omega) (by omega)
    · show ∀ o ∈ subFp b1.mem b1.header.depth b1.root, o < b1.filesize
      rw [hdepth1, hroot1, hfs1]
      intro o ho
      have : o = 28 := by simpa [subFp] using ho
      omega
    · show b1.header.depth < b1.filesize
      omega
    · show b1.header.nitems ≠ 0
      omega
  · show subItems b1.mem b1.header.depth b1.root = _
    rw [hdepth1, hroot1, subItems_leaf hmem1, hlive1]
  · show subKeys b1.mem b1.header.depth b1.root = _
    rw [hdepth1]
    rfl

theorem descendFirst_spec (b : BPTREE) :
    ∀ (h fuel off : Nat), h < fuel → SubOK b.mem false h off →
      ∃ L lf n, descendFirst b fuel off = .ok L ∧ L ≠ 0 ∧ memLoad b.mem L = some (.leaf lf) ∧
        LeafShape lf n ∧ 1 ≤ n ∧ n ≤ 4 ∧ ∃ rest, subItems b.mem h off = lf.live ++ rest := by
  intro h
  induction h with
  | zero =>
    intro fuel off hf hok
    obtain ⟨f, rfl⟩ : ∃ f, fuel = f + 1 := ⟨fuel - 1, by omega⟩
    obtain ⟨h0, lf, n, hl, hsh, hn⟩ := subOK_leaf_iff.1 hok
    simp only [Bool.false_eq_true, if_false] at hn
    have hw : isLeafWord (BTOBJ.leaf lf).word0 = true := by
      simp only [BTOBJ.word0, hsh.2]; exact isLeafWord_leaf (by omega)
    refine ⟨off, lf, n, ?_, h0, hl, hsh, hn.1, hn.2, [], ?_⟩
    · simp only [descendFirst, load_of h0 hl, bind, Except.bind, hw, if_true, pure, Except.pure]
    · rw [subItems_leaf hl, List.append_nil]
  | succ h ih =>
    intro fuel off hf hok
    obtain ⟨f, rfl⟩ : ∃ f, fuel = f + 1 := ⟨fuel - 1, by omega⟩
    obtain ⟨h0, nd, hl, hsh, hn, hch, -⟩ := subOK_node_elim hok
    simp only [Bool.false_eq_true, if_false] at hn
    have hw : isLeafWord (BTOBJ.node nd).word0 = false :=
      isLeafWord_node (by show nd.nitems ≤ 5; omega)
    have hlen := liveChoffs_length hsh (by omega : nd.nitems ≤ 4)
    obtain ⟨pre, c, post, hcs, hpre⟩ := split_at nd.liveChoffs 0 (by omega)
    have hpre0 : pre = [] := List.length_eq_zero.1 hpre
    subst hpre0
    have hrd : rd nd.choffs 0 = c := rd_choffs (A := []) hcs
    obtain ⟨L, lf, n, hrun, hL0, hLl, hsh1, hn1, hn4, rest, hrest⟩ :=
      ih f c (by omega) (hch c (by rw [hcs]; simp))
    refine ⟨L, lf, n, ?_, hL0, hLl, hsh1, hn1, hn4, rest ++ (post.map (subItems b.mem h)).flatten, ?_⟩
    · simp only [descendFirst, load_of h0 hl, bind, Except.bind, hw, Bool.false_eq_true, if_false,
        BTOBJ.asNode, hrd, hrun]
    · rw [subItems_node h hl, hcs]
      simp only [List.nil_append, List.map_cons, List.flatten_cons, hrest, List.append_assoc]

theorem descendLast_spec (b : BPTREE) :
    ∀ (h fuel off : Nat), h < fuel → SubOK b.mem false h off →
      ∃ L lf n, descendLast b fuel off = .ok L ∧ L ≠ 0 ∧ memLoad b.mem L = some (.leaf lf) ∧
        LeafShape lf n ∧ 1 ≤ n ∧ n ≤ 4 ∧ ∃ init, subItems b.mem h off = init ++ lf.live := by
  intro h
  induction h with
  | zero =>
    intro fuel off hf hok
    obtain ⟨f, rfl⟩ : ∃ f, fuel = f + 1 := ⟨fuel - 1, by omega⟩
    obtain ⟨h0, lf, n, hl, hsh, hn⟩ := subOK_leaf_iff.1 hok
    simp only [Bool.false_eq_true, if_false] at hn
    have hw : isLeafWord (BTOBJ.leaf lf).word0 = true := by
      simp only [BTOBJ.word0, hsh.2]; exact isLeafWord_leaf (by omega)
    refine ⟨off, lf, n, ?_, h0, hl, hsh, hn.1, hn.2, [], ?_⟩
    · simp only [descendLast, load_of h0 hl, bind, Except.bind, hw, if_true, pure, Except.pure]
    · rw [subItems_leaf hl, List.nil_append]
  | succ h ih =>
    intro fuel off hf hok
    obtain ⟨f, rfl⟩ : ∃ f, fuel = f + 1 := ⟨fuel - 1, by omega⟩
    obtain ⟨h0, nd, hl, hsh, hn, hch, -⟩ := subOK_node_elim hok
    simp only [Bool.false_eq_true, if_false] at hn
    have hw : isLeafWord (BTOBJ.node nd).word0 = false :=
      isLeafWord_node (by show nd.nitems ≤ 5; omega)
    have hlen := liveChoffs_length hsh (by omega : nd.nitems ≤ 4)
    obtain ⟨pre, c, post, hcs, hpre⟩ := split_at nd.liveChoffs nd.nitems (by omega)
    have hpost0 : post = [] := by
      rw [hcs, List.length_append, List.length_cons] at hlen
      exact List.length_eq_zero.1 (by omega)
    subst hpost0
    have hrd : rd nd.choffs nd.nitems = c := by rw [← hpre]; exact rd_choffs hcs
    obtain ⟨L, lf, n, hrun, hL0, hLl, hsh1, hn1, hn4, init, hinit⟩ :=
      ih f c (by omega) (hch c (by rw [hcs]; simp))
    refine ⟨L, lf, n, ?_, hL0, hLl, hsh1, hn1, hn4, (pre.map (subItems b.mem h)).flatten ++ init, ?_⟩
    · simp only [descendLast, load_of h0 hl, bind, Except.bind, hw, Bool.false_eq_true, if_false,
        BTOBJ.asNode, hrd, hrun]
    · rw [subItems_node h hl, hcs]
      simp only [List.map_append, List.map_cons, List.map_nil, List.flatten_append,
        List.flatten_cons, List.flatten_nil, List.append_nil, hinit, List.append_assoc]

theorem live_head {lf : BTLEAF} {n : Nat} (hsh : LeafShape lf n) (h1 : 1 ≤ n) (h4 : n ≤ 4) :
    ∃ l, lf.live = rd lf.items 0 :: l := by
  obtain ⟨hlen, hat⟩ := hsh
  obtain ⟨a, b, c, d, e, hit⟩ := list5 hlen
  obtain ⟨at0, it0, p0, n0⟩ := lf
  simp only at hit hat
  subst hit hat
  interval_cases n <;> simp [BTLEAF.live, BTNITEMS_mk, rd]

theorem live_last {lf : BTLEAF} {n : Nat} (hsh : LeafShape lf n) (h1 : 1 ≤ n) (h4 : n ≤ 4) :
    ∃ l, lf.live = l ++ [rd lf.items (BTNITEMS lf - 1)] := by
  obtain ⟨hlen, hat⟩ := hsh
  obtain ⟨a, b, c, d, e, hit⟩ := list5 hlen
  obtain ⟨at0, it0, p0, n0⟩ := lf
  simp only at hit hat
  subst hit hat
  interval_cases n
  · exact ⟨[], by simp [BTLEAF.live, BTNITEMS_mk, rd]⟩
  · exact ⟨[a], by simp [BTLEAF.live, BTNITEMS_mk, rd]⟩
  · exact ⟨[a, b], by simp [BTLEAF.live, BTNITEMS_mk, rd]⟩
  · exact ⟨[a, b, c], by simp [BTLEAF.live, BTNITEMS_mk, rd]⟩

/-- `BptGetMin` on a well-formed tree returns the first pair of the in-order
traversal. -/
theorem BptGetMin_spec (b : BPTREE) (hinv : TreeOK b) :
    ∃ lo rest, BptGetMin b = .ok (1, some lo) ∧ inorder b = lo :: rest := by
  obtain ⟨L, lf, n, hrun, hL0, hLl, hsh, hn1, hn4, rest, hrest⟩ :=
    descendFirst_spec b b.header.depth b.filesize b.root hinv.depth_lt hinv.ok
  obtain ⟨l, hl⟩ := live_head hsh hn1 hn4
  obtain ⟨f, hf⟩ : ∃ f, b.filesize = f + 1 := ⟨b.filesize - 1, by have := hinv.depth_lt; omega⟩
  have hcnt : BTNITEMS lf = n := BTNITEMS_of_shape hsh (by omega)
  refine ⟨rd lf.items 0, l ++ rest, ?_, ?_⟩
  · simp only [BptGetMin, hinv.nitems_pos, if_false, hrun, bind, Except.bind, pure, Except.pure]
    rw [hf]
    simp only [skipEmptyNext, loadLeaf_of hL0 hLl, bind, Except.bind, hcnt, pure, Except.pure]
    rw [if_neg (by omega)]
    simp only [loadLeaf_of hL0 hLl]
  · show subItems b.mem b.header.depth b.root = _
    rw [hrest, hl]; rfl

/-- `BptGetMax` on a well-formed tree returns the last pair of the in-order
traversal. -/
theorem BptGetMax_spec (b : BPTREE) (hinv : TreeOK b) :
    ∃ hi init, BptGetMax b = .ok (1, some hi) ∧ inorder b = init ++ [hi] := by
  obtain ⟨L, lf, n, hrun, hL0, hLl, hsh, hn1, hn4, init, hinit⟩ :=
    descendLast_spec b b.header.depth b.filesize b.root hinv.depth_lt hinv.ok
  obtain ⟨l, hl⟩ := live_last hsh hn1 hn4
  obtain ⟨f, hf⟩ : ∃ f, b.filesize = f + 1 := ⟨b.filesize - 1, by have := hinv.depth_lt; omega⟩
  have hcnt : BTNITEMS lf = n := BTNITEMS_of_shape hsh (by omega)
  refine ⟨rd lf.items (BTNITEMS lf - 1), init ++ l, ?_, ?_⟩
  · simp only [BptGetMax, hinv.nitems_pos, if_false, hrun, bind, Except.bind, pure, Except.pure]
    rw [hf]
    simp only [skipEmptyPrev, loadLeaf_of hL0 hLl, bind, Except.bind, hcnt, pure, Except.pure]
    rw [if_neg (by omega)]
    simp only [loadLeaf_of hL0 hLl, hcnt]
  · show subItems b.mem b.header.depth b.root = _
    rw [hinit, hl, hcnt, List.append_assoc]

theorem flatten_length_ge {α β : Type} (f : α → List β) (c : Nat) :
    ∀ l : List α, (∀ a ∈ l, c ≤ (f a).length) → l.length * c ≤ ((l.map f).flatten).length := by
  intro l
  induction l with
  | nil => intro _; simp
  | cons a l ih =>
    intro h
    have h1 := h a (List.mem_cons_self _ _)
    have h2 := ih (fun x hx => h x (List.mem_cons_of_mem _ hx))
    simp only [List.map_cons, List.flatten_cons, List.length_append, List.length_cons]
    rw [Nat.add_mul, Nat.one_mul]
    omega

/-- A well-formed subtree of height `h` holds at least `2 ^ h` items. -/
theorem subOK_pow_le {m : List (Nat × BTOBJ)} :
    ∀ (h : Nat) (ov : Bool) (off : Nat), SubOK m ov h off →
      2 ^ h ≤ (subItems m h off).length := by
  intro h
  induction h with
  | zero =>
    intro ov off hok
    have := subOK_items_ne_nil 0 ov off hok
    rw [Nat.pow_zero]
    exact List.length_pos.2 this
  | succ h ih =>
    intro ov off hok
    obtain ⟨-, nd, hl, hsh, hn, hch, -⟩ := subOK_node_elim hok
    have hn4 : 1 ≤ nd.nitems ∧ nd.nitems ≤ 4 := by
      cases ov
      · simp only [Bool.false_eq_true, if_false] at hn; omega
      · simp only [if_true] at hn; omega
    have hlen := liveChoffs_length hsh hn4.2
    rw [subItems_node h hl]
    have h1 := flatten_length_ge (subItems m h) (2 ^ h) nd.liveChoffs
      (fun c hc => ih false c (hch c hc))
    have h2 : 2 * 2 ^ h ≤ nd.liveChoffs.length * 2 ^ h :=
      Nat.mul_le_mul_right _ (by omega)
    rw [Nat.pow_succ, Nat.mul_comm]
    exact Nat.le_trans h2 h1

theorem depth_lt_of_items (d n : Nat) (h1 : 2 ^ d ≤ n) (h2 : n < 4294967296) : d < 32 := by
  by_contra hd
  have h3 : 2 ^ 32 ≤ 2 ^ d := Nat.pow_le_pow_right (by decide) (by omega)
  have h4 : (2 : Nat) ^ 32 = 4294967296 := by norm_num
  omega

/-- Bounds that the invariant gives for the next insert. -/
theorem InsertInv_bounds (b : BPTREE) (done : List (KEYTYPE × VALTYPE))
    (hinv : InsertInv b done) (hbd : 1704 * (done.length + 1) + 80 < 4294967296) :
    b.filesize + 52 * b.header.depth + 92 < 4294967296 ∧
    b.header.nitems + 1 < 4294967296 ∧ b.header.depth < 255 := by
  have hlen : (inorder b).length = done.length := by
    rw [hinv.perm.length_eq, List.length_map]
  have hdep : b.header.depth < 32 :=
    depth_lt_of_items _ _ (hlen ▸ subOK_pow_le _ _ _ hinv.tree.ok) (by omega)
  have hfs0 := hinv.fs_le
  have hnit0 := hinv.nitems_eq
  refine ⟨?_, ?_, ?_⟩ <;> omega

theorem InsertInv_first (k : KEYTYPE) (v : VALTYPE) :
    ∃ b1, BptInsert _BptInitNewDB k v = .ok (1, b1) ∧ InsertInv b1 [(k, v)] := by
  obtain ⟨b1, hrun, hT, hI, hK, hos, hnit, hfs, hro⟩ := BptInsert_first k v
  refine ⟨b1, hrun, hT, ?_, ?_, ?_, ?_, hos, hnit, ?_, hro⟩
  · rw [hI]; exact List.Perm.refl _
  · refine ⟨⟨k, v⟩, [], hI, ?_⟩
    intro y hy
    rw [hI, List.mem_singleton] at hy
    rw [hy]
  · refine ⟨⟨k, v⟩, [], hI, ?_⟩
    intro y hy
    rw [hI, List.mem_singleton] at hy
    rw [hy]
  · intro k1 hk1
    rw [hK] at hk1
    exact absurd hk1 (List.not_mem_nil _)
  · rw [hfs]
    exact Nat.le_add_right _ _

theorem InsertInv_step (b : BPTREE) (done : List (KEYTYPE × VALTYPE)) (k : KEYTYPE)
    (v : VALTYPE) (hinv : InsertInv b done)
    (hbd : 1704 * (done.length + 1) + 80 < 4294967296) :
    ∃ b2, BptInsert b k v = .ok (1, b2) ∧ InsertInv b2 (done ++ [(k, v)]) := by
  have hlen : (inorder b).length = done.length := by
    rw [hinv.perm.length_eq, List.length_map]
  have hdep : b.header.depth < 32 :=
    depth_lt_of_items _ _ (hlen ▸ subOK_pow_le _ _ _ hinv.tree.ok) (by omega)
  have hfs0 := hinv.fs_le
  have hnit0 := hinv.nitems_eq
  obtain ⟨b2, hrun, hT, ⟨l1, l2, hi0, hi1, p1', p2', p1, p2⟩, hK, hos2, -, hnit2, hfs2, hro2⟩ :=
    BptInsert_spec b k v hinv.tree hinv.os_nil (by omega) (by omega) (by omega)
  have hfs3 : b2.filesize ≤ 80 + 1704 * (done ++ [(k, v)]).length := by
    rw [List.length_append, List.length_singleton]
    omega
  have hnit3 : b2.header.nitems = (done ++ [(k, v)]).length := by
    rw [List.length_append, List.length_singleton, hnit2, hnit0]
  clear hbd hfs0 hnit0 hfs2 hnit2 hdep hlen
  obtain ⟨lo, rest, hlo, hmin⟩ := hinv.first
  obtain ⟨hi, init, hhi, hmax⟩ := hinv.last
  have hkeys := hinv.keys
  have hmem2 : ∀ y, y ∈ inorder b2 ↔ y = ⟨k, v⟩ ∨ y ∈ inorder b := by
    intro y
    rw [hi1, hi0]
    simp only [List.mem_append, List.mem_cons]
    clear * -
    tauto
  refine ⟨b2, hrun, hT, ?_, ?_, ?_, ?_, hos2, hnit3, hfs3, hro2 hinv.rootoff_eq⟩
  · rw [hi1, List.map_append, List.map_cons, List.map_nil]
    refine List.Perm.trans List.perm_middle ?_
    refine List.Perm.trans ?_ (List.perm_append_singleton _ _).symm
    refine List.Perm.cons _ ?_
    rw [← hi0]
    exact hinv.perm
  · by_cases hlt : k < lo.key
    · have hl1 : l1 = [] := by
        apply p1
        · intro k1 hk1
          obtain ⟨y, hy, hyk⟩ := hkeys k1 hk1
          rw [← hyk]
          exact lt_of_lt_of_le hlt (hmin y hy)
        · intro y hy
          rw [← hi0] at hy
          exact lt_of_lt_of_le hlt (hmin y hy)
      refine ⟨⟨k, v⟩, l2, by rw [hi1, hl1]; rfl, ?_⟩
      intro y hy
      rcases (hmem2 y).1 hy with h1 | h1
      · rw [h1]
      · exact le_of_lt (lt_of_lt_of_le hlt (hmin y h1))
    · have hle : lo.key ≤ k := not_lt.1 hlt
      cases hl1 : l1 with
      | nil =>
        exfalso
        obtain ⟨y, l, hl2, hy⟩ := p1' hl1
        rw [hi0, hl1, hl2, List.nil_append] at hlo
        have hy0 : y = lo := (List.cons.inj hlo).1
        rw [hy0] at hy
        exact hlt hy
      | cons a l1r =>
        rw [hi0, hl1, List.cons_append] at hlo
        have ha : a = lo := (List.cons.inj hlo).1
        refine ⟨lo, l1r ++ ⟨k, v⟩ :: l2, by rw [hi1, hl1, ha]; rfl, ?_⟩
        intro y hy
        rcases (hmem2 y).1 hy with h1 | h1
        · rw [h1]; exact hle
        · exact hmin y h1
  · by_cases hge : hi.key ≤ k
    · have hl2 : l2 = [] := by
        apply p2
        · intro k1 hk1
          obtain ⟨y, hy, hyk⟩ := hkeys k1 hk1
          rw [← hyk]
          exact le_trans (hmax y hy) hge
        · intro y hy
          rw [← hi0] at hy
          exact le_trans (hmax y hy) hge
      refine ⟨⟨k, v⟩, l1, by rw [hi1, hl2], ?_⟩
      intro y hy
      rcases (hmem2 y).1 hy with h1 | h1
      · rw [h1]
      · exact le_trans (hmax y h1) hge
    · have hlt : k < hi.key := not_le.1 hge
      rcases eq_nil_or_snoc l2 with hl2 | ⟨l2r, a, hl2⟩
      · exfalso
        obtain ⟨y, l, hl1, hy⟩ := p2' hl2
        rw [hi0, hl2, hl1, List.append_nil] at hhi
        have hy0 : y = hi := (List.cons.inj (List.append_inj_right' hhi rfl)).1
        rw [hy0] at hy
        exact hge hy
      · rw [hi0, hl2, ← List.append_assoc] at hhi
        have ha : a = hi := (List.cons.inj (List.append_inj_right' hhi rfl)).1
        refine ⟨hi, l1 ++ ⟨k, v⟩ :: l2r, by rw [hi1, hl2, ha]; simp, ?_⟩
        intro y hy
        rcases (hmem2 y).1 hy with h1 | h1
        · rw [h1]; exact le_of_lt hlt
        · exact hmax y h1
  · intro k1 hk1
    rcases hK k1 hk1 with h1 | h1
    · obtain ⟨y, hy, hyk⟩ := hkeys k1 h1
      exact ⟨y, (hmem2 y).2 (Or.inr hy), hyk⟩
    · exact h1

theorem insertAll_cons (b b1 : BPTREE) (kv : KEYTYPE × VALTYPE)
    (rest : List (KEYTYPE × VALTYPE)) (r : Int) (h : BptInsert b kv.1 kv.2 = .ok (r, b1)) :
    insertAll b (kv :: rest) = insertAll b1 rest := by
  simp only [insertAll, h, bind, Except.bind]

theorem insertAll_inv :
    ∀ (rest : List (KEYTYPE × VALTYPE)) (b : BPTREE) (done : List (KEYTYPE × VALTYPE)),
      InsertInv b done → 1704 * (done.length + rest.length) + 80 < 4294967296 →
      ∃ b2, insertAll b rest = .ok b2 ∧ InsertInv b2 (done ++ rest) := by
  intro rest
  induction rest with
  | nil =>
    intro b done hinv _
    exact ⟨b, rfl, by rw [List.append_nil]; exact hinv⟩
  | cons kv rest ih =>
    intro b done hinv hbd
    rw [List.length_cons] at hbd
    obtain ⟨b1, hrun, hinv1⟩ := InsertInv_step b done kv.1 kv.2 hinv (by omega)
    obtain ⟨b2, hrun2, hinv2⟩ := ih b1 (done ++ [kv]) hinv1 (by
      rw [List.length_append, List.length_singleton]; omega)
    refine ⟨b2, (insertAll_cons b b1 kv rest 1 hrun).trans hrun2, ?_⟩
    rw [List.append_assoc] at hinv2
    exact hinv2

/-- Every non-empty sequence of inserts into a new database succeeds and leaves a
well-formed tree, when the operating system maps the file in place at every resize
(the `os` of `_BptInitNewDB` is empty) and the sequence is short enough for the arena
to stay below 2^32 bytes. -/
theorem insertAll_new (kvs : List (KEYTYPE × VALTYPE)) (hne : kvs ≠ [])
    (hbd : 1704 * kvs.length + 80 < 4294967296) :
    ∃ b, insertAll _BptInitNewDB kvs = .ok b ∧ InsertInv b kvs := by
  cases kvs with
  | nil => exact absurd rfl hne
  | cons kv rest =>
    rw [List.length_cons] at hbd
    obtain ⟨b1, hrun, hinv1⟩ := InsertInv_first kv.1 kv.2
    obtain ⟨b2, hrun2, hinv2⟩ := insertAll_inv rest b1 [kv] hinv1 (by
      rw [List.length_singleton]; omega)
    exact ⟨b2, (insertAll_cons _ b1 kv rest 1 hrun).trans hrun2, hinv2⟩

/-- How far C4 holds: when the operating system maps the file in place at every
resize (`os := []`), for every non-empty sequence of `BptInsert` calls on a new
database that keeps the arena below 2^32 bytes all calls succeed, `BptGetMin`
returns 1 with the first pair of the in-order traversal of the
tree and `BptGetMax` returns 1 with the last one; the traversal holds exactly the
inserted pairs, the pair of `BptGetMin` has the smallest key among them and the pair
of `BptGetMax` the largest. -/
theorem BptGetMin_BptGetMax_first_last_of_inorder (kvs : List (KEYTYPE × VALTYPE))
    (hne : kvs ≠ []) (hbd : 1704 * kvs.length + 80 < 4294967296) :
    ∃ b lo hi rest init, insertAll { _BptInitNewDB with os := [] } kvs = .ok b ∧
      BptGetMin b = .ok (1, some lo) ∧ BptGetMax b = .ok (1, some hi) ∧
      inorder b = lo :: rest ∧ inorder b = init ++ [hi] ∧
      (inorder b).Perm (kvs.map toPair) ∧
      (lo.key, lo.val) ∈ kvs ∧ (hi.key, hi.val) ∈ kvs ∧
      ∀ kv ∈ kvs, lo.key ≤ kv.1 ∧ kv.1 ≤ hi.key := by
  obtain ⟨b, hrun, hinv⟩ := insertAll_new kvs hne hbd
  obtain ⟨lo, rest, hmin, hlo⟩ := BptGetMin_spec b hinv.tree
  obtain ⟨hi, init, hmax, hhi⟩ := BptGetMax_spec b hinv.tree
  obtain ⟨lo1, rest1, hlo1, hminall⟩ := hinv.first
  obtain ⟨hi1, init1, hhi1, hmaxall⟩ := hinv.last
  have e1 : lo1 = lo := by
    rw [hlo] at hlo1
    exact (List.cons.inj hlo1).1.symm
  have e2 : hi1 = hi := by
    rw [hhi] at hhi1
    exact (List.cons.inj (List.append_inj_right' hhi1 rfl)).1.symm
  rw [e1] at hminall
  rw [e2] at hmaxall
  have hmem : ∀ y, y ∈ inorder b → (y.key, y.val) ∈ kvs := by
    intro y hy
    have h1 := (hinv.perm.mem_iff).1 hy
    obtain ⟨kv, hkv, hky⟩ := List.mem_map.1 h1
    rw [← hky]
    exact hkv
  refine ⟨b, lo, hi, rest, init, hrun, hmin, hmax, hlo, hhi, hinv.perm, ?_, ?_, ?_⟩
  · exact hmem lo (by rw [hlo]; exact List.mem_cons_self _ _)
  · exact hmem hi (by rw [hhi]; simp)
  · intro kv hkv
    have h1 : toPair kv ∈ inorder b := (hinv.perm.mem_iff).2 (List.mem_map.2 ⟨kv, hkv, rfl⟩)
    exact ⟨hminall _ h1, hmaxall _ h1⟩

theorem BptGetMin_BptGetMax_first_last_of_inorder_witness :
    ([(3, 30), (1, 10), (2, 20)] : List (KEYTYPE × VALTYPE)) ≠ [] ∧
    1704 * ([(3, 30), (1, 10), (2, 20)] : List (KEYTYPE × VALTYPE)).length + 80 < 4294967296 ∧
    ∃ b lo hi rest init,
      insertAll { _BptInitNewDB with os := [] } [(3, 30), (1, 10), (2, 20)] = .ok b ∧
      BptGetMin b = .ok (1, some lo) ∧ BptGetMax b = .ok (1, some hi) ∧
      inorder b = lo :: rest ∧ inorder b = init ++ [hi] ∧
      (inorder b).Perm (([(3, 30), (1, 10), (2, 20)] : List (KEYTYPE × VALTYPE)).map toPair) ∧
      (lo.key, lo.val) ∈ ([(3, 30), (1, 10), (2, 20)] : List (KEYTYPE × VALTYPE)) ∧
      (hi.key, hi.val) ∈ ([(3, 30), (1, 10), (2, 20)] : List (KEYTYPE × VALTYPE)) ∧
      ∀ kv ∈ ([(3, 30), (1, 10), (2, 20)] : List (KEYTYPE × VALTYPE)),
        lo.key ≤ kv.1 ∧ kv.1 ≤ hi.key :=
  ⟨List.cons_ne_nil _ _, by decide,
   BptGetMin_BptGetMax_first_last_of_inorder [(3, 30), (1, 10), (2, 20)] (List.cons_ne_nil _ _)
     (by decide)⟩

/-- C5, as the code behaves: after inserting (1, 10) into a fresh tree,
`BptRemove(1)` returns 1, yet the leaf still counts one item and `BptSearch(1)`
still returns 1 with the value 10. -/
theorem BptRemove_keeps_leaf_count :
    (BptInsert _BptInitNewDB 1 10 >>= fun r => BptRemove r.2 1).map (fun r => r.1) = .ok 1 ∧
    (runOps _BptInitNewDB [.insert 1 10] >>= fun b => b.loadLeaf 28).map BTNITEMS = .ok 1 ∧
    (runOps _BptInitNewDB [.insert 1 10, .remove 1] >>= fun b => b.loadLeaf 28).map BTNITEMS
      = .ok 1 ∧
    (runOps _BptInitNewDB [.insert 1 10, .remove 1] >>= fun b => BptSearch b 1)
      = .ok (1, some 10) := by
  decide

/-- C6, as the code behaves: after `BptInsert(1, 10)` and `BptRemove(1)` on a fresh
tree `header.nitems` is 0 while the only leaf of the leaf list counts 1 item. -/
theorem header_nitems_differs_from_leaf_count_after_remove :
    (runOps _BptInitNewDB [.insert 1 10, .remove 1]).map (fun b => b.header.nitems) = .ok 0 ∧
    (runOps _BptInitNewDB [.insert 1 10, .remove 1] >>= fun b => b.loadLeaf b.root).map
      (fun lf => (BTNITEMS lf, lf.nextoff)) = .ok (1, 0) := by
  decide

/-- C7, as the code behaves: the fresh tree has `header.dirty = 0`; `BptRemove(1)`
on it returns `BT_NOTFOUND` and leaves `header.dirty = 1`. -/
theorem BptRemove_notfound_leaves_dirty :
    _BptInitNewDB.header.dirty = 0 ∧
    (BptRemove _BptInitNewDB 1).map (fun r => (r.1, r.2.header.dirty)) = .ok (BT_NOTFOUND, 1) := by
  decide

/-- C8: for every tree and all `min`, `max` with `max < min`, `BptSearchRange`
returns `BT_ERROR` and does not write `*matches_out`. -/
theorem BptSearchRange_reversed_bounds (bpt : BPTREE) (min max : KEYTYPE) (h : max < min) :
    BptSearchRange bpt min max = .ok (BT_ERROR, none) := by
  simp [BptSearchRange, h, pure, Except.pure]

/-- C9, as the code behaves: with the keys 1, ..., 20 stored, `BptSearchRange(100, 200)`
dereferences offset 0, the header, as a leaf instead of returning `BT_NOTFOUND`;
so does `BptSearchRange(1, 2)` on the empty tree. -/
theorem BptSearchRange_empty_result_reads_header :
    (insertAll _BptInitNewDB (ascending 20) >>= fun b => BptSearchRange b 100 200)
      = .error .header ∧
    BptSearchRange _BptInitNewDB 1 2 = .error .header := by
  decide

/-- C10 as stated fails: after inserting the keys 1, 2, 3, 4, 5 the tree is not a root
with the single key 4 over the leaves [1,2,3] and [4,5]. -/
theorem split_after_five_is_not_123_45 :
    (insertAll _BptInitNewDB (ascending 5) >>= rootView) ≠ .ok (1, [4], [[1, 2, 3], [4, 5]]) := by
  decide

/-- C10, amended: inserting the keys 1, 2, 3, 4, 5 in order into a fresh tree gives:
after key 4 the root is the leaf (depth 0) holding [1,2,3,4]; after key 5 the root is an
internal node with the single key 3 and two children, the left leaf [1,2] and the
right leaf [3,4,5], and `header.depth = 1`. -/
theorem split_after_five_is_12_345 :
    (insertAll _BptInitNewDB (ascending 4)).map (fun b => b.header.depth) = .ok 0 ∧
    (insertAll _BptInitNewDB (ascending 4) >>= fun b => leafKeysAt b b.root) = .ok [1, 2, 3, 4] ∧
    (insertAll _BptInitNewDB (ascending 5) >>= rootView) = .ok (1, [3], [[1, 2], [3, 4, 5]]) := by
  decide

/-- C8 at a concrete input: the range (10, 5) on the fresh tree. -/
theorem BptSearchRange_reversed_bounds_witness :
    (5 : KEYTYPE) < 10 ∧ BptSearchRange _BptInitNewDB 10 5 = .ok (BT_ERROR, none) :=
  ⟨by decide, BptSearchRange_reversed_bounds _BptInitNewDB 10 5 (by decide)⟩

/-! ## Opening a tree file -/

/-- `BptOpen` on a file that did not exist yields the handle `_BptInitNewDB`. -/
theorem BptOpen_new_file : BptOpen (-1) zeroFile = (some _BptInitNewDB, []) := by
  decide

/-- C11, as stated, fails: a clean new database whose dirty byte is then set to 1
(as after a crash inside a mutating call) has a valid signature, branching factor
and `itemattrib`, and `BptOpen` prints the warning and returns `NULL`. -/
theorem BptOpen_dirty_returns_null :
    BptOpen 1 { _BptInitNewDB.toFile with
      header := { _BptInitNewDB.header with dirty := 1 } } = (none, [.databaseIsDirty]) := by
  decide

/-- C11, amended: for every existing tree file with a valid signature, matching
branching factor and matching `itemattrib` flag whose `header.dirty` is 1, `BptOpen`
emits the warning of `_BptRepair` and returns `NULL`. -/
theorem BptOpen_dirty_refused (status : Int) (f : BTFILE) (hs0 : status ≠ 0)
    (hs1 : status ≠ -1) (hsig : f.header.signature = BT_SIGNATURE)
    (hbf : f.header.bfactor = BT_NBRANCHES) (hia : f.header.itemattrib = 0)
    (hd : f.header.dirty = 1) :
    BptOpen status f = (none, [.databaseIsDirty]) := by
  simp [BptOpen, hs0, hs1, hsig, hbf, hia, hd, _BptRepair]

theorem BptOpen_dirty_refused_witness :
    ((1 : Int) ≠ 0 ∧ (1 : Int) ≠ -1) ∧
    BptOpen 1 { _BptInitNewDB.toFile with
      header := { _BptInitNewDB.header with dirty := 1, nitems := 3 } } =
      (none, [.databaseIsDirty]) :=
  ⟨by decide, BptOpen_dirty_refused 1 _ (by decide) (by decide) rfl rfl rfl rfl⟩

/-- C12: `BptOpen` returns `NULL` for every mapped existing file whose
`header.signature` differs from 'BTDB' or whose `header.bfactor` differs from
`BT_NBRANCHES`; and a mapping initialised by `_BptInitNewDB` carries the signature
and the branching factor and is opened. -/
theorem BptOpen_checks_signature_and_bfactor (f : BTFILE) :
    (∀ status : Int, status ≠ -1 →
      f.header.signature ≠ BT_SIGNATURE ∨ f.header.bfactor ≠ BT_NBRANCHES →
      (BptOpen status f).1 = none) ∧
    (initNewDB f).header.signature = BT_SIGNATURE ∧
    (initNewDB f).header.bfactor = BT_NBRANCHES ∧
    ∃ b, BptOpen (-1) f = (some b, []) := by
  refine ⟨?_, rfl, rfl, ?_⟩
  · intro status hs1 h
    by_cases hs0 : status = 0
    · simp [BptOpen, hs0]
    · rcases h with h | h
      · simp [BptOpen, hs0, hs1, h]
      · by_cases hsig : f.header.signature = BT_SIGNATURE
        · simp [BptOpen, hs0, hs1, h, hsig]
        · simp [BptOpen, hs0, hs1, hsig]
  · have h1 : (initNewDB f).header.signature = BT_SIGNATURE := rfl
    have h2 : (initNewDB f).header.bfactor = BT_NBRANCHES := rfl
    have h3 : (initNewDB f).header.itemattrib = 0 := rfl
    have h4 : (initNewDB f).header.dirty = 0 := rfl
    refine ⟨{ root := (initNewDB f).header.rootoff, header := (initNewDB f).header,
              mem := (initNewDB f).mem, filesize := (initNewDB f).header.usedsize,
              maplen := (initNewDB f).maplen }, ?_⟩
    simp [BptOpen, h1, h2, h3, h4]

theorem BptOpen_checks_signature_and_bfactor_witness :
    ((1 : Int) ≠ -1 ∧ zeroFile.header.signature ≠ BT_SIGNATURE) ∧
    (BptOpen 1 zeroFile).1 = none :=
  ⟨by decide,
   (BptOpen_checks_signature_and_bfactor zeroFile).1 1 (by decide) (Or.inl (by decide))⟩

/-! ## The leaf list and duplicate keys -/

/-- C13 at a failing input: after inserting the keys 1, 2, 3, 4, 5, 0, -1, -2, -3 the
root has the leaves at 28, 172, 120 in this order; the leaf at 172 has
`nextoff = 120`, but the leaf at 120 still has `prevoff = 28`: `_BptSplitLeaf`
links the new leaf and leaves the `prevoff` of the old successor as it was. -/
theorem BptSplitLeaf_leaves_stale_prevoff :
    (insertAll _BptInitNewDB
        [(1, 1), (2, 2), (3, 3), (4, 4), (5, 5), (0, 0), (-1, 1), (-2, 2), (-3, 3)] >>=
      rootLinkView) = .ok [(28, 0, 172), (172, 28, 120), (120, 28, 0)] := by
  decide

/-- C14 at a failing input, in the build with `BT_NO_DUPS`: on the tree holding the
keys 10, 20, ..., 210, `BptInsert(95, 1)` returns 1 but `BptSearch(95)` then returns
`BT_NOTFOUND`; the following `BptInsert(95, 2)` returns 1 instead of 0 and raises
`header.nitems` from 22 to 23, and afterwards `BptSearch(95)` yields the value 2. -/
theorem BptInsertNoDups_accepts_duplicate_after_RedistributeNodeLeft :
    (insertAllNoDups _BptInitNewDB (tens 21) >>= fun b => BptInsertNoDups b 95 1).map
      (fun r => (r.1, r.2.header.nitems)) = .ok (1, 22) ∧
    (insertAllNoDups _BptInitNewDB (tens 21 ++ [(95, 1)]) >>= fun b => BptSearch b 95) =
      .ok (BT_NOTFOUND, none) ∧
    (insertAllNoDups _BptInitNewDB (tens 21 ++ [(95, 1)]) >>= fun b =>
      BptInsertNoDups b 95 2).map (fun r => (r.1, r.2.header.nitems)) = .ok (1, 23) ∧
    (insertAllNoDups _BptInitNewDB (tens 21 ++ [(95, 1), (95, 2)]) >>= fun b =>
      BptSearch b 95) = .ok (1, some 2) := by
  decide

/-- C15 at a failing input: the key 5 is inserted five times with the values 1, 2, 3,
4, 5; the root leaf splits into the leaves of values [1, 2] and [3, 4, 5] with the
separator 5, and `BptSearchRange(5, 5)` returns 3 with the pairs of the right leaf
only. -/
theorem BptSearchRange_misses_duplicates_in_left_leaf :
    (insertAll _BptInitNewDB [(5, 1), (5, 2), (5, 3), (5, 4), (5, 5)] >>= fun b =>
      BptSearchRange b 5 5) = .ok (3, some [⟨5, 3⟩, ⟨5, 4⟩, ⟨5, 5⟩]) := by
  decide

/-! ## Descent, enumeration, leaf split -/

theorem enumerateLoop_never_returns (b : BPTREE) (cap : Nat) :
    ∀ (fuel leaf : Nat) (items : List KVPAIR),
      ∃ e, enumerateLoop b cap fuel leaf items = .error e := by
  intro fuel
  induction fuel with
  | zero => intro leaf items; exact ⟨_, rfl⟩
  | succ fuel ih =>
    intro leaf items
    simp only [enumerateLoop, isNullPtr, Bool.false_eq_true, if_false, bind, Except.bind]
    cases b.loadLeaf leaf with
    | error e => exact ⟨e, rfl⟩
    | ok lf =>
      simp only
      cases enumerateCopy cap lf.items (BTNITEMS lf) items with
      | error e => exact ⟨e, rfl⟩
      | ok items2 => exact ih lf.nextoff items2

/-- C26 fails on every non-empty tree: the leaf walk of `BptEnumerate` has no exit,
since the pointer test `while (leaf)` never fails; whatever the tree, the walk ends in
undefined behaviour (in a tree whose leaf list ends with `nextoff = 0`, by reading
the header at offset 0 as a leaf) and no count is returned. -/
theorem BptEnumerate_never_returns (b : BPTREE) (hne : b.header.nitems ≠ 0) :
    ∃ e, BptEnumerate b = .error e := by
  simp only [BptEnumerate, hne, if_false, bind, Except.bind]
  cases descendFirst b b.filesize b.root with
  | error e => exact ⟨e, rfl⟩
  | ok leaf =>
    simp only
    obtain ⟨e, he⟩ := enumerateLoop_never_returns b b.header.nitems b.filesize leaf []
    rw [he]
    exact ⟨e, rfl⟩

/-- C26 at concrete inputs: the tree after `BptInsert(1, 10)`, and the tree after
inserting the keys 1 to 7, which has two leaves and seven items; there
`BptEnumerate` reads the header as a leaf. -/
theorem BptEnumerate_never_returns_witness :
    insertAll _BptInitNewDB [(1, 10)] = .ok oneItemTree ∧
    oneItemTree.header.nitems ≠ 0 ∧ (∃ e, BptEnumerate oneItemTree = .error e) ∧
    (insertAll _BptInitNewDB (ascending 7)).map (fun b => b.header.nitems) = .ok 7 ∧
    (insertAll _BptInitNewDB (ascending 7) >>= BptEnumerate) = .error .header :=
  ⟨by decide, by decide, BptEnumerate_never_returns oneItemTree (by decide), by decide,
   by decide⟩

/-- How far C28 holds: when the operating system maps the file in place on a resize
(`b.os = []`) and the arena stays below 2^32 bytes, `_BptSplitLeaf` on a leaf of
`BT_NBRANCHES + 1` items allocates the new leaf at the end of the used arena;
afterwards the items of the old leaf followed by those of the new leaf are the
original items in the original order, the old leaf holds
`BT_NBRANCHES / 2` and the new one `BT_NBRANCHES / 2 + 1` of them, both carry the
`BT_LEAF` flag, and the new leaf is linked right after the old one: `old.nextoff` is
the new leaf, `new.nextoff` the former successor, `new.prevoff` the old leaf. -/
theorem BptSplitLeaf_keeps_items_and_links (b : BPTREE) (c : Nat) (lfc : BTLEAF)
    (hc0 : c ≠ 0) (hc : memLoad b.mem c = some (.leaf lfc)) (hclt : c < b.filesize)
    (hsh : LeafShape lfc (BT_NBRANCHES + 1)) (hos : b.os = [])
    (h32 : b.filesize + 52 < 4294967296) :
    ∃ b1 old new, _BptSplitLeaf b c = .ok (b.filesize, b1) ∧
      b1.loadLeaf c = .ok old ∧ b1.loadLeaf b.filesize = .ok new ∧
      old.live ++ new.live = lfc.live ∧
      BTNITEMS old = BT_NBRANCHES / 2 ∧ BTNITEMS new = BT_NBRANCHES / 2 + 1 ∧
      isLeafWord old.attribs = true ∧ isLeafWord new.attribs = true ∧
      old.nextoff = b.filesize ∧ new.nextoff = lfc.nextoff ∧ new.prevoff = c ∧
      old.prevoff = lfc.prevoff := by
  obtain ⟨b1, hrun, hm1, -, -, -, -, -, -, -⟩ := splitLeaf_spec b c lfc hc0 hc hclt hos h32
  clear h32
  obtain ⟨hso, hsn, hlive, -⟩ := leafSplit_objs lfc c b.filesize hsh
  have hne : b.filesize ≠ c := by omega
  refine ⟨b1, lsOld lfc b.filesize, lsNew lfc c, hrun, ?_, ?_, hlive, ?_, ?_, ?_, ?_, rfl, rfl,
    rfl, rfl⟩
  · exact loadLeaf_of hc0 (by rw [hm1]; simp)
  · exact loadLeaf_of (by omega) (by rw [hm1]; simp [hne])
  · exact BTNITEMS_of_shape hso (by decide)
  · exact BTNITEMS_of_shape hsn (by decide)
  · rw [hso.2]; exact isLeafWord_leaf (by omega)
  · rw [hsn.2]; exact isLeafWord_leaf (by omega)

theorem BptSplitLeaf_keeps_items_and_links_witness :
    ((28 : Nat) ≠ 0 ∧ (28 : Nat) < fiveItemTree.filesize ∧ fiveItemTree.os = [] ∧
      fiveItemTree.filesize + 52 < 4294967296) ∧
    ∃ b1 old new, _BptSplitLeaf fiveItemTree 28 = .ok (fiveItemTree.filesize, b1) ∧
      b1.loadLeaf 28 = .ok old ∧ b1.loadLeaf fiveItemTree.filesize = .ok new ∧
      old.live ++ new.live = [⟨1, 10⟩, ⟨2, 20⟩, ⟨3, 30⟩, ⟨4, 40⟩, ⟨5, 50⟩] ∧
      BTNITEMS old = BT_NBRANCHES / 2 ∧ BTNITEMS new = BT_NBRANCHES / 2 + 1 ∧
      isLeafWord old.attribs = true ∧ isLeafWord new.attribs = true ∧
      old.nextoff = fiveItemTree.filesize ∧ new.nextoff = 0 ∧ new.prevoff = 28 ∧
      old.prevoff = 0 :=
  ⟨by decide,
   BptSplitLeaf_keeps_items_and_links fiveItemTree 28
     ⟨BT_LEAF + 5, [⟨1, 10⟩, ⟨2, 20⟩, ⟨3, 30⟩, ⟨4, 40⟩, ⟨5, 50⟩], 0, 0⟩
     (by decide) rfl (by decide) ⟨rfl, rfl⟩ rfl (by decide)⟩

/-! ## Node and leaf counts, separators, redistribution -/

/-- C23 at a failing input: after inserting the distinct keys 1 to 25 the root holds
the single key 9, while the subtree of its child 0 stores the keys 1 to 12: the keys
9, 10, 11, 12 are not below the separator. -/
theorem BptRedistributeNodeLeft_breaks_separator :
    (insertAll _BptInitNewDB (ascending 25) >>= rootSubtreeView) =
      .ok ([9], [[1, 2, 3, 4, 5, 6, 7, 8, 9, 10, 11, 12],
                 [13, 14, 15, 16, 17, 18, 19, 20, 21, 22, 23, 24, 25]]) := by
  decide

/-- C25 at a failing input: after inserting the keys 1 to 28 the root has two child
nodes with 2 and 3 keys and `header.nnodes = 3`; the insert of 29 overflows the right
child, whose left sibling has room for a third key, and yet the child is split: a
fourth node is allocated. -/
theorem BptSplitNode_although_left_sibling_has_room :
    (insertAll _BptInitNewDB (ascending 28) >>= rootNodeView) =
      .ok (2, 3, [9], [[5, 9], [17, 21, 25]]) ∧
    (insertAll _BptInitNewDB (ascending 29) >>= rootNodeView) =
      .ok (2, 4, [9, 21], [[5, 9], [17], [25, 27]]) :=
  ⟨by decide, by decide⟩

/-! ## The thumbnail cache file -/

set_option maxRecDepth 100000 in
/-- C16 at a failing input: the record of file `a` (offset 16, `thumbfsize` 6) is
replaced by a thumbnail of 10 bytes.  The new record is appended at the end of the
file (offset 76) and `ptcrec->offset` follows, but the old record at offset 16
keeps `mtime = 5`: it is not tombstoned, and the scan finds three live entries. -/
theorem ThumbCacheReplace_leaves_old_record_live :
    (ThumbCacheReplace twoEntryCache [97] ⟨16, ⟨5, 1, 6, 11⟩, [97, 0]⟩ 9
        [1, 2, 3, 4, 5, 6, 7, 8, 9, 10] 13).1 = 76 ∧
    (ThumbCacheReplace twoEntryCache [97] ⟨16, ⟨5, 1, 6, 11⟩, [97, 0]⟩ 9
        [1, 2, 3, 4, 5, 6, 7, 8, 9, 10] 13).2.2.offset = twoEntryCache.data.length ∧
    ThumbCacheEnumerate (ThumbCacheReplace twoEntryCache [97] ⟨16, ⟨5, 1, 6, 11⟩, [97, 0]⟩ 9
        [1, 2, 3, 4, 5, 6, 7, 8, 9, 10] 13).2.1.data =
      [(16, ⟨5, 1, 6, 11⟩), (48, ⟨7, 1, 2, 12⟩), (76, ⟨9, 1, 10, 13⟩)] := by
  decide

theorem leBytes_length : ∀ (n v : Nat), (leBytes n v).length = n := by
  intro n
  induction n with
  | zero => intro v; rfl
  | succ n ih => intro v; simp [leBytes, ih]

theorem encodeEntry_length (e : TCENTRY) : (encodeEntry e).length = SIZEOF_TCENTRY := by
  simp [encodeEntry, leBytes_length]

theorem fwrite_pos (tc : FILE) (bs : List Nat) : (fwrite tc bs).pos = tc.pos + bs.length := rfl

/-- C17: for a file name of length 1 to 255 and a thumbnail size `s` (an `int` of
`gdImagePngPtr`, below 2^31), `_ThumbCacheWriteEntry` pads by 0 to 3 bytes, stores
`thumbfsize = s + padlen` with `thumbfsize + len + 1` a multiple of `ALIGN_BYTES`,
returns the offset it wrote at and advances the stream by
`sizeof(TCENTRY) + len + 1 + thumbfsize`, a multiple of `ALIGN_BYTES`; for a file
name of length 0 or above 255 it returns 0 and leaves stream and entry alone. -/
theorem ThumbCacheWriteEntry_pads_to_alignment (tc : FILE) (ptcent : TCENTRY)
    (filename thumbdata : List Nat) :
    (1 ≤ filename.length → filename.length ≤ UCHAR_MAX → ptcent.thumbfsize < 2147483648 →
      ∃ padlen, padlen ≤ 3 ∧
        (_ThumbCacheWriteEntry tc ptcent filename thumbdata).2.2.thumbfsize =
          ptcent.thumbfsize + padlen ∧
        (_ThumbCacheWriteEntry tc ptcent filename thumbdata).2.2.fnlen = filename.length ∧
        ((_ThumbCacheWriteEntry tc ptcent filename thumbdata).2.2.thumbfsize +
          filename.length + 1) % ALIGN_BYTES = 0 ∧
        (_ThumbCacheWriteEntry tc ptcent filename thumbdata).1 = tc.pos ∧
        (_ThumbCacheWriteEntry tc ptcent filename thumbdata).2.1.pos =
          tc.pos + entryStride (_ThumbCacheWriteEntry tc ptcent filename thumbdata).2.2 ∧
        (tc.pos % ALIGN_BYTES = 0 →
          (_ThumbCacheWriteEntry tc ptcent filename thumbdata).2.1.pos % ALIGN_BYTES = 0)) ∧
    (filename.length = 0 ∨ filename.length > UCHAR_MAX →
      _ThumbCacheWriteEntry tc ptcent filename thumbdata = (0, tc, ptcent)) := by
  constructor
  · intro h1 h255 hs
    have hcond : ¬ (filename.length = 0 ∨ filename.length > UCHAR_MAX) := by
      simp only [UCHAR_MAX] at h255 ⊢; omega
    obtain ⟨p, hp⟩ : ∃ p, p = (ALIGN_BYTES -
        ((ptcent.thumbfsize + filename.length + 1) % 4294967296) % ALIGN_BYTES) %
        ALIGN_BYTES := ⟨_, rfl⟩
    have hp3 : p ≤ 3 := by
      rw [hp]; simp only [ALIGN_BYTES]; omega
    have hmod : (ptcent.thumbfsize + p) % 4294967296 = ptcent.thumbfsize + p := by
      apply Nat.mod_eq_of_lt; omega
    have hal : (ptcent.thumbfsize + p + filename.length + 1) % 4 = 0 := by
      simp only [UCHAR_MAX] at h255
      rw [hp]; simp only [ALIGN_BYTES]; omega
    have hfn : filename.length % 256 = filename.length := by
      simp only [UCHAR_MAX] at h255
      apply Nat.mod_eq_of_lt; omega
    have hsub : ptcent.thumbfsize + p - p = ptcent.thumbfsize := by omega
    refine ⟨p, hp3, ?_, ?_, ?_, ?_, ?_, ?_⟩
    · simp only [_ThumbCacheWriteEntry, hcond, if_false, ← hp, hmod]
    · simp only [_ThumbCacheWriteEntry, hcond, if_false, ← hp, hmod, hfn]
    · simp only [_ThumbCacheWriteEntry, hcond, if_false, ← hp, hmod, ALIGN_BYTES]
      exact hal
    · simp only [_ThumbCacheWriteEntry, hcond, if_false, ftell]
    · simp only [_ThumbCacheWriteEntry, hcond, if_false, ← hp, hmod, hfn, fwrite_pos,
        encodeEntry_length, entryStride, List.length_append, List.length_singleton,
        List.length_map, List.length_range, List.length_replicate, hsub, SIZEOF_TCENTRY]
      omega
    · intro hpos
      simp only [_ThumbCacheWriteEntry, hcond, if_false, ← hp, hmod, hfn, fwrite_pos,
        encodeEntry_length, List.length_append, List.length_singleton,
        List.length_map, List.length_range, List.length_replicate, hsub, SIZEOF_TCENTRY,
        ALIGN_BYTES] at hpos ⊢
      omega
  · intro h
    simp only [_ThumbCacheWriteEntry, h, if_true]

theorem ThumbCacheWriteEntry_pads_to_alignment_witness :
    ((1 ≤ [97, 98].length ∧ [97, 98].length ≤ UCHAR_MAX ∧ (5 : Nat) < 2147483648) ∧
      (_ThumbCacheWriteEntry ⟨List.replicate 16 0, 16⟩ ⟨7, 0, 5, 1⟩ [97, 98]
        [1, 2, 3, 4, 5]).2.2.thumbfsize = 5 ∧
      (_ThumbCacheWriteEntry ⟨List.replicate 16 0, 16⟩ ⟨7, 0, 5, 1⟩ [97, 98]
        [1, 2, 3, 4, 5]).2.1.pos = 48) ∧
    (∃ padlen, padlen ≤ 3 ∧
        (_ThumbCacheWriteEntry ⟨List.replicate 16 0, 16⟩ ⟨7, 0, 6, 1⟩ [97, 98]
          [1, 2, 3, 4, 5, 6]).2.2.thumbfsize = 6 + padlen ∧
        (_ThumbCacheWriteEntry ⟨List.replicate 16 0, 16⟩ ⟨7, 0, 6, 1⟩ [97, 98]
          [1, 2, 3, 4, 5, 6]).2.2.fnlen = [97, 98].length ∧
        ((_ThumbCacheWriteEntry ⟨List.replicate 16 0, 16⟩ ⟨7, 0, 6, 1⟩ [97, 98]
          [1, 2, 3, 4, 5, 6]).2.2.thumbfsize + [97, 98].length + 1) % ALIGN_BYTES = 0 ∧
        (_ThumbCacheWriteEntry ⟨List.replicate 16 0, 16⟩ ⟨7, 0, 6, 1⟩ [97, 98]
          [1, 2, 3, 4, 5, 6]).1 = 16 ∧
        (_ThumbCacheWriteEntry ⟨List.replicate 16 0, 16⟩ ⟨7, 0, 6, 1⟩ [97, 98]
          [1, 2, 3, 4, 5, 6]).2.1.pos =
          16 + entryStride (_ThumbCacheWriteEntry ⟨List.replicate 16 0, 16⟩ ⟨7, 0, 6, 1⟩
            [97, 98] [1, 2, 3, 4, 5, 6]).2.2 ∧
        ((16 : Nat) % ALIGN_BYTES = 0 →
          (_ThumbCacheWriteEntry ⟨List.replicate 16 0, 16⟩ ⟨7, 0, 6, 1⟩ [97, 98]
            [1, 2, 3, 4, 5, 6]).2.1.pos % ALIGN_BYTES = 0)) :=
  ⟨by decide,
   (ThumbCacheWriteEntry_pads_to_alignment ⟨List.replicate 16 0, 16⟩ ⟨7, 0, 6, 1⟩ [97, 98]
      [1, 2, 3, 4, 5, 6]).1 (by decide) (by decide) (by decide)⟩

set_option maxRecDepth 100000 in
/-- C19 at a failing input: in the cache of the entries `a` (offset 16) and `b`
(offset 48), `a` is tombstoned by `ThumbCacheRemove`.  The scan of
`ThumbCacheEnumerate` still finds the live entry `b` at 48; `_ThumbCacheBuildHt`
does not skip the name and thumbnail of the tombstoned entry, reads the bytes at
offset 40 as an entry and indexes that one: `b` is not in the index. -/
theorem ThumbCacheBuildHt_misreads_after_tombstone :
    (ThumbCacheRemove twoEntryCache.data 16).map ThumbCacheEnumerate =
      some [(16, ⟨0, 1, 6, 11⟩), (48, ⟨7, 1, 2, 12⟩)] ∧
    (ThumbCacheRemove twoEntryCache.data 16).map
      (fun d => (_ThumbCacheBuildHt { data := d, pos := SIZEOF_TCHEADER }).map
        fun r => (r.offset, r.filename)) = some [(40, [12, 0, 0, 0, 0, 0, 0, 0])] ∧
    (_ThumbCacheBuildHt (fseekSet twoEntryCache SIZEOF_TCHEADER)).map
      (fun r => (r.offset, r.filename)) = [(16, [97, 0]), (48, [98, 0])] := by
  decide

set_option maxRecDepth 100000 in
/-- C27 at a failing input: the record of file `a` (offset 16, `thumbfsize` 6, next
record at 48) is overwritten in place by a thumbnail of 2 bytes.  The stride at
offset 16 is then 28 and leads to offset 44, inside the bytes of the old record,
not to the next record at 48. -/
theorem ThumbCacheReplace_in_place_breaks_stride :
    (ThumbCacheEnumerate twoEntryCache.data).map Prod.fst = [16, 48] ∧
    (ThumbCacheReplace twoEntryCache [97] ⟨16, ⟨5, 1, 6, 11⟩, [97, 0]⟩ 9 [1, 2] 13).1 = 16 ∧
    entryStride (ThumbCacheReplace twoEntryCache [97] ⟨16, ⟨5, 1, 6, 11⟩, [97, 0]⟩ 9
      [1, 2] 13).2.2.ent = 28 ∧
    (ThumbCacheEnumerate (ThumbCacheReplace twoEntryCache [97] ⟨16, ⟨5, 1, 6, 11⟩, [97, 0]⟩ 9
      [1, 2] 13).2.1.data).map Prod.fst = [16, 44, 70] := by
  decide

/-! ## The match engine, the hash table, `strrplcpy` -/

/-- C18 at a failing input: the channel averages (0, 0, 0) and (1.5, 1.5, 1.5)
differ by the tolerance in each channel, the signatures are 0 and 6.75, and the
search radius at the signature 0 is 2.25. -/
theorem searchDelta_misses_tolerance_ball :
    |(0 : ℝ) - 3 / 2| ≤ DIFF_TOLERANCE ∧
    thumbKey (0 : ℝ) 0 0 = 0 ∧ thumbKey (3 / 2 : ℝ) (3 / 2) (3 / 2) = 27 / 4 ∧
    searchDelta Real.sqrt (thumbKey (0 : ℝ) 0 0) = 9 / 4 ∧
    searchDelta Real.sqrt (thumbKey (0 : ℝ) 0 0) <
      |thumbKey (0 : ℝ) 0 0 - thumbKey (3 / 2 : ℝ) (3 / 2) (3 / 2)| := by
  have h0 : thumbKey (0 : ℝ) 0 0 = 0 := by simp [thumbKey]
  have h1 : thumbKey (3 / 2 : ℝ) (3 / 2) (3 / 2) = 27 / 4 := by
    simp only [thumbKey]; norm_num
  have h2 : searchDelta Real.sqrt (0 : ℝ) = 9 / 4 := by
    simp only [searchDelta, DIFF_TOLERANCE, zero_div, Real.sqrt_zero]; norm_num
  refine ⟨?_, h0, h1, ?_, ?_⟩
  · simp only [DIFF_TOLERANCE]; rw [abs_le]; constructor <;> norm_num
  · rw [h0, h2]
  · have h3 : |(0 : ℝ) - 27 / 4| = 27 / 4 := by
      rw [abs_of_neg] <;> norm_num
    rw [h0, h1, h2, h3]
    norm_num

/-- C29 at a failing input: a table made by `HtInit(4, 0, HT_HASH_DEFAULT, 4)` gets
the keys `af` (bucket 3, the last one) and `aa` (bucket 0); `HtResetContents` stops
before the last bucket, so `HtGetItem("af")` still returns the item, while `aa` is
gone.  With one bucket, `HtInit(1, ...)`, the reset does nothing at all. -/
theorem HtResetContents_skips_last_bucket :
    (HtInit 4 0 HT_HASH_DEFAULT 4).hashOf [97, 102] &&& 3 = 3 ∧
    HtGetItem (HtResetContents (HtInsertItem (HtInsertItem (HtInit 4 0 HT_HASH_DEFAULT 4)
      [97, 102] [97, 102]) [97, 97] [97, 97])) [97, 102] = some [97, 102] ∧
    HtGetItem (HtResetContents (HtInsertItem (HtInsertItem (HtInit 4 0 HT_HASH_DEFAULT 4)
      [97, 102] [97, 102]) [97, 97] [97, 97])) [97, 97] = none ∧
    HtGetItem (HtResetContents (HtInsertItem (HtInit 1 0 HT_HASH_DEFAULT 4) [97] [97])) [97] =
      some [97] := by
  decide

theorem rd_append_nul (pre s rest : List Nat) :
    rd (pre ++ s ++ 0 :: rest) pre.length = (s ++ [0]).headD 0 := by
  unfold rd
  rw [List.append_assoc, List.getD_append_right _ _ _ _ (Nat.le_refl _), Nat.sub_self]
  cases s <;> rfl

theorem strrplcpyLoop_stop (src : List Nat) (find replacewith : Nat) (fuel i len : Nat)
    (dst : List Nat) (h : ¬ (len > 1 ∧ rd src i ≠ 0)) :
    strrplcpyLoop src find replacewith fuel i len dst = (i, len, dst) := by
  cases fuel with
  | zero => rfl
  | succ fuel => simp only [strrplcpyLoop]; rw [if_neg h]

theorem strrplcpyLoop_spec (rest : List Nat) (find replacewith : Nat) :
    ∀ (s pre : List Nat) (fuel len : Nat) (dst : List Nat),
      (∀ c ∈ s, c ≠ 0) → len - 1 ≤ fuel →
      strrplcpyLoop (pre ++ s ++ 0 :: rest) find replacewith fuel pre.length len dst =
        (pre.length + min s.length (len - 1), len - min s.length (len - 1),
         dst ++ (s.take (len - 1)).map (fun c => if c ≠ find then c else replacewith)) := by
  intro s
  induction s with
  | nil =>
    intro pre fuel len dst _ _
    rw [strrplcpyLoop_stop]
    · simp
    · rw [rd_append_nul]; simp
  | cons c s ih =>
    intro pre fuel len dst hs hf
    have hc : c ≠ 0 := hs c (List.mem_cons_self _ _)
    by_cases hl : len > 1
    · obtain ⟨fuel1, rfl⟩ : ∃ k, fuel = k + 1 := ⟨fuel - 1, by omega⟩
      obtain ⟨len2, rfl⟩ : ∃ k, len = k + 2 := ⟨len - 2, by omega⟩
      have hrd : rd (pre ++ c :: s ++ 0 :: rest) pre.length = c := by
        rw [rd_append_nul]; rfl
      simp only [strrplcpyLoop]
      rw [if_pos ⟨hl, by rw [hrd]; exact hc⟩, hrd]
      have e : pre ++ c :: s ++ 0 :: rest = (pre ++ [c]) ++ s ++ 0 :: rest := by simp
      have e2 : pre.length + 1 = (pre ++ [c]).length := by simp
      have e3 : len2 + 2 - 1 = len2 + 1 := rfl
      have e4 : len2 + 1 - 1 = len2 := rfl
      rw [e, e2, e3, ih (pre ++ [c]) fuel1 (len2 + 1) _
        (fun x hx => hs x (List.mem_cons_of_mem _ hx)) (by omega), e4]
      simp only [List.length_append, List.length_singleton, List.length_cons,
        List.take_succ_cons, List.map_cons, List.append_assoc,
        List.singleton_append, Prod.mk.injEq, and_true]
      clear e e2 e3 e4 hf hrd ih
      simp only [List.length_nil, Nat.zero_add]
      constructor <;> omega
    · rw [strrplcpyLoop_stop _ _ _ _ _ _ _ (fun h => hl h.1)]
      have : len - 1 = 0 := by omega
      simp [this]

theorem strEnd_spec (rest : List Nat) :
    ∀ (s pre : List Nat) (fuel : Nat), (∀ c ∈ s, c ≠ 0) → s.length ≤ fuel →
      strEnd (pre ++ s ++ 0 :: rest) fuel pre.length = pre.length + s.length := by
  intro s
  induction s with
  | nil =>
    intro pre fuel _ _
    cases fuel with
    | zero => rfl
    | succ fuel =>
      simp only [strEnd]
      rw [rd_append_nul]; simp
  | cons c s ih =>
    intro pre fuel hs hf
    obtain ⟨fuel1, rfl⟩ : ∃ k, fuel = k + 1 := ⟨fuel - 1, by simp at hf; omega⟩
    have hrd : rd (pre ++ c :: s ++ 0 :: rest) pre.length = c := by
      rw [rd_append_nul]; rfl
    simp only [strEnd]
    rw [hrd, if_pos (hs c (List.mem_cons_self _ _))]
    have e : pre ++ c :: s ++ 0 :: rest = (pre ++ [c]) ++ s ++ 0 :: rest := by simp
    have e2 : pre.length + 1 = (pre ++ [c]).length := by simp
    rw [e, e2, ih (pre ++ [c]) fuel1 (fun x hx => hs x (List.mem_cons_of_mem _ hx))
      (by simp at hf; omega)]
    simp; omega

/-- C30: `strrplcpy(dst, src, len, find, repl)` on a NUL-terminated `src` (the bytes
`s`, none of them 0, then a NUL, then anything) with `len >= 1` returns
`strlen(src)`, writes the first `min(strlen(src), len - 1)` bytes of `src` with every
`find` replaced by `repl`, then a NUL; the copy is shorter than `src` exactly when the
return value is at least `len`. -/
theorem strrplcpy_spec (s rest : List Nat) (len find repl : Nat)
    (hs : ∀ c ∈ s, c ≠ 0) (hlen : 1 ≤ len) :
    strrplcpy (s ++ 0 :: rest) len find repl =
      (s.length, (s.take (len - 1)).map (fun c => if c ≠ find then c else repl) ++ [0]) ∧
    (s.take (len - 1)).length = min s.length (len - 1) ∧
    ((s.take (len - 1)).length < s.length ↔
      len ≤ (strrplcpy (s ++ 0 :: rest) len find repl).1) := by
  have hloop := strrplcpyLoop_spec rest find repl s [] len len [] hs (Nat.sub_le _ _)
  simp only [List.nil_append, List.length_nil, Nat.zero_add] at hloop
  have hk : min s.length (len - 1) = (s.take (len - 1)).length := by
    rw [List.length_take]; exact Nat.min_comm _ _
  have hend := strEnd_spec rest (s.drop (len - 1)) (s.take (len - 1))
    (s ++ 0 :: rest).length (fun c hc => hs c (List.mem_of_mem_drop hc))
    (by simp; omega)
  rw [List.take_append_drop] at hend
  have hlen2 : (s.take (len - 1)).length + (s.drop (len - 1)).length = s.length := by
    rw [← List.length_append, List.take_append_drop]
  have hmain : strrplcpy (s ++ 0 :: rest) len find repl =
      (s.length, (s.take (len - 1)).map (fun c => if c ≠ find then c else repl) ++ [0]) := by
    unfold strrplcpy
    simp only [hloop]
    rw [hk, hend, hlen2, if_pos (by rw [← hk]; omega)]
  refine ⟨hmain, hk.symm, ?_⟩
  rw [hmain, ← hk]
  show min s.length (len - 1) < s.length ↔ len ≤ s.length
  omega

theorem strrplcpy_spec_witness :
    (∀ c ∈ [97, 47, 98, 47, 99], c ≠ 0) ∧ 1 ≤ 4 ∧
    strrplcpy ([97, 47, 98, 47, 99] ++ 0 :: [5, 5]) 4 47 95 = (5, [97, 95, 98, 0]) ∧
    (4 ≤ (strrplcpy ([97, 47, 98, 47, 99] ++ 0 :: [5, 5]) 4 47 95).1) :=
  ⟨by decide, by decide, (strrplcpy_spec [97, 47, 98, 47, 99] [5, 5] 4 47 95 (by decide)
      (by decide)).1,
    (strrplcpy_spec [97, 47, 98, 47, 99] [5, 5] 4 47 95 (by decide) (by decide)).2.2.1
      (by decide)⟩

theorem leafDepths_leaf {m : List (Nat × BTOBJ)} {fuel off : Nat} {obj : BTOBJ}
    (hl : memLoad m off = some obj) (hw : isLeafWord obj.word0 = true) :
    leafDepths m (fuel + 1) off = [some 0] := by
  simp only [leafDepths, hl, hw, if_true]

theorem leafDepths_node {m : List (Nat × BTOBJ)} {fuel off : Nat} {nd : BTNODE}
    (hl : memLoad m off = some (.node nd)) (hw : isLeafWord nd.nitems = false) :
    leafDepths m (fuel + 1) off =
      ((nd.liveChoffs.map (leafDepths m fuel)).flatten).map (Option.map (· + 1)) := by
  simp only [leafDepths, hl, BTOBJ.word0, hw, Bool.false_eq_true, if_false]

theorem leafDepths_of_subOK {m : List (Nat × BTOBJ)} :
    ∀ (h : Nat) (ov : Bool) (off : Nat), SubOK m ov h off →
      leafDepths m (h + 1) off ≠ [] ∧ ∀ d ∈ leafDepths m (h + 1) off, d = some h := by
  intro h
  induction h with
  | zero =>
    intro ov off hok
    obtain ⟨-, lf, n, hl, hsh, hn⟩ := subOK_leaf_iff.1 hok
    have hn5 : n ≤ 5 := by
      cases ov
      · simp only [Bool.false_eq_true, if_false] at hn; omega
      · simp only [if_true] at hn; omega
    have hw : isLeafWord (BTOBJ.leaf lf).word0 = true := by
      simp only [BTOBJ.word0, hsh.2]; exact isLeafWord_leaf hn5
    rw [leafDepths_leaf hl hw]
    simp
  | succ h ih =>
    intro ov off hok
    obtain ⟨-, nd, hl, hsh, hn, hch, -⟩ := subOK_node_elim hok
    have hn4 : 1 ≤ nd.nitems ∧ nd.nitems ≤ 4 := by
      cases ov
      · simp only [Bool.false_eq_true, if_false] at hn; omega
      · simp only [if_true] at hn; omega
    rw [leafDepths_node hl (isLeafWord_node (by omega))]
    have hlen := liveChoffs_length hsh hn4.2
    constructor
    · obtain ⟨c, hc⟩ : ∃ c, c ∈ nd.liveChoffs := List.exists_mem_of_length_pos (by omega)
      obtain ⟨d, hd⟩ := List.exists_mem_of_ne_nil _ (ih false c (hch c hc)).1
      intro hnil
      have hmem : Option.map (· + 1) d ∈
          ((nd.liveChoffs.map (leafDepths m (h + 1))).flatten).map (Option.map (· + 1)) :=
        List.mem_map.2 ⟨d, List.mem_flatten.2 ⟨_, List.mem_map.2 ⟨c, hc, rfl⟩, hd⟩, rfl⟩
      rw [hnil] at hmem
      exact absurd hmem (List.not_mem_nil _)
    · intro d hd
      obtain ⟨x, hx, rfl⟩ := List.mem_map.1 hd
      obtain ⟨l, hl2, hxl⟩ := List.mem_flatten.1 hx
      obtain ⟨c, hc, rfl⟩ := List.mem_map.1 hl2
      rw [(ih false c (hch c hc)).2 x hxl]
      rfl

theorem depthInv_of_treeOK (b : BPTREE) (hT : TreeOK b) (hro : b.header.rootoff = b.root) :
    DepthInv b :=
  ⟨hro, (leafDepths_of_subOK _ _ _ hT.ok).1, (leafDepths_of_subOK _ _ _ hT.ok).2⟩

theorem rootNode_fields (k : KEYTYPE) (c0 c1 : Nat) :
    (rootNode k c0 c1).nitems = 1 ∧ rd (rootNode k c0 c1).choffs 0 = c0 ∧
      rd (rootNode k c0 c1).choffs 1 = c1 :=
  ⟨rfl, rfl, rfl⟩

/-- One call of `BptInsert` on a well-formed tree whose header names the root, when
the operating system maps the file in place and the counters stay within their
width. -/
theorem BptInsert_root_step (b : BPTREE) (key : KEYTYPE) (value : VALTYPE) (hinv : TreeOK b)
    (hro : b.header.rootoff = b.root) (hos : b.os = [])
    (h32 : b.filesize + 52 * b.header.depth + 92 < 4294967296)
    (hnit : b.header.nitems + 1 < 4294967296) (hdep : b.header.depth < 255) :
    ∃ res b1 b2,
      _BptInsertWorker b.filesize { b with header := { b.header with dirty := 1 } } b.root
        key value = .ok (res, b1) ∧
      (res = 1 ∨ res = BT_OVERFLOW) ∧
      BptInsert b key value = .ok (1, b2) ∧ TreeOK b2 ∧ b2.header.rootoff = b2.root ∧
      (res = 1 → b2.root = b.root ∧ b2.header.depth = b.header.depth) ∧
      (res = BT_OVERFLOW → b2.header.depth = b.header.depth + 1 ∧ b2.root = b1.filesize ∧
        b.filesize ≤ b2.root ∧ RootSplit b1 b2 b.root (b1.filesize + 40)) := by
  obtain ⟨bS, hrunS, hTS, -, -, -⟩ := BptInsert_spec b key value hinv hos h32 hnit hdep
  obtain ⟨res, b1, hrun, hw⟩ := worker_spec key value b.header.depth b.filesize
    { b with header := { b.header with dirty := 1 } } b.root hinv.depth_lt hinv.ok hinv.fp_lt
    hos (by show b.filesize + 52 * b.header.depth < 4294967296; omega)
  have hos1 : b1.os = [] := hw.os_eq.trans hos
  have hbd1 : b1.filesize ≤ b.filesize + 52 * b.header.depth := hw.fs_bd
  have h32a : b1.filesize + 92 < 4294967296 := by omega
  clear h32 hnit
  have hroot1 : b1.root = b.root := hw.root_eq
  have hdepth1 : b1.header.depth = b.header.depth := hw.depth_eq
  have hro1 : b1.header.rootoff = b.header.rootoff := hw.rootoff_eq
  have hfs1 : b.filesize ≤ b1.filesize := hw.fs_le
  have hfplt1 : ∀ o ∈ subFp b1.mem b.header.depth b.root, o < b1.filesize := hw.fp_lt
  have hok1 : SubOK b1.mem (decide (res = BT_OVERFLOW)) b.header.depth b.root := hw.ok
  rcases hw.res_eq with hres | hres
  · subst hres
    have hrun2 := BptInsert_of_worker_one b b1 key value hrun
    have hbS : bS = { b1 with header := { b1.header with dirty := 0 } } := by
      have := hrunS.symm.trans hrun2
      exact (Prod.mk.inj (Except.ok.inj this)).2
    refine ⟨1, b1, _, hrun, Or.inl rfl, hrun2, hbS ▸ hTS, ?_, ?_, ?_⟩
    · show b1.header.rootoff = b1.root
      rw [hro1, hroot1]; exact hro
    · intro _
      exact ⟨hroot1, hdepth1⟩
    · intro hc
      exact absurd hc (by decide)
  · subst hres
    have hok1t : SubOK b1.mem true b.header.depth b.root := by simpa using hok1
    have hr0 : b1.root ≠ 0 := by rw [hroot1]; exact subOK_ne_zero hok1t
    have hrlt : b1.root < b1.filesize := by
      rw [hroot1]; exact hfplt1 _ (self_mem_subFp _ _ _)
    obtain ⟨d, hd⟩ : ∃ d, b.header.depth = d := ⟨_, rfl⟩
    rw [hd] at hok1t hdepth1 hdep
    rw [← hroot1] at hok1t
    cases d with
    | zero =>
      obtain ⟨-, lf, n, hl, hsh, hn5⟩ := subOK_leaf_iff.1 hok1t
      simp only [if_true] at hn5
      subst hn5
      obtain ⟨b3, hrun3, hm3, hroot3, hdepth3, hfs3, hnit3, hro3, -, -⟩ :=
        BptInsert_split_leaf b key value b1 lf hrun hr0 hrlt hl hsh hos1 h32a
      rw [Nat.mod_eq_of_lt (by omega)] at hdepth3
      clear h32a
      have hbS : bS = b3 := (Prod.mk.inj (Except.ok.inj (hrunS.symm.trans hrun3))).2
      refine ⟨BT_OVERFLOW, b1, b3, hrun, Or.inr rfl, hrun3, hbS ▸ hTS, hro3.trans hroot3.symm,
        ?_, ?_⟩
      · intro hc
        exact absurd hc (by decide)
      · intro _
        refine ⟨by rw [hdepth3, hdepth1, hd], hroot3, by rw [hroot3]; exact hfs1, ?_, ?_⟩
        · refine ⟨rootNode (rd (lsNew lf b1.root).items 0).key b.root (b1.filesize + 40), ?_,
            rootNode_fields _ b.root (b1.filesize + 40)⟩
          rw [hroot3, hm3, if_pos rfl, hroot1]
        · left
          refine ⟨lf, by rw [← hroot1]; exact hl, ?_, ?_⟩
          · rw [hm3, if_neg (by omega), if_pos hroot1.symm]
          · rw [hm3, if_neg (by omega), if_neg (by omega), if_pos rfl, hroot1]
    | succ h =>
      obtain ⟨-, ndc, hl, -, hn4, -, -⟩ := subOK_node_elim hok1t
      simp only [if_true] at hn4
      obtain ⟨b3, hrun3, hm3, hroot3, hdepth3, hfs3, hnit3, hro3, -, -⟩ :=
        BptInsert_split_node b key value b1 ndc hrun hr0 hrlt hl hn4 hos1 (by omega)
      rw [Nat.mod_eq_of_lt (by omega)] at hdepth3
      clear h32a
      have hbS : bS = b3 := (Prod.mk.inj (Except.ok.inj (hrunS.symm.trans hrun3))).2
      refine ⟨BT_OVERFLOW, b1, b3, hrun, Or.inr rfl, hrun3, hbS ▸ hTS, hro3.trans hroot3.symm,
        ?_, ?_⟩
      · intro hc
        exact absurd hc (by decide)
      · intro _
        refine ⟨by rw [hdepth3, hdepth1, hd], hroot3, by rw [hroot3]; exact hfs1, ?_, ?_⟩
        · refine ⟨rootNode (rd (nsOld ndc).keys 1) b.root (b1.filesize + 40), ?_,
            rootNode_fields _ b.root (b1.filesize + 40)⟩
          rw [hroot3, hm3, if_pos rfl, hroot1]
        · right
          refine ⟨ndc, by rw [← hroot1]; exact hl, ?_, ?_⟩
          · rw [hm3, if_neg (by omega), if_pos hroot1.symm]
          · rw [hm3, if_neg (by omega), if_neg (by omega), if_pos rfl]

/-- `BptInsert` on a tree whose root is a leaf with room. -/
theorem BptInsert_leaf_root (b : BPTREE) (key : KEYTYPE) (value : VALTYPE) (lf : BTLEAF)
    (n fuel : Nat) (hfs : b.filesize = fuel + 1) (h0 : b.root ≠ 0)
    (hld : memLoad b.mem b.root = some (.leaf lf)) (hsh : LeafShape lf n) (hn : n < 4) :
    ∃ b1 b2,
      _BptInsertWorker b.filesize { b with header := { b.header with dirty := 1 } } b.root
        key value = .ok (1, b1) ∧
      BptInsert b key value = .ok (1, b2) ∧ b2.root = b.root ∧
      b2.header.rootoff = b.header.rootoff ∧ b2.header.depth = b.header.depth := by
  have hrun := worker_leaf_run key value fuel { b with header := { b.header with dirty := 1 } }
    b.root lf n h0 hld hsh (by omega)
  rw [if_neg (by omega), ← hfs] at hrun
  exact ⟨_, _, hrun, BptInsert_of_worker_one b _ key value hrun, rfl, rfl, rfl⟩

theorem initNewDB_leaf :
    memLoad _BptInitNewDB.mem _BptInitNewDB.root =
      some (.leaf { zeroLeaf with attribs := BT_LEAF }) ∧
    LeafShape { zeroLeaf with attribs := BT_LEAF } 0 :=
  ⟨rfl, rfl, rfl⟩

theorem depthInv_initNewDB : DepthInv _BptInitNewDB := by
  have h : leafDepths _BptInitNewDB.mem (_BptInitNewDB.header.depth + 1) _BptInitNewDB.root =
      [some 0] := leafDepths_leaf initNewDB_leaf.1 (by decide)
  refine ⟨rfl, ?_, ?_⟩
  · rw [h]; exact List.cons_ne_nil _ _
  · intro d hd
    rw [h, List.mem_singleton] at hd
    rw [hd]; rfl

theorem depthInv_zero_iff (b : BPTREE) (h : DepthInv b) :
    b.header.depth = 0 ↔
      ∃ obj, memLoad b.mem b.root = some obj ∧ isLeafWord obj.word0 = true := by
  obtain ⟨-, hne, hall⟩ := h
  constructor
  · intro h0
    rw [h0] at hne hall
    obtain ⟨d, hd⟩ := List.exists_mem_of_ne_nil _ hne
    have hd0 := hall d hd
    subst hd0
    cases hl : memLoad b.mem b.root with
    | none =>
      simp [leafDepths, hl] at hd
    | some obj =>
      by_cases hw : isLeafWord obj.word0 = true
      · exact ⟨obj, rfl, hw⟩
      · cases obj with
        | leaf lf => simp [leafDepths, hl, hw] at hd
        | node nd =>
          have hw2 : isLeafWord nd.nitems = false := by simpa [BTOBJ.word0] using hw
          rw [leafDepths_node hl hw2] at hd
          obtain ⟨x, hx, hx0⟩ := List.mem_map.1 hd
          obtain ⟨l, hl2, hxl⟩ := List.mem_flatten.1 hx
          obtain ⟨c, -, rfl⟩ := List.mem_map.1 hl2
          simp only [leafDepths, List.mem_singleton] at hxl
          subst hxl
          simp at hx0
  · rintro ⟨obj, hl, hw⟩
    rw [leafDepths_leaf hl hw] at hall
    have := hall (some 0) (List.mem_singleton.2 rfl)
    exact (Option.some.inj this).symm

/-- How far C24 holds: when the operating system maps the file in place at every
resize (`os := []`), after every sequence `kvs` of
`BptInsert` calls on a new database that keeps the arena below 2^32 bytes,
`header.rootoff` is the offset of the root and every leaf is `header.depth` levels
below the root (`DepthInv`), with `header.depth = 0` exactly while the root is a
leaf.  One more `BptInsert` returns 1 and keeps this; when `_BptInsertWorker`
returns 1 root and depth stay, and when it returns `BT_OVERFLOW` (the overflow
passed the root) the depth grows by exactly 1 and the new root is a fresh node with
one key and two children, the old root and its split sibling (`RootSplit`). -/
theorem BptInsert_keeps_rootoff_and_depth (kvs : List (KEYTYPE × VALTYPE)) (key : KEYTYPE)
    (value : VALTYPE) (hbd : 1704 * (kvs.length + 1) + 80 < 4294967296) :
    ∃ b res b1 b2,
      insertAll { _BptInitNewDB with os := [] } kvs = .ok b ∧ DepthInv b ∧
      (b.header.depth = 0 ↔
        ∃ obj, memLoad b.mem b.root = some obj ∧ isLeafWord obj.word0 = true) ∧
      _BptInsertWorker b.filesize { b with header := { b.header with dirty := 1 } } b.root
        key value = .ok (res, b1) ∧
      (res = 1 ∨ res = BT_OVERFLOW) ∧
      BptInsert b key value = .ok (1, b2) ∧ DepthInv b2 ∧
      (res = 1 → b2.root = b.root ∧ b2.header.depth = b.header.depth) ∧
      (res = BT_OVERFLOW → b2.header.depth = b.header.depth + 1 ∧ b2.root = b1.filesize ∧
        b.filesize ≤ b2.root ∧ RootSplit b1 b2 b.root (b1.filesize + 40)) := by
  cases kvs with
  | nil =>
    obtain ⟨b1, b2, hrun1, hrun2, hroot, hro, hdepth⟩ :=
      BptInsert_leaf_root _BptInitNewDB key value _ 0 79 rfl (by decide) initNewDB_leaf.1
        initNewDB_leaf.2 (by omega)
    obtain ⟨bF, hrunF, hTF, -, -, -⟩ := BptInsert_first key value
    have hbF : bF = b2 := (Prod.mk.inj (Except.ok.inj (hrunF.symm.trans hrun2))).2
    have hro2 : b2.header.rootoff = b2.root := by rw [hro, hroot]; rfl
    refine ⟨_BptInitNewDB, 1, b1, b2, rfl, depthInv_initNewDB,
      depthInv_zero_iff _ depthInv_initNewDB, hrun1, Or.inl rfl, hrun2,
      depthInv_of_treeOK b2 (hbF ▸ hTF) hro2, fun _ => ⟨hroot, hdepth⟩, ?_⟩
    intro hc
    exact absurd hc (by decide)
  | cons kv rest =>
    obtain ⟨b, hrunb, hinv⟩ := insertAll_new (kv :: rest) (List.cons_ne_nil _ _) (by omega)
    obtain ⟨h32, hnit, hdep⟩ := InsertInv_bounds b (kv :: rest) hinv hbd
    obtain ⟨res, b1, b2, hrun1, hres, hrun2, hT2, hro2, hsame, hsplit⟩ :=
      BptInsert_root_step b key value hinv.tree hinv.rootoff_eq hinv.os_nil h32 hnit hdep
    exact ⟨b, res, b1, b2, hrunb, depthInv_of_treeOK b hinv.tree hinv.rootoff_eq,
      depthInv_zero_iff _ (depthInv_of_treeOK b hinv.tree hinv.rootoff_eq),
      hrun1, hres, hrun2, depthInv_of_treeOK b2 hT2 hro2, hsame, hsplit⟩

theorem BptInsert_keeps_rootoff_and_depth_witness :
    1704 * ((ascending 16).length + 1) + 80 < 4294967296 ∧
    ∃ b res b1 b2,
      insertAll { _BptInitNewDB with os := [] } (ascending 16) = .ok b ∧ DepthInv b ∧
      (b.header.depth = 0 ↔
        ∃ obj, memLoad b.mem b.root = some obj ∧ isLeafWord obj.word0 = true) ∧
      _BptInsertWorker b.filesize { b with header := { b.header with dirty := 1 } } b.root
        17 170 = .ok (res, b1) ∧
      (res = 1 ∨ res = BT_OVERFLOW) ∧
      BptInsert b 17 170 = .ok (1, b2) ∧ DepthInv b2 ∧
      (res = 1 → b2.root = b.root ∧ b2.header.depth = b.header.depth) ∧
      (res = BT_OVERFLOW → b2.header.depth = b.header.depth + 1 ∧ b2.root = b1.filesize ∧
        b.filesize ≤ b2.root ∧ RootSplit b1 b2 b.root (b1.filesize + 40)) :=
  ⟨by decide, BptInsert_keeps_rootoff_and_depth (ascending 16) 17 170 (by decide)⟩

/-! ## Arena growth under the raw pointers of `bptree.c` -/

/-- C24 at a failing input: the keys 1 to 17 inserted in ascending order into a new
database, when the `mmap` of the second resize (344 to 688 bytes) returns another
address.  After sixteen inserts the root is the node at offset 80, named by
`header.rootoff`, and the depth is 1.  In the seventeenth insert the overflow passes
the root; `_BptCreateNode` for the new root needs the bytes 328 to 368, the mapping
moves, and `BptInsert` goes on with the pointer `bpt->root` into the old mapping
(`bpt->root->nitems`, `_BptSplitNode(bpt, bpt->root)`, `(char *)bpt->root -
bpt->baseaddr`), which is `Fault.stale`: no new root with the old root as its
child is installed.  When the resize fails instead, `newroot->nitems = 1` is
written to offset 0, over the header (`Fault.header`).  When the file is mapped at
the same address the new root at offset 328 has the key 9 and the children 80 and
368, and the depth is 2. -/
theorem BptInsert_root_split_with_stale_root :
    (insertAll { _BptInitNewDB with os := [(688, .mappedAt 8192)] } (ascending 16)).map
        (fun b =>
          (b.root, b.header.rootoff, b.header.depth, b.filesize, b.maplen, b.baseaddr)) =
      .ok (80, 80, 1, 276, 344, 0) ∧
    (insertAll { _BptInitNewDB with os := [(688, .mappedAt 8192)] } (ascending 16) >>=
        fun b => _BptInsertWorker b.filesize { b with header := { b.header with dirty := 1 } }
          b.root 17 170).map
        (fun r => (r.1, r.2.filesize, r.2.maplen, (_BptCreateNode r.2).1,
          (_BptCreateNode r.2).2.maplen, (_BptCreateNode r.2).2.baseaddr)) =
      .ok (BT_OVERFLOW, 328, 344, 328, 688, 8192) ∧
    (insertAll { _BptInitNewDB with os := [(688, .mappedAt 8192)] } (ascending 16) >>=
        fun b => BptInsert b 17 170) = .error .stale ∧
    (insertAll { _BptInitNewDB with os := [(688, .failed)] } (ascending 16) >>=
        fun b => BptInsert b 17 170) = .error .header ∧
    (insertAll { _BptInitNewDB with os := [] } (ascending 16) >>=
        fun b => BptInsert b 17 170).map
        (fun r => (r.1, r.2.root, r.2.header.rootoff, r.2.header.depth, r.2.maplen)) =
      .ok (1, 328, 328, 2, 688) ∧
    (insertAll { _BptInitNewDB with os := [] } (ascending 16) >>=
        fun b => BptInsert b 17 170 >>= fun r => r.2.loadNode 328) =
      .ok ⟨1, [9, 0, 0, 0], [80, 368, 0, 0, 0]⟩ :=
  ⟨by decide, by decide, by decide, by decide, by decide, by decide⟩

/-- C28 at a failing input: `_BptSplitLeaf` on the leaf at offset 120 of
`fullArenaTree`, the state in which the ninth ascending `BptInsert` calls it: the
leaf holds `BT_NBRANCHES + 1` pairs sorted by key and the arena is full.  When the
`mmap` of the resize returns another address, the items are copied from the pointer
`leaf` into the old mapping, and `newleaf->prevoff` is the distance of that pointer
from the new `baseaddr` (`Fault.stale`).  When the resize fails, `_BptCreateLeaf`
returns 0 and `_BptSplitLeaf`, which has no check of the offset, writes the new
leaf to offset 0, over the header (`Fault.header`); `_BptSplitNode` in the same
state returns 0 and writes nothing.  When the file is mapped at the same address
the leaf is split into the pairs of keys 5, 6 and 7, 8, 9. -/
theorem BptSplitLeaf_when_arena_grows :
    (insertAll { _BptInitNewDB with os := [(344, .mappedAt 4096)] } (ascending 8) >>=
        fun b =>
          _BptInsertWorker 1 { b with header := { b.header with dirty := 1 } } 120 9 90) =
      .ok (BT_OVERFLOW, fullArenaTree [(344, .mappedAt 4096)]) ∧
    (fullArenaTree [(344, .mappedAt 4096)]).loadLeaf 120 =
      .ok ⟨BT_LEAF + 5, [⟨5, 50⟩, ⟨6, 60⟩, ⟨7, 70⟩, ⟨8, 80⟩, ⟨9, 90⟩], 28, 0⟩ ∧
    (_BptCreateLeaf (fullArenaTree [(344, .mappedAt 4096)])).1 = 172 ∧
    (_BptCreateLeaf (fullArenaTree [(344, .mappedAt 4096)])).2.baseaddr = 4096 ∧
    _BptSplitLeaf (fullArenaTree [(344, .mappedAt 4096)]) 120 = .error .stale ∧
    (_BptCreateLeaf (fullArenaTree [(344, .failed)])).1 = 0 ∧
    _BptSplitLeaf (fullArenaTree [(344, .failed)]) 120 = .error .header ∧
    _BptSplitNode (fullArenaTree [(344, .failed)]) 80 =
      .ok (0, fullArenaTree [(344, .failed)]) ∧
    (_BptSplitLeaf (fullArenaTree []) 120).map
        (fun r =>
          (r.1, (r.2.loadLeaf 120).map BTLEAF.live, (r.2.loadLeaf 172).map BTLEAF.live)) =
      .ok (172, .ok [⟨5, 50⟩, ⟨6, 60⟩], .ok [⟨7, 70⟩, ⟨8, 80⟩, ⟨9, 90⟩]) := by
  decide

end Imgcmp
